import Mathlib

/-!
# github-oauth-client: the three handlers of `main.go` and the library code they run

The program is a Go web server with three handlers (`rootHandler`,
`githubLoginHandler`, `githubCallbackHandler`) and two outbound calls.  The
handlers are short, and what they do is decided by the standard-library
functions they call, so those functions are embedded here too, each from its
Go source: the scanner of `encoding/json` (`scanner.go`), `json.Indent`
(`indent.go`), `json.Unmarshal` into the token-response struct (`decode.go`),
`strconv.Quote` behind the verb `%q` (`quote.go`), `utf8.DecodeRune` and
`utf8.EncodeRune`, and `http.Redirect` (`server.go`).

Conventions of the embedding:

* a Go `string` or `[]byte` is the list of its bytes (`Bytes`), a byte is a
  natural number below 256;
* `log.Fatal*` ends the process: a function that may call it returns an
  `Outcome`, whose `fatal` case carries the logged text;
* the outside world (environment variables, the `.env` file, the two HTTP
  endpoints) is passed in explicitly;
* a handler is a function of the `http.ResponseWriter` it is given, and its
  response is what it has done to that writer: the status code, the headers
  that went out with it, and the bytes written.  What the server does with
  these afterwards on the wire (the `Date` header, content sniffing, dropping
  the body of an answer to `HEAD`) is outside of the handlers;
* a valid JSON document is a text of the grammar of RFC 8259 in well-formed
  UTF-8 (`ValidJson`, `JsonDocument`); the grammar is written down here from
  the RFC, as relations on byte strings, next to the code.  The scanner of
  `encoding/json` (`json.Valid`, the function `Valid` below) is shown to
  accept exactly the texts of the grammar whose arrays and objects are nested
  at most 10000 deep, whether or not they are well-formed UTF-8
  (`valid_iff_jsonText`).
-/

namespace GithubOAuth

/-! ## Byte strings -/

/-- A Go `string` or `[]byte`, as the list of its bytes. -/
abbrev Bytes := List Nat

/-- The bytes of an ASCII string literal of the source. -/
def ascii (s : String) : Bytes := s.toList.map Char.toNat

/-! ## `encoding/json`: the scanner (`scanner.go`) -/

/-- The values returned by the scanner's state transition functions
(`scanContinue` ... `scanError`). -/
inductive Op
  | scanContinue
  | scanBeginLiteral
  | scanBeginObject
  | scanObjectKey
  | scanObjectValue
  | scanEndObject
  | scanBeginArray
  | scanArrayValue
  | scanEndArray
  | scanSkipSpace
  | scanEnd
  | scanError
  deriving DecidableEq, Repr

/-- The entries of the scanner's `parseState` stack. -/
inductive ParseState
  | parseObjectKey
  | parseObjectValue
  | parseArrayValue
  deriving DecidableEq, Repr

/-- The function currently stored in the scanner's `step` field. -/
inductive StepFn
  | stateBeginValueOrEmpty
  | stateBeginValue
  | stateBeginStringOrEmpty
  | stateBeginString
  | stateEndValue
  | stateEndTop
  | stateInString
  | stateInStringEsc
  | stateInStringEscU
  | stateInStringEscU1
  | stateInStringEscU12
  | stateInStringEscU123
  | stateNeg
  | state1
  | state0
  | stateDot
  | stateDot0
  | stateE
  | stateESign
  | stateE0
  | stateT
  | stateTr
  | stateTru
  | stateF
  | stateFa
  | stateFal
  | stateFals
  | stateN
  | stateNu
  | stateNul
  | stateError
  deriving DecidableEq, Repr

/-- A `*SyntaxError`: the offending byte and the context of the message
(`invalid character <c> <context>`, or the whole message when there is no
byte), and the offset. -/
structure SyntaxError where
  char : Option Nat
  context : String
  offset : Nat
  deriving DecidableEq, Repr

/-- The `scanner` struct.  `parseState` is a stack: the head of the list is
the last element of the Go slice. -/
structure Scanner where
  step : StepFn
  endTop : Bool
  parseState : List ParseState
  err : Option SyntaxError
  bytes : Nat
  deriving DecidableEq, Repr

/-- The limit `maxNestingDepth` on nested arrays and objects. -/
def maxNestingDepth : Nat := 10000

/-- A scanner after `newScanner` / `reset`. -/
def newScanner : Scanner :=
  { step := .stateBeginValue, endTop := false, parseState := [], err := none, bytes := 0 }

/-- The method `(*scanner).reset`; `bytes` is left as it is. -/
def Scanner.reset (s : Scanner) : Scanner :=
  { s with step := .stateBeginValue, parseState := [], err := none, endTop := false }

/-- The method `(*scanner).error`: records the error and kills the scanner. -/
def Scanner.error (s : Scanner) (c : Nat) (context : String) : Scanner × Op :=
  ({ s with step := .stateError, err := some ⟨some c, context, s.bytes⟩ }, .scanError)

/-- The method `(*scanner).pushParseState`. -/
def Scanner.pushParseState (s : Scanner) (c : Nat) (newParseState : ParseState)
    (successState : Op) : Scanner × Op :=
  let s := { s with parseState := newParseState :: s.parseState }
  if s.parseState.length ≤ maxNestingDepth then (s, successState)
  else s.error c "exceeded max depth"

/-- The method `(*scanner).popParseState`. -/
def Scanner.popParseState (s : Scanner) : Scanner :=
  let s := { s with parseState := s.parseState.tail }
  if s.parseState.length = 0 then { s with step := .stateEndTop, endTop := true }
  else { s with step := .stateEndValue }

/-- The function `isSpace`: space, tab, carriage return, newline. -/
def isSpace (c : Nat) : Bool := c ≤ 32 && (c = 32 || c = 9 || c = 13 || c = 10)

/-- A decimal digit `'0'..'9'`. -/
def isDigit (c : Nat) : Bool := 48 ≤ c && c ≤ 57

/-- A digit `'1'..'9'`. -/
def isDigit19 (c : Nat) : Bool := 49 ≤ c && c ≤ 57

/-- A hexadecimal digit, as tested in the `\u` escape states. -/
def isHex (c : Nat) : Bool :=
  (48 ≤ c && c ≤ 57) || (97 ≤ c && c ≤ 102) || (65 ≤ c && c ≤ 70)

/-- The state after a completed top-level value. -/
def stateEndTop (s : Scanner) (c : Nat) : Scanner × Op :=
  if !isSpace c then ((s.error c "after top-level value").1, .scanEnd)
  else (s, .scanEnd)

/-- The state after completing a value, such as after reading `{}` or `true`. -/
def stateEndValue (s : Scanner) (c : Nat) : Scanner × Op :=
  match s.parseState with
  | [] => stateEndTop { s with step := .stateEndTop, endTop := true } c
  | ps :: rest =>
    if isSpace c then ({ s with step := .stateEndValue }, .scanSkipSpace)
    else
      match ps with
      | .parseObjectKey =>
        if c = 58 then
          ({ s with parseState := .parseObjectValue :: rest, step := .stateBeginValue },
            .scanObjectKey)
        else s.error c "after object key"
      | .parseObjectValue =>
        if c = 44 then
          ({ s with parseState := .parseObjectKey :: rest, step := .stateBeginString },
            .scanObjectValue)
        else if c = 125 then (s.popParseState, .scanEndObject)
        else s.error c "after object key:value pair"
      | .parseArrayValue =>
        if c = 44 then ({ s with step := .stateBeginValue }, .scanArrayValue)
        else if c = 93 then (s.popParseState, .scanEndArray)
        else s.error c "after array element"

/-- The state at the beginning of the input or of a value. -/
def stateBeginValue (s : Scanner) (c : Nat) : Scanner × Op :=
  if isSpace c then (s, .scanSkipSpace)
  else if c = 123 then
    Scanner.pushParseState { s with step := .stateBeginStringOrEmpty } c .parseObjectKey
      .scanBeginObject
  else if c = 91 then
    Scanner.pushParseState { s with step := .stateBeginValueOrEmpty } c .parseArrayValue
      .scanBeginArray
  else if c = 34 then ({ s with step := .stateInString }, .scanBeginLiteral)
  else if c = 45 then ({ s with step := .stateNeg }, .scanBeginLiteral)
  else if c = 48 then ({ s with step := .state0 }, .scanBeginLiteral)
  else if c = 116 then ({ s with step := .stateT }, .scanBeginLiteral)
  else if c = 102 then ({ s with step := .stateF }, .scanBeginLiteral)
  else if c = 110 then ({ s with step := .stateN }, .scanBeginLiteral)
  else if isDigit19 c then ({ s with step := .state1 }, .scanBeginLiteral)
  else s.error c "looking for beginning of value"

/-- The state after reading `[`. -/
def stateBeginValueOrEmpty (s : Scanner) (c : Nat) : Scanner × Op :=
  if isSpace c then (s, .scanSkipSpace)
  else if c = 93 then stateEndValue s c
  else stateBeginValue s c

/-- The state after reading `{"key": value,`. -/
def stateBeginString (s : Scanner) (c : Nat) : Scanner × Op :=
  if isSpace c then (s, .scanSkipSpace)
  else if c = 34 then ({ s with step := .stateInString }, .scanBeginLiteral)
  else s.error c "looking for beginning of object key string"

/-- The state after reading `{`. -/
def stateBeginStringOrEmpty (s : Scanner) (c : Nat) : Scanner × Op :=
  if isSpace c then (s, .scanSkipSpace)
  else if c = 125 then
    stateEndValue { s with parseState := .parseObjectValue :: s.parseState.tail } c
  else stateBeginString s c

/-- The state after reading a quotation mark. -/
def stateInString (s : Scanner) (c : Nat) : Scanner × Op :=
  if c = 34 then ({ s with step := .stateEndValue }, .scanContinue)
  else if c = 92 then ({ s with step := .stateInStringEsc }, .scanContinue)
  else if c < 32 then s.error c "in string literal"
  else (s, .scanContinue)

/-- The state after reading a backslash inside a quoted string. -/
def stateInStringEsc (s : Scanner) (c : Nat) : Scanner × Op :=
  if c = 98 || c = 102 || c = 110 || c = 114 || c = 116 || c = 92 || c = 47 || c = 34 then
    ({ s with step := .stateInString }, .scanContinue)
  else if c = 117 then ({ s with step := .stateInStringEscU }, .scanContinue)
  else s.error c "in string escape code"

/-- The four states after reading `\u` and zero to three hexadecimal digits;
`next` is the state that follows a further digit. -/
def stateInStringEscHex (next : StepFn) (s : Scanner) (c : Nat) : Scanner × Op :=
  if isHex c then ({ s with step := next }, .scanContinue)
  else s.error c "in \\u hexadecimal character escape"

/-- The state after reading a completed exponent digit, `1e5`. -/
def stateE0 (s : Scanner) (c : Nat) : Scanner × Op :=
  if isDigit c then (s, .scanContinue) else stateEndValue s c

/-- The state after reading the mantissa, `e` and a sign. -/
def stateESign (s : Scanner) (c : Nat) : Scanner × Op :=
  if isDigit c then ({ s with step := .stateE0 }, .scanContinue)
  else s.error c "in exponent of numeric literal"

/-- The state after reading the mantissa and `e`. -/
def stateE (s : Scanner) (c : Nat) : Scanner × Op :=
  if c = 43 || c = 45 then ({ s with step := .stateESign }, .scanContinue)
  else stateESign s c

/-- The state after reading the integer, decimal point and a digit. -/
def stateDot0 (s : Scanner) (c : Nat) : Scanner × Op :=
  if isDigit c then (s, .scanContinue)
  else if c = 101 || c = 69 then ({ s with step := .stateE }, .scanContinue)
  else stateEndValue s c

/-- The state after reading the integer and decimal point. -/
def stateDot (s : Scanner) (c : Nat) : Scanner × Op :=
  if isDigit c then ({ s with step := .stateDot0 }, .scanContinue)
  else s.error c "after decimal point in numeric literal"

/-- The state after reading `0` during a number. -/
def state0 (s : Scanner) (c : Nat) : Scanner × Op :=
  if c = 46 then ({ s with step := .stateDot }, .scanContinue)
  else if c = 101 || c = 69 then ({ s with step := .stateE }, .scanContinue)
  else stateEndValue s c

/-- The state after reading a non-zero integer during a number. -/
def state1 (s : Scanner) (c : Nat) : Scanner × Op :=
  if isDigit c then ({ s with step := .state1 }, .scanContinue)
  else state0 s c

/-- The state after reading `-` during a number. -/
def stateNeg (s : Scanner) (c : Nat) : Scanner × Op :=
  if c = 48 then ({ s with step := .state0 }, .scanContinue)
  else if isDigit19 c then ({ s with step := .state1 }, .scanContinue)
  else s.error c "in numeric literal"

/-- The states inside the literals `true`, `false` and `null`: the byte
`want` leads to `next`, any other byte is an error. -/
def stateLiteral (want : Nat) (next : StepFn) (context : String) (s : Scanner) (c : Nat) :
    Scanner × Op :=
  if c = want then ({ s with step := next }, .scanContinue)
  else s.error c context

/-- The call `s.step(s, c)`: runs the state function stored in `s.step`. -/
def Scanner.doStep (s : Scanner) (c : Nat) : Scanner × Op :=
  match s.step with
  | .stateBeginValueOrEmpty => stateBeginValueOrEmpty s c
  | .stateBeginValue => stateBeginValue s c
  | .stateBeginStringOrEmpty => stateBeginStringOrEmpty s c
  | .stateBeginString => stateBeginString s c
  | .stateEndValue => stateEndValue s c
  | .stateEndTop => stateEndTop s c
  | .stateInString => stateInString s c
  | .stateInStringEsc => stateInStringEsc s c
  | .stateInStringEscU => stateInStringEscHex .stateInStringEscU1 s c
  | .stateInStringEscU1 => stateInStringEscHex .stateInStringEscU12 s c
  | .stateInStringEscU12 => stateInStringEscHex .stateInStringEscU123 s c
  | .stateInStringEscU123 => stateInStringEscHex .stateInString s c
  | .stateNeg => stateNeg s c
  | .state1 => state1 s c
  | .state0 => state0 s c
  | .stateDot => stateDot s c
  | .stateDot0 => stateDot0 s c
  | .stateE => stateE s c
  | .stateESign => stateESign s c
  | .stateE0 => stateE0 s c
  | .stateT => stateLiteral 114 .stateTr "in literal true (expecting 'r')" s c
  | .stateTr => stateLiteral 117 .stateTru "in literal true (expecting 'u')" s c
  | .stateTru => stateLiteral 101 .stateEndValue "in literal true (expecting 'e')" s c
  | .stateF => stateLiteral 97 .stateFa "in literal false (expecting 'a')" s c
  | .stateFa => stateLiteral 108 .stateFal "in literal false (expecting 'l')" s c
  | .stateFal => stateLiteral 115 .stateFals "in literal false (expecting 's')" s c
  | .stateFals => stateLiteral 101 .stateEndValue "in literal false (expecting 'e')" s c
  | .stateN => stateLiteral 117 .stateNu "in literal null (expecting 'u')" s c
  | .stateNu => stateLiteral 108 .stateNul "in literal null (expecting 'l')" s c
  | .stateNul => stateLiteral 108 .stateEndValue "in literal null (expecting 'l')" s c
  | .stateError => (s, .scanError)

/-- The method `(*scanner).eof`: tells the scanner that the input has ended. -/
def Scanner.eof (s : Scanner) : Scanner × Op :=
  if s.err.isSome then (s, .scanError)
  else if s.endTop then (s, .scanEnd)
  else
    let s := (s.doStep 32).1
    if s.endTop then (s, .scanEnd)
    else if s.err.isNone then
      ({ s with err := some ⟨none, "unexpected end of JSON input", s.bytes⟩ }, .scanError)
    else (s, .scanError)

/-- The loop of `checkValid`, after `scan.reset()`. -/
def checkValidLoop : Scanner → Bytes → Scanner × Option SyntaxError
  | scan, [] =>
    match scan.eof with
    | (scan, .scanError) => (scan, scan.err)
    | (scan, _) => (scan, none)
  | scan, c :: data =>
    match Scanner.doStep { scan with bytes := scan.bytes + 1 } c with
    | (scan, .scanError) => (scan, scan.err)
    | (scan, _) => checkValidLoop scan data

/-- The function `checkValid`: the error of `data` as a JSON text, if any. -/
def checkValid (data : Bytes) (scan : Scanner) : Scanner × Option SyntaxError :=
  checkValidLoop scan.reset data

/-- The function `json.Valid`: whether `data` is a valid JSON encoding, as
the scanner sees it. -/
def Valid (data : Bytes) : Bool := (checkValid data newScanner).2.isNone

/-! ## `encoding/json`: `Indent` (`indent.go`) -/

/-- The function `appendNewline`: a newline, the prefix, and `depth` copies
of the indentation. -/
def appendNewline (dst pfx indent : Bytes) (depth : Int) : Bytes :=
  dst ++ [10] ++ pfx ++ (List.replicate depth.toNat indent).flatten

/-- The local variables of `appendIndent` that live across its loop. -/
structure IndentState where
  scan : Scanner
  needIndent : Bool
  depth : Int
  dst : Bytes
  deriving DecidableEq, Repr

/-- The first statement of the loop body of `appendIndent` after the scanner
has accepted a byte: `if needIndent && v != scanEndObject && v != scanEndArray`
opens a new line one level deeper. -/
def indentOpen (pfx indent : Bytes) (st : IndentState) (v : Op) : IndentState :=
  if st.needIndent && v != .scanEndObject && v != .scanEndArray then
    { st with needIndent := false, depth := st.depth + 1,
              dst := appendNewline st.dst pfx indent (st.depth + 1) }
  else st

/-- The rest of the loop body of `appendIndent`: a byte inside a literal is
copied (`v == scanContinue`), and so is every other byte, with spacing around
the punctuation (`switch c`). -/
def indentEmit (pfx indent : Bytes) (st : IndentState) (v : Op) (c : Nat) : IndentState :=
  if v = .scanContinue then { st with dst := st.dst ++ [c] }
  else if c = 123 || c = 91 then { st with needIndent := true, dst := st.dst ++ [c] }
  else if c = 44 then { st with dst := appendNewline (st.dst ++ [c]) pfx indent st.depth }
  else if c = 58 then { st with dst := st.dst ++ [c, 32] }
  else if c = 125 || c = 93 then
    if st.needIndent then { st with needIndent := false, dst := st.dst ++ [c] }
    else
      { st with depth := st.depth - 1,
                dst := appendNewline st.dst pfx indent (st.depth - 1) ++ [c] }
  else { st with dst := st.dst ++ [c] }

/-- One iteration of the loop of `appendIndent` on the byte `c`; the flag is
true when the iteration leaves the loop (`break`). -/
def appendIndentByte (pfx indent : Bytes) (st : IndentState) (c : Nat) : IndentState × Bool :=
  match Scanner.doStep { st.scan with bytes := st.scan.bytes + 1 } c with
  | (scan, v) =>
    if v = .scanSkipSpace then ({ st with scan := scan }, false)
    else if v = .scanError then ({ st with scan := scan }, true)
    else (indentEmit pfx indent (indentOpen pfx indent { st with scan := scan } v) v c, false)

/-- The loop `for _, c := range src` of `appendIndent`. -/
def appendIndentLoop (pfx indent : Bytes) : IndentState → Bytes → IndentState
  | st, [] => st
  | st, c :: src =>
    match appendIndentByte pfx indent st c with
    | (st, true) => st
    | (st, false) => appendIndentLoop pfx indent st src

/-- The function `appendIndent`: the indented form of `src` appended to
`dst`, or `dst` cut back to its original length and the syntax error. -/
def appendIndent (dst src pfx indent : Bytes) : Bytes × Option SyntaxError :=
  let origLen := dst.length
  let st := appendIndentLoop pfx indent
    { scan := newScanner, needIndent := false, depth := 0, dst := dst } src
  match st.scan.eof with
  | (scan, .scanError) => (st.dst.take origLen, scan.err)
  | _ => (st.dst, none)

/-- The function `json.Indent`: appends to the buffer `dst` the indented form
of `src`; on an error nothing is appended. -/
def Indent (dst src pfx indent : Bytes) : Bytes × Option SyntaxError :=
  match appendIndent [] src pfx indent with
  | (b, err) => (dst ++ b, err)

/-! ## `unicode/utf8` -/

/-- The constant `utf8.RuneError`, U+FFFD. -/
def RuneError : Nat := 0xFFFD

/-- The table `first`: information about the first byte of a UTF-8 sequence
(`as` is 0xF0, `xx` is 0xF1, otherwise the accept-range index in the high
nibble and the size in the low one). -/
def first (b : Nat) : Nat :=
  if b < 0x80 then 0xF0
  else if b < 0xC2 then 0xF1
  else if b < 0xE0 then 0x02
  else if b = 0xE0 then 0x13
  else if b < 0xED then 0x03
  else if b = 0xED then 0x23
  else if b < 0xF0 then 0x03
  else if b = 0xF0 then 0x34
  else if b < 0xF4 then 0x04
  else if b = 0xF4 then 0x44
  else 0xF1

/-- The table `acceptRanges`: the range of valid values of the second byte. -/
def acceptRanges (i : Nat) : Nat × Nat :=
  match i with
  | 0 => (0x80, 0xBF)
  | 1 => (0xA0, 0xBF)
  | 2 => (0x80, 0x9F)
  | 3 => (0x90, 0xBF)
  | 4 => (0x80, 0x8F)
  | _ => (0, 0)

/-- The function `utf8.DecodeRune` (and `DecodeRuneInString`): the first rune
of `p` and its width in bytes; `(RuneError, 1)` for an invalid encoding. -/
def DecodeRune (p : Bytes) : Nat × Nat :=
  match p with
  | [] => (RuneError, 0)
  | p0 :: _ =>
    let x := first p0
    if x ≥ 0xF0 then (if x % 2 = 1 then RuneError else p0, 1)
    else
      let sz := x &&& 7
      let accept := acceptRanges (x >>> 4)
      if p.length < sz then (RuneError, 1)
      else
        let b1 := p.getD 1 0
        if b1 < accept.1 || accept.2 < b1 then (RuneError, 1)
        else if sz ≤ 2 then (((p0 &&& 0x1F) <<< 6) ||| (b1 &&& 0x3F), 2)
        else
          let b2 := p.getD 2 0
          if b2 < 0x80 || 0xBF < b2 then (RuneError, 1)
          else if sz ≤ 3 then
            (((p0 &&& 0x0F) <<< 12) ||| ((b1 &&& 0x3F) <<< 6) ||| (b2 &&& 0x3F), 3)
          else
            let b3 := p.getD 3 0
            if b3 < 0x80 || 0xBF < b3 then (RuneError, 1)
            else
              (((p0 &&& 0x07) <<< 18) ||| ((b1 &&& 0x3F) <<< 12) ||| ((b2 &&& 0x3F) <<< 6)
                ||| (b3 &&& 0x3F), 4)

/-- The function `utf8.AppendRune` applied to an empty slice (also the bytes
written by `utf8.EncodeRune`): the UTF-8 encoding of the rune `r`. -/
def EncodeRune (r : Nat) : Bytes :=
  if r ≤ 0x7F then [r]
  else if r ≤ 0x7FF then [0xC0 ||| (r >>> 6), 0x80 ||| (r &&& 0x3F)]
  else
    let r := if r > 0x10FFFF || (0xD800 ≤ r && r ≤ 0xDFFF) then RuneError else r
    if r ≤ 0xFFFF then
      [0xE0 ||| (r >>> 12), 0x80 ||| ((r >>> 6) &&& 0x3F), 0x80 ||| (r &&& 0x3F)]
    else
      [0xF0 ||| (r >>> 18), 0x80 ||| ((r >>> 12) &&& 0x3F), 0x80 ||| ((r >>> 6) &&& 0x3F),
        0x80 ||| (r &&& 0x3F)]

/-! ## Parts of the standard library that are taken as given -/

/-- The Unicode tables and the two library routines that the program reaches
but whose results no property here depends on: they are parameters of the
embedding. -/
structure Library where
  /-- The table lookup of `strconv.IsPrint` for runes above U+00FF. -/
  isPrintTable : Nat → Bool
  /-- The function `foldRune` of `encoding/json` (the smallest rune of the
  orbit of `unicode.SimpleFold`) on runes from U+0080. -/
  foldRune : Nat → Nat
  /-- The rest of `url.Parse`, after the scheme has been split off: the host,
  or nothing when parsing fails.  Arguments: the lower-cased scheme, the text
  after the scheme, and the fragment. -/
  urlParseRest : Bytes → Bytes → Bytes → Option Bytes
  /-- The rewriting by `http.Redirect` of a URL that has neither scheme nor
  host, relative to the path of the request (`path.Split`, `path.Clean`). -/
  redirectRelative : Bytes → Bytes → Bytes

/-! ## `strconv`: `Quote`, behind the verb `%q` (`quote.go`) -/

/-- The string `lowerhex`, indexed: the digit for a value below 16. -/
def lowerhex (n : Nat) : Nat := if n < 10 then 48 + n else 87 + n

/-- The function `strconv.IsPrint`. -/
def IsPrint (lib : Library) (r : Nat) : Bool :=
  if r ≤ 0xFF then
    if 0x20 ≤ r && r ≤ 0x7E then true
    else if 0xA1 ≤ r && r ≤ 0xFF then r != 0xAD
    else false
  else lib.isPrintTable r

/-- The hexadecimal digits of `r` from bit `4 * n - 4` down to bit 0. -/
def hexDigits (r : Nat) : Nat → Bytes
  | 0 => []
  | n + 1 => lowerhex ((r >>> (4 * n)) &&& 0xF) :: hexDigits r n

/-- The function `appendEscapedRune` with `ASCIIonly` and `graphicOnly`
false, as `Quote` calls it. -/
def appendEscapedRune (lib : Library) (buf : Bytes) (r : Nat) (quote : Nat) : Bytes :=
  if r = quote || r = 92 then buf ++ [92, r]
  else if IsPrint lib r then buf ++ EncodeRune r
  else if r = 7 then buf ++ ascii "\\a"
  else if r = 8 then buf ++ ascii "\\b"
  else if r = 12 then buf ++ ascii "\\f"
  else if r = 10 then buf ++ ascii "\\n"
  else if r = 13 then buf ++ ascii "\\r"
  else if r = 9 then buf ++ ascii "\\t"
  else if r = 11 then buf ++ ascii "\\v"
  else if r < 32 || r = 0x7F then buf ++ ascii "\\x" ++ [lowerhex (r >>> 4), lowerhex (r &&& 0xF)]
  else if r > 0x10FFFF || (0xD800 ≤ r && r ≤ 0xDFFF) then
    buf ++ ascii "\\u" ++ hexDigits 0xFFFD 4
  else if r < 0x10000 then buf ++ ascii "\\u" ++ hexDigits r 4
  else buf ++ ascii "\\U" ++ hexDigits r 8

/-- The loop of `appendQuotedWith`; each iteration consumes at least one
byte of `s`, so `fuel` at least the length of `s` completes it. -/
def appendQuotedLoop (lib : Library) (quote : Nat) : Nat → Bytes → Bytes → Bytes
  | 0, buf, _ => buf
  | _ + 1, buf, [] => buf
  | fuel + 1, buf, s0 :: s =>
    let (r, width) := if s0 ≥ 0x80 then DecodeRune (s0 :: s) else (s0, 1)
    if width = 1 && r = RuneError then
      appendQuotedLoop lib quote fuel
        (buf ++ ascii "\\x" ++ [lowerhex (s0 >>> 4), lowerhex (s0 &&& 0xF)]) s
    else
      appendQuotedLoop lib quote fuel (appendEscapedRune lib buf r quote)
        ((s0 :: s).drop width)

/-- The function `strconv.Quote`, the rendering of a string operand by `%q`:
a double-quoted Go string literal. -/
def Quote (lib : Library) (s : Bytes) : Bytes :=
  appendQuotedLoop lib 34 s.length [34] s ++ [34]

/-! ## `encoding/json`: `Unmarshal` into the token response (`decode.go`) -/

/-- The function `getu4`: the rune of a `\uXXXX` escape at the start of `s`,
or nothing (Go returns -1). -/
def getu4 (s : Bytes) : Option Nat :=
  match s with
  | 92 :: 117 :: a :: b :: c :: d :: _ =>
    let digit (c : Nat) : Option Nat :=
      if 48 ≤ c && c ≤ 57 then some (c - 48)
      else if 97 ≤ c && c ≤ 102 then some (c - 97 + 10)
      else if 65 ≤ c && c ≤ 70 then some (c - 65 + 10)
      else none
    match digit a, digit b, digit c, digit d with
    | some a, some b, some c, some d => some (((a * 16 + b) * 16 + c) * 16 + d)
    | _, _, _, _ => none
  | _ => none

/-- The function `utf16.DecodeRune`, the second half being possibly absent. -/
def utf16DecodeRune (r1 : Nat) (r2 : Option Nat) : Nat :=
  match r2 with
  | some r2 =>
    if 0xD800 ≤ r1 && r1 < 0xDC00 && 0xDC00 ≤ r2 && r2 < 0xE000 then
      (((r1 - 0xD800) <<< 10) ||| (r2 - 0xDC00)) + 0x10000
    else RuneError
  | none => RuneError

/-- The first loop of `unquoteBytes`: the number of leading bytes that need
no unquoting. -/
def unquotePlain : Nat → Bytes → Nat
  | 0, _ => 0
  | _ + 1, [] => 0
  | fuel + 1, c :: s =>
    if c = 92 || c = 34 || c < 32 then 0
    else if c < 0x80 then 1 + unquotePlain fuel s
    else
      let (rr, size) := DecodeRune (c :: s)
      if rr = RuneError && size = 1 then 0
      else size + unquotePlain fuel ((c :: s).drop size)

/-- The second loop of `unquoteBytes`, on the bytes `s` still to read, with
the output `b` so far. -/
def unquoteLoop : Nat → Bytes → Bytes → Option Bytes
  | 0, _, _ => none
  | _ + 1, [], b => some b
  | fuel + 1, c :: s, b =>
    if c = 92 then
      match s with
      | [] => none
      | e :: s1 =>
        if e = 34 || e = 92 || e = 47 || e = 39 then unquoteLoop fuel s1 (b ++ [e])
        else if e = 98 then unquoteLoop fuel s1 (b ++ [8])
        else if e = 102 then unquoteLoop fuel s1 (b ++ [12])
        else if e = 110 then unquoteLoop fuel s1 (b ++ [10])
        else if e = 114 then unquoteLoop fuel s1 (b ++ [13])
        else if e = 116 then unquoteLoop fuel s1 (b ++ [9])
        else if e = 117 then
          match getu4 (c :: s) with
          | none => none
          | some rr =>
            let s6 := (c :: s).drop 6
            if 0xD800 ≤ rr && rr < 0xE000 then
              let dec := utf16DecodeRune rr (getu4 s6)
              if dec ≠ RuneError then unquoteLoop fuel (s6.drop 6) (b ++ EncodeRune dec)
              else unquoteLoop fuel s6 (b ++ EncodeRune RuneError)
            else unquoteLoop fuel s6 (b ++ EncodeRune rr)
        else none
    else if c = 34 || c < 32 then none
    else if c < 0x80 then unquoteLoop fuel s (b ++ [c])
    else
      let (rr, size) := DecodeRune (c :: s)
      unquoteLoop fuel ((c :: s).drop size) (b ++ EncodeRune rr)

/-- The function `unquoteBytes`: the string denoted by the quoted JSON string
literal `s`, or nothing when `s` is not one. -/
def unquoteBytes (s : Bytes) : Option Bytes :=
  if s.length < 2 || s.head? != some 34 || s.getLast? != some 34 then none
  else
    let s := (s.drop 1).dropLast
    let r := unquotePlain s.length s
    if r = s.length then some s
    else unquoteLoop (s.length + 1) (s.drop r) (s.take r)

/-- The struct `githubAccessTokenResponse` declared in `getGithubAccessToken`. -/
structure githubAccessTokenResponse where
  AccessToken : Bytes
  TokenType : Bytes
  Scope : Bytes
  deriving DecidableEq, Repr

/-- The fields of `githubAccessTokenResponse`, in the order of declaration. -/
inductive Field
  | AccessToken
  | TokenType
  | Scope
  deriving DecidableEq, Repr

/-- The name given to a field by its `json:"..."` tag. -/
def Field.name : Field → Bytes
  | .AccessToken => ascii "access_token"
  | .TokenType => ascii "token_type"
  | .Scope => ascii "scope"

/-- The assignment `v.SetString(t)` to a field of the struct. -/
def githubAccessTokenResponse.set (g : githubAccessTokenResponse) (f : Field) (t : Bytes) :
    githubAccessTokenResponse :=
  match f with
  | .AccessToken => { g with AccessToken := t }
  | .TokenType => { g with TokenType := t }
  | .Scope => { g with Scope := t }

/-- The errors `json.Unmarshal` can return here: a `*SyntaxError`, an
`*UnmarshalTypeError` (with its `Value`: the kind of JSON value found), or the
decoder's panic on input its scanner and its reader disagree about. -/
inductive UnmarshalError
  | syntaxError (e : SyntaxError)
  | typeError (value : String)
  | phasePanic
  deriving DecidableEq, Repr

/-- The function `appendFoldedName` (`foldName`): the case-folded form of a
key, under which fields are looked up when no field has the exact name. -/
def appendFoldedName (lib : Library) : Nat → Bytes → Bytes
  | 0, _ => []
  | _ + 1, [] => []
  | fuel + 1, c :: s =>
    if c < 0x80 then
      (if 97 ≤ c && c ≤ 122 then c - 32 else c) :: appendFoldedName lib fuel s
    else
      let (r, n) := DecodeRune (c :: s)
      EncodeRune (lib.foldRune r) ++ appendFoldedName lib fuel ((c :: s).drop n)

/-- The function `foldName`. -/
def foldName (lib : Library) (s : Bytes) : Bytes := appendFoldedName lib s.length s

/-- The lookup `fields.byExactName[key]`, and failing that
`fields.byFoldedName[foldName(key)]`, in which the first field of a folded
name wins. -/
def lookupField (lib : Library) (key : Bytes) : Option Field :=
  let fields := [Field.AccessToken, Field.TokenType, Field.Scope]
  match fields.find? (fun f => f.name = key) with
  | some f => some f
  | none => fields.find? (fun f => foldName lib f.name = foldName lib key)

/-- The value a call of `d.value` decodes into: the struct itself, one of its
string fields, or nothing (an invalid `reflect.Value`, for an unknown key). -/
inductive Target
  | struct
  | field (f : Field)
  | invalid
  deriving DecidableEq, Repr

/-- The struct `decodeState`, with the value being filled. -/
structure DecodeState where
  data : Bytes
  off : Nat
  opcode : Op
  scan : Scanner
  savedError : Option UnmarshalError
  out : githubAccessTokenResponse
  deriving DecidableEq, Repr

/-- The method `(*decodeState).saveError`: keeps the first error. -/
def DecodeState.saveError (d : DecodeState) (err : UnmarshalError) : DecodeState :=
  if d.savedError.isNone then { d with savedError := some err } else d

/-- The loop of `(*decodeState).scanWhile`, from offset `i`, on the bytes
`data[i:]`. -/
def scanWhileLoop (op : Op) (len : Nat) : Scanner → Bytes → Nat → Scanner × Nat × Op
  | s, [], _ => match s.eof with | (s, newOp) => (s, len + 1, newOp)
  | s, c :: rest, i =>
    match s.doStep c with
    | (s, newOp) => if newOp ≠ op then (s, i + 1, newOp) else scanWhileLoop op len s rest (i + 1)

/-- The method `(*decodeState).scanWhile`: processes bytes until the scanner
returns a code other than `op`. -/
def DecodeState.scanWhile (d : DecodeState) (op : Op) : DecodeState :=
  match scanWhileLoop op d.data.length d.scan (d.data.drop d.off) d.off with
  | (s, off, newOp) => { d with scan := s, off := off, opcode := newOp }

/-- The method `(*decodeState).scanNext`. -/
def DecodeState.scanNext (d : DecodeState) : DecodeState :=
  if d.off < d.data.length then
    match d.scan.doStep (d.data.getD d.off 0) with
    | (s, op) => { d with scan := s, opcode := op, off := d.off + 1 }
  else
    match d.scan.eof with
    | (s, op) => { d with scan := s, opcode := op, off := d.data.length + 1 }

/-- The loop of `(*decodeState).skip`, from offset `i`, on the bytes
`data[i:]`; running off the end of the data is an index panic in Go. -/
def skipLoop (depth : Nat) : Scanner → Bytes → Nat → Option (Scanner × Nat × Op)
  | _, [], _ => none
  | s, c :: rest, i =>
    match s.doStep c with
    | (s, op) =>
      if s.parseState.length < depth then some (s, i + 1, op) else skipLoop depth s rest (i + 1)

/-- The method `(*decodeState).skip`: scans to the end of the array or object
that has just been opened. -/
def DecodeState.skip (d : DecodeState) : Option DecodeState :=
  match skipLoop d.scan.parseState.length d.scan (d.data.drop d.off) d.off with
  | some (s, off, op) => some { d with scan := s, off := off, opcode := op }
  | none => none

/-- The string case of `rescanLiteral`: the offset after the closing quote,
from offset `i` on the bytes `data[i:]`. -/
def rescanString : Bytes → Nat → Nat
  | [], i => i
  | [c], i => if c = 92 then i + 2 else i + 1
  | c :: c1 :: rest, i =>
    if c = 92 then rescanString rest (i + 2)
    else if c = 34 then i + 1
    else rescanString (c1 :: rest) (i + 1)

/-- The number case of `rescanLiteral`: the offset of the first byte that is
not one of `0123456789.eE+-`. -/
def rescanNumber : Bytes → Nat → Nat
  | [], i => i
  | c :: rest, i =>
    if isDigit c || c = 46 || c = 101 || c = 69 || c = 43 || c = 45 then
      rescanNumber rest (i + 1)
    else i

/-- The method `(*decodeState).rescanLiteral`: moves to the end of the
literal whose first byte has just been read. -/
def DecodeState.rescanLiteral (d : DecodeState) : DecodeState :=
  let c0 := d.data.getD (d.off - 1) 0
  let i :=
    if c0 = 34 then rescanString (d.data.drop d.off) d.off
    else if isDigit c0 || c0 = 45 then rescanNumber (d.data.drop d.off) d.off
    else if c0 = 116 then d.off + 3
    else if c0 = 102 then d.off + 4
    else if c0 = 110 then d.off + 3
    else d.off
  if i < d.data.length then
    match stateEndValue d.scan (d.data.getD i 0) with
    | (s, op) => { d with scan := s, opcode := op, off := i + 1 }
  else { d with opcode := .scanEnd, off := i + 1 }

/-- The method `(*decodeState).literalStore` for a literal `item`. -/
def DecodeState.literalStore (d : DecodeState) (item : Bytes) (v : Target) :
    Except UnmarshalError DecodeState :=
  match item with
  | [] => .ok (d.saveError (.typeError "invalid use of ,string struct tag"))
  | c :: _ =>
    if c = 110 then .ok d
    else if c = 116 || c = 102 then .ok (d.saveError (.typeError "bool"))
    else if c = 34 then
      match unquoteBytes item with
      | none => .error .phasePanic
      | some s =>
        match v with
        | .field f => .ok { d with out := d.out.set f s }
        | _ => .ok (d.saveError (.typeError "string"))
    else
      if c ≠ 45 && (c < 48 || c > 57) then .error .phasePanic
      else .ok (d.saveError (.typeError "number"))

/-- The method `(*decodeState).value` for a target that is a string field or
invalid: arrays and objects are skipped (with a type error when there is a
target), a literal is stored. -/
def DecodeState.valueInField (d : DecodeState) (v : Target) : Except UnmarshalError DecodeState :=
  if d.opcode = .scanBeginArray || d.opcode = .scanBeginObject then
    let d := if v = .invalid then d
      else d.saveError (.typeError (if d.opcode = .scanBeginArray then "array" else "object"))
    match d.skip with
    | none => .error .phasePanic
    | some d => .ok d.scanNext
  else if d.opcode = .scanBeginLiteral then
    let start := d.off - 1
    let d := d.rescanLiteral
    if v = .invalid then .ok d
    else d.literalStore ((d.data.take (d.off - 1)).drop start) v
  else .error .phasePanic

/-- The loop of `(*decodeState).object` for the struct; each iteration reads
one member, so `fuel` above the length of the data completes it. -/
def objectLoop (lib : Library) : Nat → DecodeState → Except UnmarshalError DecodeState
  | 0, _ => .error .phasePanic
  | fuel + 1, d =>
    let d := d.scanWhile .scanSkipSpace
    if d.opcode = .scanEndObject then .ok d
    else if d.opcode ≠ .scanBeginLiteral then .error .phasePanic
    else
      let start := d.off - 1
      let d := d.rescanLiteral
      let item := (d.data.take (d.off - 1)).drop start
      match unquoteBytes item with
      | none => .error .phasePanic
      | some key =>
        let subv : Target :=
          match lookupField lib key with
          | some f => .field f
          | none => .invalid
        let d := if d.opcode = .scanSkipSpace then d.scanWhile .scanSkipSpace else d
        if d.opcode ≠ .scanObjectKey then .error .phasePanic
        else
          let d := d.scanWhile .scanSkipSpace
          match d.valueInField subv with
          | .error e => .error e
          | .ok d =>
            let d := if d.opcode = .scanSkipSpace then d.scanWhile .scanSkipSpace else d
            if d.opcode = .scanEndObject then .ok d
            else if d.opcode ≠ .scanObjectValue then .error .phasePanic
            else objectLoop lib fuel d

/-- The method `(*decodeState).value` for the struct: an object is decoded
member by member, an array is a type error, a literal is stored (which for a
struct is a type error unless it is `null`). -/
def DecodeState.value (lib : Library) (d : DecodeState) : Except UnmarshalError DecodeState :=
  if d.opcode = .scanBeginArray then
    match (d.saveError (.typeError "array")).skip with
    | none => .error .phasePanic
    | some d => .ok d.scanNext
  else if d.opcode = .scanBeginObject then
    match objectLoop lib (d.data.length + 1) d with
    | .error e => .error e
    | .ok d => .ok d.scanNext
  else if d.opcode = .scanBeginLiteral then
    let start := d.off - 1
    let d := d.rescanLiteral
    d.literalStore ((d.data.take (d.off - 1)).drop start) .struct
  else .error .phasePanic

/-- The function `json.Unmarshal(data, &gatr)`: the value of `gatr` afterwards
(`gatr` starts as the zero value) and the error returned. -/
def Unmarshal (lib : Library) (data : Bytes) (gatr : githubAccessTokenResponse) :
    githubAccessTokenResponse × Option UnmarshalError :=
  match checkValid data newScanner with
  | (_, some err) => (gatr, some (.syntaxError err))
  | (scan, none) =>
    let d : DecodeState :=
      { data := data, off := 0, opcode := .scanContinue, scan := scan.reset, savedError := none,
        out := gatr }
    match (d.scanWhile .scanSkipSpace).value lib with
    | .error e => (gatr, some e)
    | .ok d => (d.out, d.savedError)

/-! ## The process and its surroundings -/

/-- The result of code that may call `log.Fatal` or `log.Fatalf`, which log a
line and end the process with `os.Exit(1)`: either the code returns, or the
process is gone.  The text is the logged format with its `%s` operand filled
in; the rendering of an error operand (`err: %q`) is left out. -/
inductive Outcome (α : Type)
  | ok (a : α)
  | fatal (msg : String)
  deriving DecidableEq, Repr

/-- The environment variables of the process. -/
abbrev Env := List (String × Bytes)

/-- The function `os.LookupEnv`. -/
def LookupEnv (env : Env) (key : String) : Option Bytes := env.lookup key

/-! ## `net/http` -/

/-- An `http.Header`: the values stored under each key.  All keys used by the
program are in canonical form already. -/
abbrev Header := List (String × List Bytes)

/-- The method `Header.Set`: replaces the values of `key` by the single
value `value`. -/
def Header.Set (h : Header) (key : String) (value : Bytes) : Header :=
  (key, [value]) :: h.filter (fun kv => kv.1 != key)

/-- The method `Header.Get`: the first value of `key`, or the empty string. -/
def Header.Get (h : Header) (key : String) : Bytes :=
  match h.lookup key with
  | some (v :: _) => v
  | _ => []

/-- The part of an incoming `*http.Request` that the handlers and
`http.Redirect` read: the method, `URL.Path`, and the parsed query
`URL.Query()`. -/
structure Request where
  Method : Bytes
  Path : Bytes
  Query : List (Bytes × List Bytes)
  deriving DecidableEq, Repr

/-- The method `url.Values.Get`: the first value of `key`, or the empty
string. -/
def valuesGet (v : List (Bytes × List Bytes)) (key : Bytes) : Bytes :=
  match v.lookup key with
  | some (x :: _) => x
  | _ => []

/-- An `http.ResponseWriter`: the header map the handler can still change,
whether the status line has been written, and if so the status code and the
headers that went out with it, and the body written so far. -/
structure ResponseWriter where
  header : Header
  wroteHeader : Bool
  status : Nat
  sentHeader : Header
  body : Bytes
  deriving DecidableEq, Repr

/-- The writer a handler is called with. -/
def newResponseWriter : ResponseWriter :=
  { header := [], wroteHeader := false, status := 0, sentHeader := [], body := [] }

/-- The method `WriteHeader`: sends the status code and the headers set so
far; a second call has no effect. -/
def ResponseWriter.WriteHeader (w : ResponseWriter) (statusCode : Nat) : ResponseWriter :=
  if w.wroteHeader then w
  else { w with wroteHeader := true, status := statusCode, sentHeader := w.header }

/-- The method `Write`: an implicit `WriteHeader(http.StatusOK)` when the
header has not been written, then the data is added to the body. -/
def ResponseWriter.Write (w : ResponseWriter) (data : Bytes) : ResponseWriter :=
  let w := w.WriteHeader 200
  { w with body := w.body ++ data }

/-- The method `w.Header().Set`. -/
def ResponseWriter.headerSet (w : ResponseWriter) (key : String) (value : Bytes) :
    ResponseWriter :=
  { w with header := w.header.Set key value }

/-- An HTTP response as the handler has produced it: status code, headers
and body. -/
structure Response where
  status : Nat
  header : Header
  body : Bytes
  deriving DecidableEq, Repr

/-- The response a handler leaves behind when it returns: the server
finishes the request, with status 200 if the handler wrote none. -/
def ResponseWriter.response (w : ResponseWriter) : Response :=
  let w := w.WriteHeader 200
  { status := w.status, header := w.sentHeader, body := w.body }

/-- The function `stringContainsCTLByte` of `net/url`. -/
def stringContainsCTLByte (s : Bytes) : Bool := s.any (fun b => b < 32 || b = 0x7F)

/-- The function `getScheme` of `net/url`: the scheme and what follows the
colon (an empty scheme and the whole text when there is no scheme), or
nothing for the error `missing protocol scheme`.  `i` is the index of the
first byte of `s` in `rawURL`, `acc` the bytes before it. -/
def getSchemeLoop (rawURL : Bytes) : Bytes → Nat → Bytes → Option (Bytes × Bytes)
  | [], _, _ => some ([], rawURL)
  | c :: s, i, acc =>
    if (97 ≤ c && c ≤ 122) || (65 ≤ c && c ≤ 90) then getSchemeLoop rawURL s (i + 1) (acc ++ [c])
    else if (48 ≤ c && c ≤ 57) || c = 43 || c = 45 || c = 46 then
      if i = 0 then some ([], rawURL) else getSchemeLoop rawURL s (i + 1) (acc ++ [c])
    else if c = 58 then
      if i = 0 then none else some (acc, s)
    else some ([], rawURL)

/-- The function `getScheme` of `net/url`. -/
def getScheme (rawURL : Bytes) : Option (Bytes × Bytes) := getSchemeLoop rawURL rawURL 0 []

/-- The function `strings.ToLower` on ASCII text (a scheme is ASCII). -/
def toLowerASCII (s : Bytes) : Bytes := s.map (fun c => if 65 ≤ c && c ≤ 90 then c + 32 else c)

/-- The fields `Scheme` and `Host` of a parsed `url.URL`. -/
structure URL where
  Scheme : Bytes
  Host : Bytes
  deriving DecidableEq, Repr

/-- The function `url.Parse`, as far as `Scheme` and `Host` go: the fragment
is cut off at the first `#`, a control byte is an error, `*` is a path, then
the scheme is split off and the library parses the rest. -/
def urlParse (lib : Library) (rawURL : Bytes) : Option URL :=
  let u := rawURL.takeWhile (fun c => c != 35)
  let frag := (rawURL.dropWhile (fun c => c != 35)).drop 1
  if stringContainsCTLByte u then none
  else if u = [42] then some { Scheme := [], Host := [] }
  else
    match getScheme u with
    | none => none
    | some (scheme, rest) =>
      match lib.urlParseRest (toLowerASCII scheme) rest frag with
      | none => none
      | some host => some { Scheme := toLowerASCII scheme, Host := host }

/-- The function `hexEscapeNonASCII`: every byte from 0x80 is replaced by `%`
and its two hexadecimal digits. -/
def hexEscapeNonASCII (s : Bytes) : Bytes :=
  s.flatMap (fun c => if c ≥ 0x80 then [37, lowerhex (c / 16), lowerhex (c % 16)] else [c])

/-- The function `htmlEscape` (`htmlReplacer`). -/
def htmlEscape (s : Bytes) : Bytes :=
  s.flatMap (fun c =>
    if c = 38 then ascii "&amp;"
    else if c = 60 then ascii "&lt;"
    else if c = 62 then ascii "&gt;"
    else if c = 34 then ascii "&#34;"
    else if c = 39 then ascii "&#39;"
    else [c])

/-- The constant `http.StatusMovedPermanently`. -/
def StatusMovedPermanently : Nat := 301

/-- The constant `http.StatusUnauthorized`. -/
def StatusUnauthorized : Nat := 401

/-- The function `http.StatusText` for the code the program redirects with
(empty for other codes, which the program never passes). -/
def StatusText (code : Nat) : Bytes :=
  if code = 301 then ascii "Moved Permanently" else []

/-- The function `http.Redirect`. -/
def Redirect (lib : Library) (w : ResponseWriter) (r : Request) (url : Bytes) (code : Nat) :
    ResponseWriter :=
  let url :=
    match urlParse lib url with
    | some u =>
      if u.Scheme = [] && u.Host = [] then
        lib.redirectRelative (if r.Path = [] then [47] else r.Path) url
      else url
    | none => url
  let hadCT := (w.header.lookup "Content-Type").isSome
  let w := w.headerSet "Location" (hexEscapeNonASCII url)
  let w :=
    if !hadCT && (r.Method = ascii "GET" || r.Method = ascii "HEAD") then
      w.headerSet "Content-Type" (ascii "text/html; charset=utf-8")
    else w
  let w := w.WriteHeader code
  if !hadCT && r.Method = ascii "GET" then
    w.Write (ascii "<a href=\"" ++ htmlEscape url ++ ascii "\">" ++ StatusText code
      ++ ascii "</a>.\n" ++ [10])
  else w

/-- An outgoing `*http.Request`, as `http.NewRequest` and `Header.Set` build
it. -/
structure ClientRequest where
  Method : String
  URL : String
  Header : Header
  Body : Bytes
  deriving DecidableEq, Repr

/-- What `http.DefaultClient.Do` returns when it returns no error: the status
code, and what `io.ReadAll(res.Body)` will return, the body or an error. -/
structure ClientResponse where
  StatusCode : Nat
  Body : Except String Bytes

/-- The call `http.DefaultClient.Do`: a response or a transport error.  The
program makes two different requests, once each, so a function of the request
covers every behaviour of the two endpoints. -/
abbrev Client := ClientRequest → Except String ClientResponse

/-- The function `http.NewRequest`.  The program calls it with a constant
method and a constant well-formed URL, for which it returns no error: the
`log.Fatalf` after each call is never reached. -/
def NewRequest (method url : String) (body : Bytes) : ClientRequest :=
  { Method := method, URL := url, Header := [], Body := body }

/-! ## `godotenv` -/

/-- The function `godotenv.Load()`: reads the file `.env` and sets every
variable of it that the process does not have yet.  `dotenv` is what reading
and parsing the file gives: its variables, or nothing when that fails. -/
def godotenvLoad (dotenv : Option (List (String × Bytes))) (env : Env) : Except String Env :=
  match dotenv with
  | none => .error "open .env: no such file or directory"
  | some vars => .ok (env ++ vars.filter (fun kv => (env.lookup kv.1).isNone))

/-! ## `main.go` -/

/-- The function `init`: loads `.env` in the current path. -/
def init (dotenv : Option (List (String × Bytes))) (env : Env) : Outcome Env :=
  match godotenvLoad dotenv env with
  | .error _ => .fatal ".env not found"
  | .ok env => .ok env

/-- The function `getEnvValue`. -/
def getEnvValue (env : Env) (key : String) : Outcome Bytes :=
  match LookupEnv env key with
  | none => .fatal ("missing " ++ key ++ " in .env")
  | some value => .ok value

/-- The function `main`, up to its last statement: the three handlers are
registered, `PORT` is read, and `http.ListenAndServe` is called with the
address returned here (it binds the listener and serves until it fails). -/
def main (env : Env) : Outcome Bytes :=
  match getEnvValue env "PORT" with
  | .fatal msg => .fatal msg
  | .ok port => .ok (ascii ":" ++ port)

/-- The start of the process: `init`, then `main`.  The result is the
environment of the running server and the address it listens on. -/
def startup (dotenv : Option (List (String × Bytes))) (env : Env) : Outcome (Env × Bytes) :=
  match init dotenv env with
  | .fatal msg => .fatal msg
  | .ok env =>
    match main env with
    | .fatal msg => .fatal msg
    | .ok addr => .ok (env, addr)

/-- The request `req` that `getGithubAccessToken` sends, from the two
configuration values and the code (lines 51 to 88). -/
def accessTokenRequest (lib : Library) (clientID clientSecret code : Bytes) : ClientRequest :=
  let jsonRequestBody :=
    ascii "\x7b\"client_id\":" ++ Quote lib clientID ++ ascii ",\"client_secret\":"
      ++ Quote lib clientSecret ++ ascii ",\"code\":" ++ Quote lib code ++ ascii "\x7d"
  let req := NewRequest "POST" "https://github.com/login/oauth/access_token" jsonRequestBody
  let req := { req with Header := req.Header.Set "Content-Type" (ascii "application/json") }
  { req with Header := req.Header.Set "Accept" (ascii "application/json") }

/-- The function `getGithubAccessToken`. -/
def getGithubAccessToken (lib : Library) (env : Env) (client : Client) (code : Bytes) :
    Outcome Bytes :=
  match getEnvValue env "GITHUB_CLIENT_ID" with
  | .fatal msg => .fatal msg
  | .ok clientID =>
    match getEnvValue env "GITHUB_CLIENT_SECRET" with
    | .fatal msg => .fatal msg
    | .ok clientSecret =>
      match client (accessTokenRequest lib clientID clientSecret code) with
      | .error _ => .fatal "send http request failed"
      | .ok res =>
        match res.Body with
        | .error _ => .fatal "io read all failed"
        | .ok b =>
          match Unmarshal lib b { AccessToken := [], TokenType := [], Scope := [] } with
          | (_, some _) => .fatal "json unmarshal failed"
          | (gatr, none) => .ok gatr.AccessToken

/-- The request `req` that `getGithubUserData` sends (lines 115 to 120). -/
def userDataRequest (accessToken : Bytes) : ClientRequest :=
  let req := NewRequest "GET" "https://api.github.com/user" []
  { req with Header := req.Header.Set "Authorization" (ascii "token " ++ accessToken) }

/-- The function `getGithubUserData`. -/
def getGithubUserData (client : Client) (accessToken : Bytes) : Outcome Bytes :=
  match client (userDataRequest accessToken) with
  | .error _ => .fatal "send http request failed"
  | .ok res =>
    match res.Body with
    | .error _ => .fatal "io read all failed"
    | .ok b => .ok b

/-- The function `displayUserData`. -/
def displayUserData (w : ResponseWriter) (_r : Request) (userData : Bytes) :
    Outcome ResponseWriter :=
  if userData.length = 0 then
    .ok ((w.WriteHeader StatusUnauthorized).Write (ascii "unauthorized"))
  else
    let w := w.headerSet "Content-Type" (ascii "application/json")
    match Indent [] userData [] (ascii "\t") with
    | (_, some _) => .fatal "json indent failed"
    | (jsonResponse, none) => .ok (w.Write jsonResponse)

/-- The function `rootHandler`. -/
def rootHandler (w : ResponseWriter) (_r : Request) : ResponseWriter :=
  w.Write (ascii "<a href=\"/login/github\">Login with GitHub Account</a>")

/-- The function `githubLoginHandler`. -/
def githubLoginHandler (lib : Library) (env : Env) (w : ResponseWriter) (r : Request) :
    Outcome ResponseWriter :=
  match getEnvValue env "GITHUB_CLIENT_ID" with
  | .fatal msg => .fatal msg
  | .ok githubClientID =>
    match getEnvValue env "PROTOCOL" with
    | .fatal msg => .fatal msg
    | .ok protocol =>
      match getEnvValue env "HOST" with
      | .fatal msg => .fatal msg
      | .ok host =>
        match getEnvValue env "PORT" with
        | .fatal msg => .fatal msg
        | .ok port =>
          let redirectURL :=
            ascii "https://github.com/login/oauth/authorize?client_id=" ++ githubClientID
              ++ ascii "&redirect_uri="
              ++ (protocol ++ ascii "://" ++ host ++ ascii ":" ++ port
                ++ ascii "/login/github/callback")
          .ok (Redirect lib w r redirectURL StatusMovedPermanently)

/-- The function `githubCallbackHandler`. -/
def githubCallbackHandler (lib : Library) (env : Env) (client : Client) (w : ResponseWriter)
    (r : Request) : Outcome ResponseWriter :=
  let code := valuesGet r.Query (ascii "code")
  match getGithubAccessToken lib env client code with
  | .fatal msg => .fatal msg
  | .ok accessToken =>
    match getGithubUserData client accessToken with
    | .fatal msg => .fatal msg
    | .ok userData => displayUserData w r userData

/-! ## Concrete inputs -/

/-- A value of the library parameters for running the program on concrete
inputs.  In the runs below the two tables are never consulted (all runes are
ASCII) and the URL being redirected to has a scheme, so the runs come out the
same for every value of the parameters. -/
def plainLibrary : Library :=
  { isPrintTable := fun _ => false
    foldRune := fun r => r
    urlParseRest := fun _ _ _ => some []
    redirectRelative := fun _ url => url }

/-- An environment with the five variables set. -/
def fullEnv : Env :=
  [("PORT", ascii "8080"), ("GITHUB_CLIENT_ID", ascii "id"),
    ("GITHUB_CLIENT_SECRET", ascii "secret"), ("PROTOCOL", ascii "http"),
    ("HOST", ascii "localhost")]

/-- The request `GET /login/github/callback?code=abc`. -/
def callbackRequest : Request :=
  { Method := ascii "GET", Path := ascii "/login/github/callback",
    Query := [(ascii "code", [ascii "abc"])] }

/-- The profile body `{"login":"octocat"}`. -/
def octocatProfile : Bytes := ascii "\x7b\"login\":\"octocat\"\x7d"

/-- Two simulated endpoints: the token endpoint answers every request with
the status and body given, the profile endpoint answers a request carrying
`Authorization: token <token>` with the status and body given; no other
request is answered. -/
def simulatedClient (tokenStatus : Nat) (tokenBody : Bytes) (token : Bytes)
    (profileStatus : Nat) (profileBody : Bytes) : Client := fun req =>
  if req.URL = "https://github.com/login/oauth/access_token" then
    .ok { StatusCode := tokenStatus, Body := .ok tokenBody }
  else if req.URL = "https://api.github.com/user"
      ∧ req.Header.Get "Authorization" = ascii "token " ++ token then
    .ok { StatusCode := profileStatus, Body := .ok profileBody }
  else .error "connection refused"

/-- The response that reaches the client: the one the handler leaves, or
none when the process has ended before. -/
def Outcome.response : Outcome ResponseWriter → Option Response
  | .ok w => some w.response
  | .fatal _ => none

/-- The token response `{"access_token":"tok123","token_type":"bearer","scope":""}`. -/
def tok123Body : Bytes :=
  ascii "\x7b\"access_token\":\"tok123\",\"token_type\":\"bearer\",\"scope\":\"\"\x7d"

/-- The authorization URL for a configuration: the authorization endpoint
with the client id and the callback URL substituted. -/
def authorizeURL (clientID protocol host port : Bytes) : Bytes :=
  ascii "https://github.com/login/oauth/authorize?client_id=" ++ clientID
    ++ ascii "&redirect_uri=" ++ protocol ++ ascii "://" ++ host ++ ascii ":" ++ port
    ++ ascii "/login/github/callback"

/-- The request `GET /login/github`. -/
def loginRequest : Request :=
  { Method := ascii "GET", Path := ascii "/login/github", Query := [] }

/-- An environment whose `HOST` is the non-ASCII name `é` (the bytes C3 A9). -/
def accentEnv : Env :=
  [("PORT", ascii "8080"), ("GITHUB_CLIENT_ID", ascii "id"),
    ("GITHUB_CLIENT_SECRET", ascii "secret"), ("PROTOCOL", ascii "http"),
    ("HOST", [0xC3, 0xA9])]

/-- Two client behaviours agree up to the status code: on every request both
fail, or both answer and reading the bodies gives the same. -/
def AgreeUpToStatus (client1 client2 : Client) : Prop :=
  ∀ req, match client1 req, client2 req with
    | .ok res1, .ok res2 => res1.Body = res2.Body
    | .error _, .error _ => True
    | _, _ => False

/-- A client whose every call ends in a transport error. -/
def unreachableClient : Client := fun _ => .error "dial tcp: connection refused"

/-! ## Whitespace outside string literals

The reading of "differs from the input only in insignificant whitespace": the
bytes that remain when every space, tab, carriage return and newline outside
a string literal is deleted.  This definition follows the words of the
specification, not the code. -/

/-- Where a byte stands with respect to the string literals of a text:
outside of them, inside one, or inside one right after a backslash. -/
inductive Lex
  | outside
  | inString
  | escaped
  deriving DecidableEq, Repr

/-- The position after the byte `c`, from the position before it: a
quotation mark opens a string literal, and closes it unless a backslash
precedes it. -/
def lexStep : Lex → Nat → Lex
  | .outside, c => if c = 34 then .inString else .outside
  | .inString, c => if c = 34 then .outside else if c = 92 then .escaped else .inString
  | .escaped, _ => .inString

/-- The position, with respect to string literals, that a state of the
scanner stands for. -/
def lexOf (f : StepFn) : Lex :=
  if f = .stateInString ∨ f = .stateInStringEscU ∨ f = .stateInStringEscU1
      ∨ f = .stateInStringEscU12 ∨ f = .stateInStringEscU123 then .inString
  else if f = .stateInStringEsc then .escaped
  else .outside

/-- What a step of the scanner on the byte `c` does, seen from the position
`m` of the state before it: the scanner dies exactly when it records an
error; otherwise it follows the position, bytes of a string literal are
`scanContinue`, whitespace outside a literal is skipped (or ends the text),
and only a closing brace or bracket ends an object or array. -/
def StepSpec (m : Lex) (c : Nat) (r : Scanner × Op) : Prop :=
  (r.1.err ≠ none → r.1.step = .stateError) ∧
  (r.2 = .scanError → r.1.err ≠ none) ∧
  (r.1.err = none →
     r.1.step ≠ .stateError ∧
     lexOf r.1.step = lexStep m c ∧
     (m ≠ .outside → r.2 = .scanContinue) ∧
     (isSpace c = true → r.2 = .scanSkipSpace ∨ r.2 = .scanEnd ∨ m ≠ .outside) ∧
     (isSpace c = false → r.2 ≠ .scanSkipSpace) ∧
     (r.2 = .scanEndObject → c = 125) ∧ (r.2 = .scanEndArray → c = 93))

/-- A scanner is either live (no error recorded, not in the error state) or
dead (an error recorded and in the error state). -/
def Scanner.Consistent (s : Scanner) : Prop :=
  (s.err = none ∧ s.step ≠ .stateError) ∨ (s.err ≠ none ∧ s.step = .stateError)

/-! ## The JSON grammar of RFC 8259, read on bytes

The reading of "a valid JSON document".  These definitions follow RFC 8259
(sections 2 to 7 for the grammar, section 8.1 for the encoding), not the code:
a text is a value between whitespace; the relations below say that a text
`s` starts with a phrase of the grammar and goes on with `r`. -/

/-- Insignificant whitespace `ws`: space, horizontal tab, line feed, carriage
return. -/
inductive Ws : Bytes → Bytes → Prop
  | done {r : Bytes} : Ws r r
  | more {c : Nat} {s r : Bytes} : (c = 0x20 ∨ c = 0x09 ∨ c = 0x0A ∨ c = 0x0D) → Ws s r →
      Ws (c :: s) r

/-- A hexadecimal digit `HEXDIG`, in either case. -/
def HexDigit (c : Nat) : Prop :=
  (48 ≤ c ∧ c ≤ 57) ∨ (65 ≤ c ∧ c ≤ 70) ∨ (97 ≤ c ∧ c ≤ 102)

instance (c : Nat) : Decidable (HexDigit c) := by
  unfold HexDigit
  infer_instance

/-- The rest of a string after its opening quotation mark: characters up to
and with the closing quotation mark.  A character is any byte from 0x20 but
the quotation mark and the backslash, a two-character escape, or `\u` and
four hexadecimal digits. -/
inductive Chars : Bytes → Bytes → Prop
  | close {r : Bytes} : Chars (34 :: r) r
  | unescaped {c : Nat} {s r : Bytes} : 0x20 ≤ c → c ≠ 34 → c ≠ 92 → Chars s r →
      Chars (c :: s) r
  | escape {e : Nat} {s r : Bytes} :
      (e = 34 ∨ e = 92 ∨ e = 47 ∨ e = 98 ∨ e = 102 ∨ e = 110 ∨ e = 114 ∨ e = 116) →
      Chars s r → Chars (92 :: e :: s) r
  | unicode {a b c d : Nat} {s r : Bytes} : HexDigit a → HexDigit b →
      HexDigit c → HexDigit d → Chars s r →
      Chars (92 :: 117 :: a :: b :: c :: d :: s) r

/-- One or more digits `0` to `9`. -/
inductive Digits : Bytes → Bytes → Prop
  | one {c : Nat} {r : Bytes} : (48 ≤ c ∧ c ≤ 57) → Digits (c :: r) r
  | more {c : Nat} {s r : Bytes} : (48 ≤ c ∧ c ≤ 57) → Digits s r → Digits (c :: s) r

/-- The integer part `int = zero / ( digit1-9 *DIGIT )`. -/
inductive IntPart : Bytes → Bytes → Prop
  | zero {r : Bytes} : IntPart (48 :: r) r
  | digit {c : Nat} {r : Bytes} : (49 ≤ c ∧ c ≤ 57) → IntPart (c :: r) r
  | digits {c : Nat} {s r : Bytes} : (49 ≤ c ∧ c ≤ 57) → Digits s r → IntPart (c :: s) r

/-- The optional fraction `frac = decimal-point 1*DIGIT`. -/
inductive Frac : Bytes → Bytes → Prop
  | absent {r : Bytes} : Frac r r
  | present {s r : Bytes} : Digits s r → Frac (46 :: s) r

/-- The optional exponent `exp = e [ minus / plus ] 1*DIGIT`. -/
inductive Exp : Bytes → Bytes → Prop
  | absent {r : Bytes} : Exp r r
  | bare {e : Nat} {s r : Bytes} : (e = 101 ∨ e = 69) → Digits s r → Exp (e :: s) r
  | signed {e g : Nat} {s r : Bytes} : (e = 101 ∨ e = 69) → (g = 43 ∨ g = 45) → Digits s r →
      Exp (e :: g :: s) r

/-- A number `number = [ minus ] int [ frac ] [ exp ]`. -/
inductive Number : Bytes → Bytes → Prop
  | plain {s s1 s2 r : Bytes} : IntPart s s1 → Frac s1 s2 → Exp s2 r → Number s r
  | minus {s s1 s2 r : Bytes} : IntPart s s1 → Frac s1 s2 → Exp s2 r → Number (45 :: s) r

/-- The phrases of the grammar that contain values. -/
inductive Phrase
  | value
  | elements
  | members
  deriving DecidableEq, Repr

/-- The text `s` starts with a phrase of the grammar, in which arrays and
objects are nested at most `n` deep, and goes on with `r`.  A value is a
string, a number, `true`, `false`, `null`, an array `[ ws ]` or
`[ elements ]`, or an object `{ ws }` or `{ members }`; elements are values
between whitespace separated by commas; members are pairs of a string and a
value, with a colon between them, separated by commas. -/
inductive Parses : Phrase → Nat → Bytes → Bytes → Prop
  | string {n : Nat} {s r : Bytes} : Chars s r → Parses .value n (34 :: s) r
  | number {n : Nat} {s r : Bytes} : Number s r → Parses .value n s r
  | litTrue {n : Nat} {r : Bytes} : Parses .value n (116 :: 114 :: 117 :: 101 :: r) r
  | litFalse {n : Nat} {r : Bytes} : Parses .value n (102 :: 97 :: 108 :: 115 :: 101 :: r) r
  | litNull {n : Nat} {r : Bytes} : Parses .value n (110 :: 117 :: 108 :: 108 :: r) r
  | emptyArray {n : Nat} {s r : Bytes} : Ws s (93 :: r) → Parses .value (n + 1) (91 :: s) r
  | array {n : Nat} {s r : Bytes} : Parses .elements n s (93 :: r) →
      Parses .value (n + 1) (91 :: s) r
  | emptyObject {n : Nat} {s r : Bytes} : Ws s (125 :: r) → Parses .value (n + 1) (123 :: s) r
  | object {n : Nat} {s r : Bytes} : Parses .members n s (125 :: r) →
      Parses .value (n + 1) (123 :: s) r
  | lastElement {n : Nat} {s s1 s2 r : Bytes} : Ws s s1 → Parses .value n s1 s2 → Ws s2 r →
      Parses .elements n s r
  | moreElements {n : Nat} {s s1 s2 s3 r : Bytes} : Ws s s1 → Parses .value n s1 s2 →
      Ws s2 (44 :: s3) → Parses .elements n s3 r → Parses .elements n s r
  | lastMember {n : Nat} {s s1 s2 s3 s4 s5 r : Bytes} : Ws s (34 :: s1) → Chars s1 s2 →
      Ws s2 (58 :: s3) → Ws s3 s4 → Parses .value n s4 s5 → Ws s5 r → Parses .members n s r
  | moreMembers {n : Nat} {s s1 s2 s3 s4 s5 s6 r : Bytes} : Ws s (34 :: s1) → Chars s1 s2 →
      Ws s2 (58 :: s3) → Ws s3 s4 → Parses .value n s4 s5 → Ws s5 (44 :: s6) →
      Parses .members n s6 r → Parses .members n s r

/-- A JSON text `JSON-text = ws value ws` in which arrays and objects are
nested at most `n` deep. -/
def JsonText (n : Nat) (d : Bytes) : Prop :=
  ∃ s1 s2, Ws d s1 ∧ Parses .value n s1 s2 ∧ Ws s2 []

/-- The number of continuation bytes that a first byte of well-formed UTF-8
announces, with the range allowed for the byte after it (Unicode, table 3-7),
or nothing for a byte that cannot come first. -/
def utf8Lead (c : Nat) : Option (Nat × Nat × Nat) :=
  if c < 0x80 then some (0, 0x80, 0xBF)
  else if 0xC2 ≤ c ∧ c ≤ 0xDF then some (1, 0x80, 0xBF)
  else if c = 0xE0 then some (2, 0xA0, 0xBF)
  else if (0xE1 ≤ c ∧ c ≤ 0xEC) ∨ c = 0xEE ∨ c = 0xEF then some (2, 0x80, 0xBF)
  else if c = 0xED then some (2, 0x80, 0x9F)
  else if c = 0xF0 then some (3, 0x90, 0xBF)
  else if 0xF1 ≤ c ∧ c ≤ 0xF3 then some (3, 0x80, 0xBF)
  else if c = 0xF4 then some (3, 0x80, 0x8F)
  else none

/-- Whether a byte sequence is well-formed UTF-8.  `more` is the number of
continuation bytes still due, `lo` and `hi` the range allowed for the next
one. -/
def wellFormedUTF8From : Nat → Nat → Nat → Bytes → Bool
  | more, _, _, [] => more = 0
  | 0, _, _, c :: s =>
    match utf8Lead c with
    | some (more, lo, hi) => wellFormedUTF8From more lo hi s
    | none => false
  | more + 1, lo, hi, c :: s =>
    if lo ≤ c ∧ c ≤ hi then wellFormedUTF8From more 0x80 0xBF s else false

/-- Whether a byte sequence is well-formed UTF-8, the encoding RFC 8259
requires of a JSON text. -/
def WellFormedUTF8 (d : Bytes) : Bool := wellFormedUTF8From 0 0x80 0xBF d

/-- A valid JSON document with arrays and objects nested at most `n` deep: a
JSON text of the grammar, encoded in well-formed UTF-8. -/
def JsonDocument (n : Nat) (d : Bytes) : Prop := JsonText n d ∧ WellFormedUTF8 d = true

/-- A valid JSON document: a JSON text of the grammar, nested to whatever
depth, encoded in well-formed UTF-8. -/
def ValidJson (d : Bytes) : Prop := ∃ n, JsonDocument n d

/-- The text of `n` arrays nested in each other: `n` opening and `n` closing
brackets. -/
def nestedArrays (n : Nat) : Bytes := List.replicate n 91 ++ List.replicate n 93

/-- The object `{"a":"\xFF"}`, whose one string value holds the byte 0xFF,
which occurs in no well-formed UTF-8. -/
def invalidUTF8Profile : Bytes := [123, 34, 97, 34, 58, 34, 255, 34, 125]

/-! ## Notions used in the proofs about the grammar -/

/-- The scanner accepts the text `s` from the state `σ`: the loop of
`checkValid` started there returns no error. -/
def Accepts (σ : Scanner) (s : Bytes) : Prop := (checkValidLoop σ s).2 = none

/-- A scanner with no error recorded, before the end of the top-level value:
the state function `f`, the stack `ps`, and `b` bytes read. -/
def cfg (f : StepFn) (ps : List ParseState) (b : Nat) : Scanner :=
  { step := f, endTop := false, parseState := ps, err := none, bytes := b }

/-- The scanner after the end of a top-level array or object. -/
def topCfg (b : Nat) : Scanner :=
  { step := .stateEndTop, endTop := true, parseState := [], err := none, bytes := b }


/-- What the scanner does with a phrase of the grammar nested at most `n`
deep, when the stack leaves room for `n` more levels and the scanner accepts
what follows the phrase: it accepts the text from the start of the phrase. -/
def Complete : Phrase → Nat → Bytes → Bytes → Prop
  | .value, n, s, r => ∀ ps : List ParseState, ps.length + n ≤ maxNestingDepth →
      (∀ b, Accepts (cfg .stateEndValue ps b) r) →
      ∀ b, Accepts (cfg .stateBeginValue ps b) s
  | .elements, n, s, r => ∀ ps : List ParseState, ps.length + 1 + n ≤ maxNestingDepth →
      (∀ b, Accepts (cfg .stateEndValue (.parseArrayValue :: ps) b) r) →
      (∀ b, Accepts (cfg .stateBeginValue (.parseArrayValue :: ps) b) s) ∧
      (∀ b, Accepts (cfg .stateBeginValueOrEmpty (.parseArrayValue :: ps) b) s)
  | .members, n, s, r => ∀ ps : List ParseState, ps.length + 1 + n ≤ maxNestingDepth →
      (∀ b, Accepts (cfg .stateEndValue (.parseObjectValue :: ps) b) r) →
      (∀ b, Accepts (cfg .stateBeginString (.parseObjectKey :: ps) b) s) ∧
      (∀ b, Accepts (cfg .stateBeginStringOrEmpty (.parseObjectKey :: ps) b) s)

/-- The scanner accepts the text `r` from the state after a value, with the
stack `ps`. -/
def AcceptsAfterValue (ps : List ParseState) (r : Bytes) : Prop :=
  ∃ b, Accepts (cfg .stateEndValue ps b) r

/-- On texts of at most `k` bytes, a text the scanner accepts from the state
before a value starts with whitespace and a value of the grammar, after which
the scanner goes on from the state after a value. -/
def SoundValue (k : Nat) : Prop :=
  ∀ (s : Bytes) (ps : List ParseState) (b : Nat), s.length ≤ k →
    Accepts (cfg .stateBeginValue ps b) s →
    ∃ s1 r, Ws s s1 ∧ Parses .value (maxNestingDepth - ps.length) s1 r ∧
      AcceptsAfterValue ps r ∧ r.length < s.length

/-- The same for the elements of an array, up to and with the closing
bracket. -/
def SoundElements (k : Nat) : Prop :=
  ∀ (s : Bytes) (ps : List ParseState) (b : Nat), s.length ≤ k →
    Accepts (cfg .stateBeginValue (.parseArrayValue :: ps) b) s →
    ∃ r, Parses .elements (maxNestingDepth - (ps.length + 1)) s (93 :: r) ∧
      AcceptsAfterValue ps r ∧ r.length < s.length

/-- The same for what follows the opening bracket of an array. -/
def SoundArray (k : Nat) : Prop :=
  ∀ (s : Bytes) (ps : List ParseState) (b : Nat), s.length ≤ k →
    Accepts (cfg .stateBeginValueOrEmpty (.parseArrayValue :: ps) b) s →
    ∃ r, (Ws s (93 :: r) ∨ Parses .elements (maxNestingDepth - (ps.length + 1)) s (93 :: r)) ∧
      AcceptsAfterValue ps r ∧ r.length < s.length

/-- The same for the members of an object, up to and with the closing
brace. -/
def SoundMembers (k : Nat) : Prop :=
  ∀ (s : Bytes) (ps : List ParseState) (b : Nat), s.length ≤ k →
    Accepts (cfg .stateBeginString (.parseObjectKey :: ps) b) s →
    ∃ r, Parses .members (maxNestingDepth - (ps.length + 1)) s (125 :: r) ∧
      AcceptsAfterValue ps r ∧ r.length < s.length

/-- The same for what follows the opening brace of an object. -/
def SoundObject (k : Nat) : Prop :=
  ∀ (s : Bytes) (ps : List ParseState) (b : Nat), s.length ≤ k →
    Accepts (cfg .stateBeginStringOrEmpty (.parseObjectKey :: ps) b) s →
    ∃ r, (Ws s (125 :: r) ∨ Parses .members (maxNestingDepth - (ps.length + 1)) s (125 :: r)) ∧
      AcceptsAfterValue ps r ∧ r.length < s.length

/-! ## The scanner and the position with respect to string literals -/

theorem isSpace_iff (c : Nat) : isSpace c = true ↔ c = 32 ∨ c = 9 ∨ c = 13 ∨ c = 10 := by
  simp only [isSpace, Bool.and_eq_true, Bool.or_eq_true, decide_eq_true_eq]
  omega

theorem isSpace_false_iff (c : Nat) :
    isSpace c = false ↔ c ≠ 32 ∧ c ≠ 9 ∧ c ≠ 13 ∧ c ≠ 10 := by
  rw [← Bool.not_eq_true, isSpace_iff]
  omega

theorem isSpace_ne_quote {c : Nat} (h : isSpace c = true) : c ≠ 34 := by
  rcases (isSpace_iff c).1 h with h | h | h | h <;> omega

theorem stepSpec_error (m : Lex) (s : Scanner) (c : Nat) (context : String) :
    StepSpec m c (s.error c context) := by
  simp [StepSpec, Scanner.error]

theorem stepSpec_endTop (s : Scanner) (c : Nat) (herr : s.err = none)
    (hstep : s.step = .stateEndTop) : StepSpec .outside c (stateEndTop s c) := by
  unfold stateEndTop
  split
  · simp [StepSpec, Scanner.error]
  · rename_i h
    simp at h
    simp [StepSpec, herr, hstep, lexOf, lexStep, isSpace_ne_quote h, h]

theorem stepSpec_endValue (s : Scanner) (c : Nat) (herr : s.err = none) :
    StepSpec .outside c (stateEndValue s c) := by
  unfold stateEndValue Scanner.popParseState
  split
  · exact stepSpec_endTop _ c (by simpa using herr) rfl
  · split
    · rename_i h
      simp [StepSpec, herr, lexOf, lexStep, isSpace_ne_quote h, h]
    · rename_i h
      simp at h
      repeat' split
      all_goals simp_all [StepSpec, lexOf, lexStep, Scanner.error]
      all_goals split_ifs <;> simp_all [lexOf]

theorem stepSpec_beginValue (s : Scanner) (c : Nat) (herr : s.err = none)
    (hm : lexOf s.step = .outside) (hne : s.step ≠ .stateError) :
    StepSpec .outside c (stateBeginValue s c) := by
  by_cases h34 : c = 34
  · subst h34
    simp [stateBeginValue, StepSpec, lexOf, lexStep, isSpace, herr]
  · simp only [stateBeginValue, Scanner.pushParseState]
    repeat' split
    all_goals
      simp_all [StepSpec, lexStep, Scanner.error, isSpace_iff, isSpace_false_iff, isDigit19]
    all_goals first | omega | simp [lexOf]

theorem stepSpec_beginValueOrEmpty (s : Scanner) (c : Nat) (herr : s.err = none)
    (hm : lexOf s.step = .outside) (hne : s.step ≠ .stateError) :
    StepSpec .outside c (stateBeginValueOrEmpty s c) := by
  unfold stateBeginValueOrEmpty
  split
  · rename_i h
    simp [StepSpec, herr, hm, hne, lexStep, isSpace_ne_quote h, h]
  · split
    · exact stepSpec_endValue s c herr
    · exact stepSpec_beginValue s c herr hm hne

theorem stepSpec_beginString (s : Scanner) (c : Nat) (herr : s.err = none)
    (hm : lexOf s.step = .outside) (hne : s.step ≠ .stateError) :
    StepSpec .outside c (stateBeginString s c) := by
  by_cases h34 : c = 34
  · subst h34
    simp [stateBeginString, StepSpec, lexOf, lexStep, isSpace, herr]
  · simp only [stateBeginString]
    repeat' split
    all_goals
      simp_all [StepSpec, lexStep, Scanner.error, isSpace_iff, isSpace_false_iff]
    all_goals omega

theorem stepSpec_beginStringOrEmpty (s : Scanner) (c : Nat) (herr : s.err = none)
    (hm : lexOf s.step = .outside) (hne : s.step ≠ .stateError) :
    StepSpec .outside c (stateBeginStringOrEmpty s c) := by
  unfold stateBeginStringOrEmpty
  split
  · rename_i h
    simp [StepSpec, herr, hm, hne, lexStep, isSpace_ne_quote h, h]
  · split
    · exact stepSpec_endValue _ c (by simpa using herr)
    · exact stepSpec_beginString s c herr hm hne

theorem stepSpec_inString (s : Scanner) (c : Nat) (herr : s.err = none)
    (hm : s.step = .stateInString) : StepSpec .inString c (stateInString s c) := by
  unfold stateInString
  repeat' split
  all_goals
    simp_all [StepSpec, lexOf, lexStep, Scanner.error]

theorem stepSpec_inStringEsc (s : Scanner) (c : Nat) (herr : s.err = none) :
    StepSpec .escaped c (stateInStringEsc s c) := by
  unfold stateInStringEsc
  repeat' split
  all_goals
    simp_all [StepSpec, lexOf, lexStep, Scanner.error]

theorem stepSpec_inStringEscHex (next : StepFn) (s : Scanner) (c : Nat) (herr : s.err = none)
    (hnext : lexOf next = .inString) (hne : next ≠ .stateError) :
    StepSpec .inString c (stateInStringEscHex next s c) := by
  unfold stateInStringEscHex
  split
  · rename_i h
    have h1 : c ≠ 34 ∧ c ≠ 92 := by
      simp [isHex] at h
      omega
    simp [StepSpec, herr, hnext, hne, lexStep, h1]
  · exact stepSpec_error _ _ _ _

theorem stepSpec_continue (s : Scanner) (c : Nat) (next : StepFn) (herr : s.err = none)
    (hnext : lexOf next = .outside) (hne : next ≠ .stateError) (h34 : c ≠ 34)
    (hsp : isSpace c = false) :
    StepSpec .outside c ({ s with step := next }, .scanContinue) := by
  simp [StepSpec, herr, hnext, hne, lexStep, h34, hsp]

theorem isDigit_facts {c : Nat} (h : isDigit c = true) : c ≠ 34 ∧ isSpace c = false := by
  simp only [isDigit, Bool.and_eq_true, decide_eq_true_eq] at h
  rw [isSpace_false_iff]
  omega

theorem stepSpec_E0 (s : Scanner) (c : Nat) (herr : s.err = none) (hs : s.step = .stateE0) :
    StepSpec .outside c (stateE0 s c) := by
  unfold stateE0
  split
  · rename_i h
    have := stepSpec_continue s c .stateE0 herr (by simp [lexOf]) (by simp) (isDigit_facts h).1
      (isDigit_facts h).2
    rw [← hs] at this
    exact this
  · exact stepSpec_endValue s c herr

theorem stepSpec_ESign (s : Scanner) (c : Nat) (herr : s.err = none) :
    StepSpec .outside c (stateESign s c) := by
  unfold stateESign
  split
  · rename_i h
    exact stepSpec_continue s c _ herr (by simp [lexOf]) (by simp) (isDigit_facts h).1
      (isDigit_facts h).2
  · exact stepSpec_error _ _ _ _

theorem stepSpec_E (s : Scanner) (c : Nat) (herr : s.err = none) :
    StepSpec .outside c (stateE s c) := by
  unfold stateE
  split
  · rename_i h
    have h1 : c ≠ 34 ∧ isSpace c = false := by
      rw [isSpace_false_iff]
      simp at h
      omega
    exact stepSpec_continue s c _ herr (by simp [lexOf]) (by simp) h1.1 h1.2
  · exact stepSpec_ESign s c herr

theorem stepSpec_Dot0 (s : Scanner) (c : Nat) (herr : s.err = none) (hs : s.step = .stateDot0) :
    StepSpec .outside c (stateDot0 s c) := by
  unfold stateDot0
  split
  · rename_i h
    have := stepSpec_continue s c .stateDot0 herr (by simp [lexOf]) (by simp) (isDigit_facts h).1
      (isDigit_facts h).2
    rw [← hs] at this
    exact this
  · split
    · rename_i h
      have h1 : c ≠ 34 ∧ isSpace c = false := by
        rw [isSpace_false_iff]
        simp at h
        omega
      exact stepSpec_continue s c _ herr (by simp [lexOf]) (by simp) h1.1 h1.2
    · exact stepSpec_endValue s c herr

theorem stepSpec_Dot (s : Scanner) (c : Nat) (herr : s.err = none) :
    StepSpec .outside c (stateDot s c) := by
  unfold stateDot
  split
  · rename_i h
    exact stepSpec_continue s c _ herr (by simp [lexOf]) (by simp) (isDigit_facts h).1
      (isDigit_facts h).2
  · exact stepSpec_error _ _ _ _

theorem stepSpec_0 (s : Scanner) (c : Nat) (herr : s.err = none) :
    StepSpec .outside c (state0 s c) := by
  unfold state0
  split
  · rename_i h
    have h1 : c ≠ 34 ∧ isSpace c = false := by
      rw [isSpace_false_iff]
      omega
    exact stepSpec_continue s c _ herr (by simp [lexOf]) (by simp) h1.1 h1.2
  · split
    · rename_i h
      have h1 : c ≠ 34 ∧ isSpace c = false := by
        rw [isSpace_false_iff]
        simp at h
        omega
      exact stepSpec_continue s c _ herr (by simp [lexOf]) (by simp) h1.1 h1.2
    · exact stepSpec_endValue s c herr

theorem stepSpec_1 (s : Scanner) (c : Nat) (herr : s.err = none) :
    StepSpec .outside c (state1 s c) := by
  unfold state1
  split
  · rename_i h
    exact stepSpec_continue s c _ herr (by simp [lexOf]) (by simp) (isDigit_facts h).1
      (isDigit_facts h).2
  · exact stepSpec_0 s c herr

theorem stepSpec_Neg (s : Scanner) (c : Nat) (herr : s.err = none) :
    StepSpec .outside c (stateNeg s c) := by
  unfold stateNeg
  split
  · rename_i h
    have h1 : c ≠ 34 ∧ isSpace c = false := by
      rw [isSpace_false_iff]
      omega
    exact stepSpec_continue s c _ herr (by simp [lexOf]) (by simp) h1.1 h1.2
  · split
    · rename_i h
      have h1 : c ≠ 34 ∧ isSpace c = false := by
        rw [isSpace_false_iff]
        simp [isDigit19] at h
        omega
      exact stepSpec_continue s c _ herr (by simp [lexOf]) (by simp) h1.1 h1.2
    · exact stepSpec_error _ _ _ _

theorem stepSpec_literal (want : Nat) (next : StepFn) (context : String) (s : Scanner) (c : Nat)
    (herr : s.err = none) (hnext : lexOf next = .outside) (hne : next ≠ .stateError)
    (hw : 97 ≤ want) : StepSpec .outside c (stateLiteral want next context s c) := by
  unfold stateLiteral
  split
  · rename_i h
    have h1 : c ≠ 34 ∧ isSpace c = false := by
      rw [isSpace_false_iff]
      omega
    exact stepSpec_continue s c _ herr hnext hne h1.1 h1.2
  · exact stepSpec_error _ _ _ _

/-- One step of the scanner from a live state follows the lexical mode of the
state it starts in. -/
theorem stepSpec_doStep (s : Scanner) (c : Nat) (herr : s.err = none)
    (hne : s.step ≠ .stateError) : StepSpec (lexOf s.step) c (s.doStep c) := by
  unfold Scanner.doStep
  split <;> rename_i hs <;> rw [hs]
  · exact stepSpec_beginValueOrEmpty s c herr (by simp [hs, lexOf]) hne
  · exact stepSpec_beginValue s c herr (by simp [hs, lexOf]) hne
  · exact stepSpec_beginStringOrEmpty s c herr (by simp [hs, lexOf]) hne
  · exact stepSpec_beginString s c herr (by simp [hs, lexOf]) hne
  · exact stepSpec_endValue s c herr
  · exact stepSpec_endTop s c herr hs
  · exact stepSpec_inString s c herr hs
  · exact stepSpec_inStringEsc s c herr
  · exact stepSpec_inStringEscHex _ s c herr (by simp [lexOf]) (by simp)
  · exact stepSpec_inStringEscHex _ s c herr (by simp [lexOf]) (by simp)
  · exact stepSpec_inStringEscHex _ s c herr (by simp [lexOf]) (by simp)
  · exact stepSpec_inStringEscHex _ s c herr (by simp [lexOf]) (by simp)
  · exact stepSpec_Neg s c herr
  · exact stepSpec_1 s c herr
  · exact stepSpec_0 s c herr
  · exact stepSpec_Dot s c herr
  · exact stepSpec_Dot0 s c herr hs
  · exact stepSpec_E s c herr
  · exact stepSpec_ESign s c herr
  · exact stepSpec_E0 s c herr hs
  all_goals first
    | exact stepSpec_literal _ _ _ s c herr (by simp [lexOf]) (by simp) (by omega)
    | exact absurd hs hne

theorem indentOpen_scan (pfx indent : Bytes) (st : IndentState) (v : Op) :
    (indentOpen pfx indent st v).scan = st.scan := by
  unfold indentOpen
  split <;> rfl

theorem indentEmit_scan (pfx indent : Bytes) (st : IndentState) (v : Op) (c : Nat) :
    (indentEmit pfx indent st v c).scan = st.scan := by
  unfold indentEmit
  repeat' split
  all_goals rfl

theorem appendIndentByte_scan (pfx indent : Bytes) (st : IndentState) (c : Nat) :
    (appendIndentByte pfx indent st c).1.scan
        = (Scanner.doStep { st.scan with bytes := st.scan.bytes + 1 } c).1 ∧
      ((appendIndentByte pfx indent st c).2 = true ↔
        (Scanner.doStep { st.scan with bytes := st.scan.bytes + 1 } c).2 = .scanError) := by
  unfold appendIndentByte
  generalize Scanner.doStep { st.scan with bytes := st.scan.bytes + 1 } c = r
  obtain ⟨scan, v⟩ := r
  simp only
  split
  · rename_i h
    simp [h]
  · split
    · rename_i h
      simp [h]
    · rename_i h
      simp [h, indentEmit_scan, indentOpen_scan]

theorem consistent_newScanner : newScanner.Consistent := by
  left
  simp [newScanner]

/-- A step keeps the scanner consistent, and the code `scanError` is returned
only with an error recorded. -/
theorem doStep_consistent (s : Scanner) (c : Nat) (h : s.Consistent) :
    (Scanner.doStep { s with bytes := s.bytes + 1 } c).1.Consistent ∧
      ((Scanner.doStep { s with bytes := s.bytes + 1 } c).2 = .scanError →
        (Scanner.doStep { s with bytes := s.bytes + 1 } c).1.err ≠ none) ∧
      (s.err ≠ none → (Scanner.doStep { s with bytes := s.bytes + 1 } c).2 = .scanError) := by
  rcases h with ⟨h1, h2⟩ | ⟨h1, h2⟩
  · obtain ⟨H1, H2, H3⟩ := stepSpec_doStep { s with bytes := s.bytes + 1 } c h1 h2
    refine ⟨?_, H2, fun h => absurd h1 h⟩
    by_cases he : (Scanner.doStep { s with bytes := s.bytes + 1 } c).1.err = none
    · exact Or.inl ⟨he, (H3 he).1⟩
    · exact Or.inr ⟨he, H1 he⟩
  · have : Scanner.doStep { s with bytes := s.bytes + 1 } c
        = ({ s with bytes := s.bytes + 1 }, .scanError) := by
      simp [Scanner.doStep, h2]
    rw [this]
    exact ⟨Or.inr ⟨h1, h2⟩, fun _ => h1, fun _ => rfl⟩

theorem eof_error (s : Scanner) (h : s.eof.2 = .scanError) : s.eof.1.err ≠ none := by
  unfold Scanner.eof at h ⊢
  by_cases h1 : s.err.isSome = true
  · simp only [h1, if_true]
    intro h2
    simp [h2] at h1
  · by_cases h2 : s.endTop = true
    · simp [h1, h2] at h
    · by_cases h3 : (s.doStep 32).1.endTop = true
      · simp [h1, h2, h3] at h
      · by_cases h4 : (s.doStep 32).1.err.isNone = true
        · simp [h1, h2, h3, h4]
        · simp only [h1, h2, h3, h4]
          simpa using h4

theorem eof_of_err (s : Scanner) (h : s.err ≠ none) : s.eof.2 = .scanError := by
  unfold Scanner.eof
  have : s.err.isSome = true := by
    cases hs : s.err with
    | none => exact absurd hs h
    | some _ => rfl
  simp [this]

theorem ascii_tab : ascii "\t" = [9] := by decide

/-- Whether the scanner accepts the input is the same in `checkValid` and in
the loop of `appendIndent`. -/
theorem checkValidLoop_iff (pfx indent : Bytes) (data : Bytes) (st : IndentState)
    (h : st.scan.Consistent) :
    (checkValidLoop st.scan data).2 = none ↔
      (appendIndentLoop pfx indent st data).scan.eof.2 ≠ .scanError := by
  induction data generalizing st with
  | nil =>
    unfold checkValidLoop appendIndentLoop
    have he := eof_error st.scan
    generalize st.scan.eof = r at he
    obtain ⟨scan, v⟩ := r
    simp only at he ⊢
    by_cases hv : v = .scanError
    · subst hv
      simp only [ne_eq, not_true_eq_false, iff_false]
      exact he rfl
    · cases v <;> simp_all
  | cons c data ih =>
    unfold checkValidLoop appendIndentLoop
    have hsc := appendIndentByte_scan pfx indent st c
    have hd := doStep_consistent st.scan c h
    generalize appendIndentByte pfx indent st c = r at hsc
    obtain ⟨st1, brk⟩ := r
    simp only at hsc
    generalize Scanner.doStep { st.scan with bytes := st.scan.bytes + 1 } c = r at hsc hd
    obtain ⟨scan, v⟩ := r
    simp only at hsc hd
    obtain ⟨hs1, hs2⟩ := hsc
    by_cases hv : v = .scanError
    · subst hv
      have hb : brk = true := hs2.2 rfl
      subst hb
      simp only [ne_eq]
      have he := hd.2.1 rfl
      constructor
      · intro h0
        exact absurd h0 he
      · intro h0
        exact absurd (eof_of_err _ (by rw [hs1]; exact he)) h0
    · have hb : brk = false := by
        cases brk with
        | true => exact absurd (hs2.1 rfl) hv
        | false => rfl
      subst hb
      have := ih st1 (by rw [hs1]; exact hd.1)
      rw [hs1] at this
      cases v <;> simp_all

/-- The call `json.Indent` returns no error exactly on the inputs that
`json.Valid` accepts. -/
theorem Indent_error_iff (dst src pfx indent : Bytes) :
    (Indent dst src pfx indent).2 = none ↔ Valid src = true := by
  have h := checkValidLoop_iff pfx indent src
    { scan := newScanner, needIndent := false, depth := 0, dst := [] } consistent_newScanner
  simp only [Indent, appendIndent, Valid, checkValid]
  have hr : newScanner.reset = newScanner := rfl
  rw [hr, Option.isNone_iff_eq_none, h]
  generalize appendIndentLoop pfx indent
    { scan := newScanner, needIndent := false, depth := 0, dst := [] } src = st
  have he := eof_error st.scan
  generalize st.scan.eof = r at he
  obtain ⟨scan, v⟩ := r
  simp only at he ⊢
  cases v <;> simp_all

theorem accepts_cons_unfold (σ : Scanner) (c : Nat) (s : Bytes) :
    Accepts σ (c :: s) ↔
      (match Scanner.doStep { σ with bytes := σ.bytes + 1 } c with
       | (σ1, .scanError) => σ1.err = none
       | (σ1, _) => Accepts σ1 s) := by
  unfold Accepts
  rw [checkValidLoop]
  generalize Scanner.doStep { σ with bytes := σ.bytes + 1 } c = r
  obtain ⟨σ1, v⟩ := r
  cases v <;> simp

theorem accepts_dead (σ : Scanner) (s : Bytes) (h : σ.err ≠ none) (hs : σ.step = .stateError) :
    ¬ Accepts σ s := by
  intro ha
  cases s with
  | nil =>
    unfold Accepts at ha
    rw [checkValidLoop] at ha
    have h1 := eof_of_err σ h
    have h2 := eof_error σ h1
    generalize σ.eof = r at h1 h2 ha
    obtain ⟨σ1, v⟩ := r
    simp only at h1 h2 ha
    subst h1
    exact h2 ha
  | cons c s =>
    rw [accepts_cons_unfold] at ha
    have : Scanner.doStep { σ with bytes := σ.bytes + 1 } c
        = ({ σ with bytes := σ.bytes + 1 }, .scanError) := by
      simp [Scanner.doStep, hs]
    rw [this] at ha
    exact h ha

theorem isSpace_iff_ws (c : Nat) : isSpace c = true ↔ (c = 0x20 ∨ c = 0x09 ∨ c = 0x0A ∨ c = 0x0D) := by
  unfold isSpace
  simp only [Bool.and_eq_true, Bool.or_eq_true, decide_eq_true_eq]
  omega

theorem isDigit_iff (c : Nat) : isDigit c = true ↔ (48 ≤ c ∧ c ≤ 57) := by
  unfold isDigit
  simp only [Bool.and_eq_true, decide_eq_true_eq]

theorem isDigit19_iff (c : Nat) : isDigit19 c = true ↔ (49 ≤ c ∧ c ≤ 57) := by
  unfold isDigit19
  simp only [Bool.and_eq_true, decide_eq_true_eq]

theorem isHex_iff (c : Nat) : isHex c = true ↔ HexDigit c := by
  unfold isHex HexDigit
  simp only [Bool.and_eq_true, Bool.or_eq_true, decide_eq_true_eq]
  omega

theorem accepts_error (e : Bool) (ps : List ParseState) (x : SyntaxError) (b : Nat) (s : Bytes) :
    Accepts { step := .stateError, endTop := e, parseState := ps, err := some x, bytes := b } s
      ↔ False := by
  constructor
  · intro h
    exact accepts_dead _ s (by simp) rfl h
  · intro h
    exact h.elim

theorem accepts_congr (σ σ1 : Scanner) (c : Nat) (s : Bytes)
    (h : Scanner.doStep { σ with bytes := σ.bytes + 1 } c
      = Scanner.doStep { σ1 with bytes := σ1.bytes + 1 } c) :
    Accepts σ (c :: s) ↔ Accepts σ1 (c :: s) := by
  rw [accepts_cons_unfold, accepts_cons_unfold, h]

theorem stateEndValue_step (X Y : StepFn) (e : Bool) (ps : List ParseState)
    (er : Option SyntaxError) (b c : Nat) :
    stateEndValue { step := X, endTop := e, parseState := ps, err := er, bytes := b } c
      = stateEndValue { step := Y, endTop := e, parseState := ps, err := er, bytes := b } c := by
  unfold stateEndValue
  cases ps with
  | nil => simp [stateEndTop, Scanner.error]
  | cons p ps =>
    cases p <;> simp only [Scanner.error, Scanner.popParseState]

theorem accepts_inString (ps : List ParseState) (b c : Nat) (s : Bytes) :
    Accepts (cfg .stateInString ps b) (c :: s) ↔
      (c = 34 ∧ Accepts (cfg .stateEndValue ps (b + 1)) s) ∨
      (c = 92 ∧ Accepts (cfg .stateInStringEsc ps (b + 1)) s) ∨
      (c ≠ 34 ∧ c ≠ 92 ∧ 32 ≤ c ∧ Accepts (cfg .stateInString ps (b + 1)) s) := by
  rw [accepts_cons_unfold]
  simp only [cfg, Scanner.doStep, stateInString, Scanner.error]
  split_ifs <;> simp_all

theorem accepts_inStringEsc (ps : List ParseState) (b c : Nat) (s : Bytes) :
    Accepts (cfg .stateInStringEsc ps b) (c :: s) ↔
      ((c = 34 ∨ c = 92 ∨ c = 47 ∨ c = 98 ∨ c = 102 ∨ c = 110 ∨ c = 114 ∨ c = 116) ∧
        Accepts (cfg .stateInString ps (b + 1)) s) ∨
      (c = 117 ∧ Accepts (cfg .stateInStringEscU ps (b + 1)) s) := by
  rw [accepts_cons_unfold]
  simp only [cfg, Scanner.doStep, stateInStringEsc, Scanner.error]
  split_ifs <;> simp_all
  aesop

theorem accepts_inStringEscU (ps : List ParseState) (b c : Nat) (s : Bytes) :
    Accepts (cfg .stateInStringEscU ps b) (c :: s) ↔
      (HexDigit c ∧ Accepts (cfg .stateInStringEscU1 ps (b + 1)) s) := by
  rw [accepts_cons_unfold]
  simp only [cfg, Scanner.doStep, stateInStringEscHex, Scanner.error, ← isHex_iff]
  split_ifs <;> simp_all

theorem accepts_inStringEscU1 (ps : List ParseState) (b c : Nat) (s : Bytes) :
    Accepts (cfg .stateInStringEscU1 ps b) (c :: s) ↔
      (HexDigit c ∧ Accepts (cfg .stateInStringEscU12 ps (b + 1)) s) := by
  rw [accepts_cons_unfold]
  simp only [cfg, Scanner.doStep, stateInStringEscHex, Scanner.error, ← isHex_iff]
  split_ifs <;> simp_all

theorem accepts_inStringEscU12 (ps : List ParseState) (b c : Nat) (s : Bytes) :
    Accepts (cfg .stateInStringEscU12 ps b) (c :: s) ↔
      (HexDigit c ∧ Accepts (cfg .stateInStringEscU123 ps (b + 1)) s) := by
  rw [accepts_cons_unfold]
  simp only [cfg, Scanner.doStep, stateInStringEscHex, Scanner.error, ← isHex_iff]
  split_ifs <;> simp_all

theorem accepts_inStringEscU123 (ps : List ParseState) (b c : Nat) (s : Bytes) :
    Accepts (cfg .stateInStringEscU123 ps b) (c :: s) ↔
      (HexDigit c ∧ Accepts (cfg .stateInString ps (b + 1)) s) := by
  rw [accepts_cons_unfold]
  simp only [cfg, Scanner.doStep, stateInStringEscHex, Scanner.error, ← isHex_iff]
  split_ifs <;> simp_all

theorem accepts_T (ps : List ParseState) (b c : Nat) (s : Bytes) :
    Accepts (cfg .stateT ps b) (c :: s) ↔ (c = 114 ∧ Accepts (cfg .stateTr ps (b + 1)) s) := by
  rw [accepts_cons_unfold]
  simp only [cfg, Scanner.doStep, stateLiteral, Scanner.error]
  split_ifs <;> simp_all

theorem accepts_Tr (ps : List ParseState) (b c : Nat) (s : Bytes) :
    Accepts (cfg .stateTr ps b) (c :: s) ↔ (c = 117 ∧ Accepts (cfg .stateTru ps (b + 1)) s) := by
  rw [accepts_cons_unfold]
  simp only [cfg, Scanner.doStep, stateLiteral, Scanner.error]
  split_ifs <;> simp_all

theorem accepts_Tru (ps : List ParseState) (b c : Nat) (s : Bytes) :
    Accepts (cfg .stateTru ps b) (c :: s) ↔
      (c = 101 ∧ Accepts (cfg .stateEndValue ps (b + 1)) s) := by
  rw [accepts_cons_unfold]
  simp only [cfg, Scanner.doStep, stateLiteral, Scanner.error]
  split_ifs <;> simp_all

theorem accepts_F (ps : List ParseState) (b c : Nat) (s : Bytes) :
    Accepts (cfg .stateF ps b) (c :: s) ↔ (c = 97 ∧ Accepts (cfg .stateFa ps (b + 1)) s) := by
  rw [accepts_cons_unfold]
  simp only [cfg, Scanner.doStep, stateLiteral, Scanner.error]
  split_ifs <;> simp_all

theorem accepts_Fa (ps : List ParseState) (b c : Nat) (s : Bytes) :
    Accepts (cfg .stateFa ps b) (c :: s) ↔ (c = 108 ∧ Accepts (cfg .stateFal ps (b + 1)) s) := by
  rw [accepts_cons_unfold]
  simp only [cfg, Scanner.doStep, stateLiteral, Scanner.error]
  split_ifs <;> simp_all

theorem accepts_Fal (ps : List ParseState) (b c : Nat) (s : Bytes) :
    Accepts (cfg .stateFal ps b) (c :: s) ↔ (c = 115 ∧ Accepts (cfg .stateFals ps (b + 1)) s) := by
  rw [accepts_cons_unfold]
  simp only [cfg, Scanner.doStep, stateLiteral, Scanner.error]
  split_ifs <;> simp_all

theorem accepts_Fals (ps : List ParseState) (b c : Nat) (s : Bytes) :
    Accepts (cfg .stateFals ps b) (c :: s) ↔
      (c = 101 ∧ Accepts (cfg .stateEndValue ps (b + 1)) s) := by
  rw [accepts_cons_unfold]
  simp only [cfg, Scanner.doStep, stateLiteral, Scanner.error]
  split_ifs <;> simp_all

theorem accepts_N (ps : List ParseState) (b c : Nat) (s : Bytes) :
    Accepts (cfg .stateN ps b) (c :: s) ↔ (c = 117 ∧ Accepts (cfg .stateNu ps (b + 1)) s) := by
  rw [accepts_cons_unfold]
  simp only [cfg, Scanner.doStep, stateLiteral, Scanner.error]
  split_ifs <;> simp_all

theorem accepts_Nu (ps : List ParseState) (b c : Nat) (s : Bytes) :
    Accepts (cfg .stateNu ps b) (c :: s) ↔ (c = 108 ∧ Accepts (cfg .stateNul ps (b + 1)) s) := by
  rw [accepts_cons_unfold]
  simp only [cfg, Scanner.doStep, stateLiteral, Scanner.error]
  split_ifs <;> simp_all

theorem accepts_Nul (ps : List ParseState) (b c : Nat) (s : Bytes) :
    Accepts (cfg .stateNul ps b) (c :: s) ↔
      (c = 108 ∧ Accepts (cfg .stateEndValue ps (b + 1)) s) := by
  rw [accepts_cons_unfold]
  simp only [cfg, Scanner.doStep, stateLiteral, Scanner.error]
  split_ifs <;> simp_all

/-! ### Numbers -/

theorem accepts_neg (ps : List ParseState) (b c : Nat) (s : Bytes) :
    Accepts (cfg .stateNeg ps b) (c :: s) ↔
      (c = 48 ∧ Accepts (cfg .state0 ps (b + 1)) s) ∨
      ((49 ≤ c ∧ c ≤ 57) ∧ Accepts (cfg .state1 ps (b + 1)) s) := by
  rw [accepts_cons_unfold]
  simp only [cfg, Scanner.doStep, stateNeg, Scanner.error, ← isDigit19_iff]
  split_ifs <;> simp_all [isDigit19]

theorem accepts_state0 (ps : List ParseState) (b c : Nat) (s : Bytes) :
    Accepts (cfg .state0 ps b) (c :: s) ↔
      (c = 46 ∧ Accepts (cfg .stateDot ps (b + 1)) s) ∨
      ((c = 101 ∨ c = 69) ∧ Accepts (cfg .stateE ps (b + 1)) s) ∨
      (c ≠ 46 ∧ c ≠ 101 ∧ c ≠ 69 ∧ Accepts (cfg .stateEndValue ps b) (c :: s)) := by
  by_cases h46 : c = 46
  · subst h46
    rw [accepts_cons_unfold]
    simp [cfg, Scanner.doStep, state0]
  · by_cases he : c = 101 ∨ c = 69
    · rw [accepts_cons_unfold]
      simp only [cfg, Scanner.doStep, state0, Scanner.error]
      rcases he with he | he <;> subst he <;> simp
    · have h1 : c ≠ 101 := fun h => he (Or.inl h)
      have h2 : c ≠ 69 := fun h => he (Or.inr h)
      simp only [h46, he, h1, h2, false_and, false_or, ne_eq, not_false_eq_true, true_and]
      apply accepts_congr
      simp only [cfg, Scanner.doStep, state0, h46, h1, h2, if_false, Bool.or_self,
        decide_False, Bool.false_eq_true]
      exact stateEndValue_step _ _ _ _ _ _ _

theorem accepts_state1 (ps : List ParseState) (b c : Nat) (s : Bytes) :
    Accepts (cfg .state1 ps b) (c :: s) ↔
      ((48 ≤ c ∧ c ≤ 57) ∧ Accepts (cfg .state1 ps (b + 1)) s) ∨
      (¬ (48 ≤ c ∧ c ≤ 57) ∧ Accepts (cfg .state0 ps b) (c :: s)) := by
  rw [← isDigit_iff]
  by_cases hd : isDigit c = true
  · rw [accepts_cons_unfold]
    simp [cfg, Scanner.doStep, state1, hd]
  · simp only [hd, Bool.false_eq_true, false_and, false_or, not_false_eq_true, true_and]
    apply accepts_congr
    simp only [cfg, Scanner.doStep, state1]
    rw [if_neg hd]
    simp only [state0]
    split_ifs <;> rfl

theorem accepts_dot (ps : List ParseState) (b c : Nat) (s : Bytes) :
    Accepts (cfg .stateDot ps b) (c :: s) ↔
      ((48 ≤ c ∧ c ≤ 57) ∧ Accepts (cfg .stateDot0 ps (b + 1)) s) := by
  rw [accepts_cons_unfold]
  simp only [cfg, Scanner.doStep, stateDot, Scanner.error, ← isDigit_iff]
  split_ifs <;> simp_all

theorem accepts_dot0 (ps : List ParseState) (b c : Nat) (s : Bytes) :
    Accepts (cfg .stateDot0 ps b) (c :: s) ↔
      ((48 ≤ c ∧ c ≤ 57) ∧ Accepts (cfg .stateDot0 ps (b + 1)) s) ∨
      ((c = 101 ∨ c = 69) ∧ Accepts (cfg .stateE ps (b + 1)) s) ∨
      (¬ (48 ≤ c ∧ c ≤ 57) ∧ c ≠ 101 ∧ c ≠ 69 ∧
        Accepts (cfg .stateEndValue ps b) (c :: s)) := by
  by_cases hd : 48 ≤ c ∧ c ≤ 57
  · have hd1 : isDigit c = true := (isDigit_iff c).2 hd
    have h1 : c ≠ 101 := by omega
    have h2 : c ≠ 69 := by omega
    rw [accepts_cons_unfold]
    simp [cfg, Scanner.doStep, stateDot0, hd1, hd, h1, h2]
  · have hd1 : ¬ isDigit c = true := fun h => hd ((isDigit_iff c).1 h)
    by_cases he : c = 101 ∨ c = 69
    · rw [accepts_cons_unfold]
      simp only [cfg, Scanner.doStep, stateDot0, Scanner.error]
      rcases he with he | he <;> subst he <;> simp [isDigit]
    · have h1 : c ≠ 101 := fun h => he (Or.inl h)
      have h2 : c ≠ 69 := fun h => he (Or.inr h)
      simp only [hd, he, h1, h2, false_and, false_or, ne_eq, not_false_eq_true, true_and]
      apply accepts_congr
      simp only [cfg, Scanner.doStep, stateDot0, hd1, h1, h2, if_false, Bool.or_self,
        decide_False, Bool.false_eq_true]
      exact stateEndValue_step _ _ _ _ _ _ _

theorem accepts_eSign (ps : List ParseState) (b c : Nat) (s : Bytes) :
    Accepts (cfg .stateESign ps b) (c :: s) ↔
      ((48 ≤ c ∧ c ≤ 57) ∧ Accepts (cfg .stateE0 ps (b + 1)) s) := by
  rw [accepts_cons_unfold]
  simp only [cfg, Scanner.doStep, stateESign, Scanner.error, ← isDigit_iff]
  split_ifs <;> simp_all

theorem accepts_e (ps : List ParseState) (b c : Nat) (s : Bytes) :
    Accepts (cfg .stateE ps b) (c :: s) ↔
      ((c = 43 ∨ c = 45) ∧ Accepts (cfg .stateESign ps (b + 1)) s) ∨
      ((48 ≤ c ∧ c ≤ 57) ∧ Accepts (cfg .stateE0 ps (b + 1)) s) := by
  by_cases hs : c = 43 ∨ c = 45
  · have hd : ¬ (48 ≤ c ∧ c ≤ 57) := by omega
    rw [accepts_cons_unfold]
    simp only [cfg, Scanner.doStep, stateE]
    rcases hs with hs | hs <;> subst hs <;> simp
  · have h1 : c ≠ 43 := fun h => hs (Or.inl h)
    have h2 : c ≠ 45 := fun h => hs (Or.inr h)
    rw [accepts_cons_unfold]
    simp only [cfg, Scanner.doStep, stateE, stateESign, Scanner.error, ← isDigit_iff]
    split_ifs <;> simp_all

theorem accepts_e0 (ps : List ParseState) (b c : Nat) (s : Bytes) :
    Accepts (cfg .stateE0 ps b) (c :: s) ↔
      ((48 ≤ c ∧ c ≤ 57) ∧ Accepts (cfg .stateE0 ps (b + 1)) s) ∨
      (¬ (48 ≤ c ∧ c ≤ 57) ∧ Accepts (cfg .stateEndValue ps b) (c :: s)) := by
  rw [← isDigit_iff]
  by_cases hd : isDigit c = true
  · rw [accepts_cons_unfold]
    simp [cfg, Scanner.doStep, stateE0, hd]
  · simp only [hd, Bool.false_eq_true, false_and, false_or, not_false_eq_true, true_and]
    apply accepts_congr
    simp only [cfg, Scanner.doStep, stateE0]
    rw [if_neg hd]
    exact stateEndValue_step _ _ _ _ _ _ _

/-! ### After a value -/

theorem accepts_topCfg_nil (b : Nat) : Accepts (topCfg b) [] := by
  simp [Accepts, checkValidLoop, Scanner.eof, topCfg]

theorem accepts_topCfg_cons (b c : Nat) (s : Bytes) :
    Accepts (topCfg b) (c :: s) ↔ (isSpace c = true ∧ Accepts (topCfg (b + 1)) s) := by
  rw [accepts_cons_unfold]
  simp only [topCfg, Scanner.doStep, stateEndTop, Scanner.error]
  by_cases h : isSpace c = true <;> simp [h, accepts_error]

theorem accepts_endValue_empty_cons (b c : Nat) (s : Bytes) :
    Accepts (cfg .stateEndValue [] b) (c :: s) ↔
      (isSpace c = true ∧ Accepts (topCfg (b + 1)) s) := by
  rw [accepts_cons_unfold]
  simp only [cfg, topCfg, Scanner.doStep, stateEndValue, stateEndTop, Scanner.error]
  by_cases h : isSpace c = true <;> simp [h, accepts_error]

theorem accepts_topCfg_iff (b : Nat) (s : Bytes) :
    Accepts (topCfg b) s ↔ Accepts (cfg .stateEndValue [] b) s := by
  cases s with
  | nil =>
    simp [Accepts, checkValidLoop, Scanner.eof, topCfg, cfg, Scanner.doStep, stateEndValue,
      stateEndTop, isSpace]
  | cons c s => rw [accepts_topCfg_cons, accepts_endValue_empty_cons]

theorem accepts_popped (p : ParseState) (ps : List ParseState) (b : Nat) (s : Bytes) :
    Accepts (Scanner.popParseState (cfg .stateEndValue (p :: ps) b)) s ↔
      Accepts (cfg .stateEndValue ps b) s := by
  cases ps with
  | nil =>
    have : Scanner.popParseState (cfg .stateEndValue [p] b) = topCfg b := by
      simp [Scanner.popParseState, cfg, topCfg]
    rw [this, accepts_topCfg_iff]
  | cons q ps =>
    have : Scanner.popParseState (cfg .stateEndValue (p :: q :: ps) b)
        = cfg .stateEndValue (q :: ps) b := by
      simp [Scanner.popParseState, cfg]
    rw [this]

theorem accepts_endValue_array (ps : List ParseState) (b c : Nat) (s : Bytes) :
    Accepts (cfg .stateEndValue (.parseArrayValue :: ps) b) (c :: s) ↔
      (isSpace c = true ∧ Accepts (cfg .stateEndValue (.parseArrayValue :: ps) (b + 1)) s) ∨
      (c = 44 ∧ Accepts (cfg .stateBeginValue (.parseArrayValue :: ps) (b + 1)) s) ∨
      (c = 93 ∧ Accepts (cfg .stateEndValue ps (b + 1)) s) := by
  rw [← accepts_popped .parseArrayValue ps (b + 1) s, accepts_cons_unfold]
  simp only [cfg, Scanner.doStep, stateEndValue, Scanner.error]
  by_cases hsp : isSpace c = true
  · have h1 : c ≠ 44 := by rw [isSpace_iff_ws] at hsp; omega
    have h2 : c ≠ 93 := by rw [isSpace_iff_ws] at hsp; omega
    simp [hsp, h1, h2]
  · by_cases h1 : c = 44
    · subst h1
      simp [hsp]
    · by_cases h2 : c = 93
      · subst h2
        simp [hsp, Scanner.popParseState]
      · simp [hsp, h1, h2, accepts_error]

theorem accepts_endValue_objectValue (ps : List ParseState) (b c : Nat) (s : Bytes) :
    Accepts (cfg .stateEndValue (.parseObjectValue :: ps) b) (c :: s) ↔
      (isSpace c = true ∧ Accepts (cfg .stateEndValue (.parseObjectValue :: ps) (b + 1)) s) ∨
      (c = 44 ∧ Accepts (cfg .stateBeginString (.parseObjectKey :: ps) (b + 1)) s) ∨
      (c = 125 ∧ Accepts (cfg .stateEndValue ps (b + 1)) s) := by
  rw [← accepts_popped .parseObjectValue ps (b + 1) s, accepts_cons_unfold]
  simp only [cfg, Scanner.doStep, stateEndValue, Scanner.error]
  by_cases hsp : isSpace c = true
  · have h1 : c ≠ 44 := by rw [isSpace_iff_ws] at hsp; omega
    have h2 : c ≠ 125 := by rw [isSpace_iff_ws] at hsp; omega
    simp [hsp, h1, h2]
  · by_cases h1 : c = 44
    · subst h1
      simp [hsp]
    · by_cases h2 : c = 125
      · subst h2
        simp [hsp, Scanner.popParseState]
      · simp [hsp, h1, h2, accepts_error]

theorem accepts_endValue_objectKey (ps : List ParseState) (b c : Nat) (s : Bytes) :
    Accepts (cfg .stateEndValue (.parseObjectKey :: ps) b) (c :: s) ↔
      (isSpace c = true ∧ Accepts (cfg .stateEndValue (.parseObjectKey :: ps) (b + 1)) s) ∨
      (c = 58 ∧ Accepts (cfg .stateBeginValue (.parseObjectValue :: ps) (b + 1)) s) := by
  rw [accepts_cons_unfold]
  simp only [cfg, Scanner.doStep, stateEndValue, Scanner.error]
  by_cases hsp : isSpace c = true
  · have h1 : c ≠ 58 := by rw [isSpace_iff_ws] at hsp; omega
    simp [hsp, h1]
  · by_cases h1 : c = 58
    · subst h1
      simp [hsp]
    · simp [hsp, h1, accepts_error]

/-! ### Before a value -/

theorem accepts_beginValue (ps : List ParseState) (b c : Nat) (s : Bytes) :
    Accepts (cfg .stateBeginValue ps b) (c :: s) ↔
      (isSpace c = true ∧ Accepts (cfg .stateBeginValue ps (b + 1)) s) ∨
      (c = 123 ∧ ps.length + 1 ≤ maxNestingDepth ∧
        Accepts (cfg .stateBeginStringOrEmpty (.parseObjectKey :: ps) (b + 1)) s) ∨
      (c = 91 ∧ ps.length + 1 ≤ maxNestingDepth ∧
        Accepts (cfg .stateBeginValueOrEmpty (.parseArrayValue :: ps) (b + 1)) s) ∨
      (c = 34 ∧ Accepts (cfg .stateInString ps (b + 1)) s) ∨
      (c = 45 ∧ Accepts (cfg .stateNeg ps (b + 1)) s) ∨
      (c = 48 ∧ Accepts (cfg .state0 ps (b + 1)) s) ∨
      (c = 116 ∧ Accepts (cfg .stateT ps (b + 1)) s) ∨
      (c = 102 ∧ Accepts (cfg .stateF ps (b + 1)) s) ∨
      (c = 110 ∧ Accepts (cfg .stateN ps (b + 1)) s) ∨
      ((49 ≤ c ∧ c ≤ 57) ∧ Accepts (cfg .state1 ps (b + 1)) s) := by
  rw [accepts_cons_unfold]
  simp only [cfg, Scanner.doStep, stateBeginValue, Scanner.pushParseState, Scanner.error]
  by_cases hsp : isSpace c = true
  · have := (isSpace_iff_ws c).1 hsp
    have h1 : c ≠ 123 := by omega
    have h2 : c ≠ 91 := by omega
    have h3 : c ≠ 34 := by omega
    have h4 : c ≠ 45 := by omega
    have h5 : c ≠ 48 := by omega
    have h6 : c ≠ 116 := by omega
    have h7 : c ≠ 102 := by omega
    have h8 : c ≠ 110 := by omega
    have h9 : ¬ (49 ≤ c ∧ c ≤ 57) := by omega
    simp [hsp, h1, h2, h3, h4, h5, h6, h7, h8, h9]
  · by_cases h1 : c = 123
    · subst h1
      by_cases hd : ps.length + 1 ≤ maxNestingDepth <;> simp [hsp, hd, accepts_error]
    · by_cases h2 : c = 91
      · subst h2
        by_cases hd : ps.length + 1 ≤ maxNestingDepth <;> simp [hsp, hd, accepts_error]
      · by_cases h3 : c = 34
        · subst h3
          simp [hsp]
        · by_cases h4 : c = 45
          · subst h4
            simp [hsp]
          · by_cases h5 : c = 48
            · subst h5
              simp [hsp]
            · by_cases h6 : c = 116
              · subst h6
                simp [hsp]
              · by_cases h7 : c = 102
                · subst h7
                  simp [hsp]
                · by_cases h8 : c = 110
                  · subst h8
                    simp [hsp]
                  · by_cases h9 : isDigit19 c = true
                    · have := (isDigit19_iff c).1 h9
                      simp [hsp, h1, h2, h3, h4, h5, h6, h7, h8, h9, this]
                    · have : ¬ (49 ≤ c ∧ c ≤ 57) := fun h => h9 ((isDigit19_iff c).2 h)
                      simp [hsp, h1, h2, h3, h4, h5, h6, h7, h8, h9, this, accepts_error]

theorem stateBeginValue_step (X Y : StepFn) (e : Bool) (ps : List ParseState)
    (er : Option SyntaxError) (b c : Nat) (h : ¬ isSpace c = true) :
    stateBeginValue { step := X, endTop := e, parseState := ps, err := er, bytes := b } c
      = stateBeginValue { step := Y, endTop := e, parseState := ps, err := er, bytes := b } c := by
  unfold stateBeginValue
  rw [if_neg h, if_neg h]
  simp only [Scanner.pushParseState, Scanner.error]

theorem accepts_beginValueOrEmpty (ps : List ParseState) (b c : Nat) (s : Bytes) :
    Accepts (cfg .stateBeginValueOrEmpty ps b) (c :: s) ↔
      (isSpace c = true ∧ Accepts (cfg .stateBeginValueOrEmpty ps (b + 1)) s) ∨
      (c = 93 ∧ Accepts (cfg .stateEndValue ps b) (c :: s)) ∨
      (¬ isSpace c = true ∧ c ≠ 93 ∧ Accepts (cfg .stateBeginValue ps b) (c :: s)) := by
  by_cases hsp : isSpace c = true
  · have h2 : c ≠ 93 := by rw [isSpace_iff_ws] at hsp; omega
    rw [accepts_cons_unfold]
    simp [cfg, Scanner.doStep, stateBeginValueOrEmpty, hsp, h2]
  · by_cases h2 : c = 93
    · have key : Accepts (cfg .stateBeginValueOrEmpty ps b) (c :: s)
          ↔ Accepts (cfg .stateEndValue ps b) (c :: s) := by
        apply accepts_congr
        simp only [cfg, Scanner.doStep, stateBeginValueOrEmpty]
        rw [if_neg hsp, if_pos h2]
        exact stateEndValue_step _ _ _ _ _ _ _
      rw [key]
      subst h2
      simp [hsp]
    · have key : Accepts (cfg .stateBeginValueOrEmpty ps b) (c :: s)
          ↔ Accepts (cfg .stateBeginValue ps b) (c :: s) := by
        apply accepts_congr
        simp only [cfg, Scanner.doStep, stateBeginValueOrEmpty]
        rw [if_neg hsp, if_neg h2]
        exact stateBeginValue_step _ _ _ _ _ _ _ hsp
      rw [key]
      simp [hsp, h2]

theorem accepts_beginString (ps : List ParseState) (b c : Nat) (s : Bytes) :
    Accepts (cfg .stateBeginString ps b) (c :: s) ↔
      (isSpace c = true ∧ Accepts (cfg .stateBeginString ps (b + 1)) s) ∨
      (c = 34 ∧ Accepts (cfg .stateInString ps (b + 1)) s) := by
  rw [accepts_cons_unfold]
  simp only [cfg, Scanner.doStep, stateBeginString, Scanner.error]
  by_cases hsp : isSpace c = true
  · have h1 : c ≠ 34 := by rw [isSpace_iff_ws] at hsp; omega
    simp [hsp, h1]
  · by_cases h1 : c = 34
    · subst h1
      simp [hsp]
    · simp [hsp, h1, accepts_error]

theorem accepts_beginStringOrEmpty (ps : List ParseState) (b c : Nat) (s : Bytes) :
    Accepts (cfg .stateBeginStringOrEmpty (.parseObjectKey :: ps) b) (c :: s) ↔
      (isSpace c = true ∧
        Accepts (cfg .stateBeginStringOrEmpty (.parseObjectKey :: ps) (b + 1)) s) ∨
      (c = 125 ∧ Accepts (cfg .stateEndValue ps (b + 1)) s) ∨
      (c = 34 ∧ Accepts (cfg .stateInString (.parseObjectKey :: ps) (b + 1)) s) := by
  rw [← accepts_popped .parseObjectValue ps (b + 1) s, accepts_cons_unfold]
  simp only [cfg, Scanner.doStep, stateBeginStringOrEmpty, stateBeginString, stateEndValue,
    Scanner.error]
  by_cases hsp : isSpace c = true
  · have h1 : c ≠ 34 := by rw [isSpace_iff_ws] at hsp; omega
    have h2 : c ≠ 125 := by rw [isSpace_iff_ws] at hsp; omega
    simp [hsp, h1, h2]
  · by_cases h1 : c = 34
    · subst h1
      simp [hsp]
    · by_cases h2 : c = 125
      · subst h2
        simp [hsp, Scanner.popParseState]
      · simp [hsp, h1, h2, accepts_error]

/-! ### At the end of the input -/

theorem accepts_nil (X : StepFn) (ps : List ParseState) (b : Nat) :
    Accepts (cfg X ps b) [] ↔
      ((X = .stateEndValue ∨ X = .state0 ∨ X = .state1 ∨ X = .stateDot0 ∨ X = .stateE0) ∧
        ps = []) := by
  cases ps with
  | nil =>
    cases X <;>
      simp [Accepts, checkValidLoop, Scanner.eof, cfg, Scanner.doStep, stateEndValue,
        stateEndTop, isSpace, stateBeginValue, stateBeginValueOrEmpty, stateBeginString,
        stateBeginStringOrEmpty, stateInString, stateInStringEsc, stateInStringEscHex,
        stateNeg, state0, state1, stateDot, stateDot0, stateE, stateESign, stateE0,
        stateLiteral, Scanner.error, isDigit, isDigit19, isHex]
  | cons p ps =>
    cases X <;> cases p <;>
      simp [Accepts, checkValidLoop, Scanner.eof, cfg, Scanner.doStep, stateEndValue,
        stateEndTop, isSpace, stateBeginValue, stateBeginValueOrEmpty, stateBeginString,
        stateBeginStringOrEmpty, stateInString, stateInStringEsc, stateInStringEscHex,
        stateNeg, state0, state1, stateDot, stateDot0, stateE, stateESign, stateE0,
        stateLiteral, Scanner.error, isDigit, isDigit19, isHex]

/-! ### From the grammar to the scanner -/

theorem endValue_head (ps : List ParseState) (b c : Nat) (s : Bytes)
    (h : Accepts (cfg .stateEndValue ps b) (c :: s)) :
    c = 32 ∨ c = 9 ∨ c = 10 ∨ c = 13 ∨ c = 44 ∨ c = 93 ∨ c = 125 ∨ c = 58 := by
  cases ps with
  | nil =>
    rw [accepts_endValue_empty_cons, isSpace_iff_ws] at h
    omega
  | cons p ps =>
    cases p with
    | parseObjectKey =>
      rw [accepts_endValue_objectKey, isSpace_iff_ws] at h
      omega
    | parseObjectValue =>
      rw [accepts_endValue_objectValue, isSpace_iff_ws] at h
      omega
    | parseArrayValue =>
      rw [accepts_endValue_array, isSpace_iff_ws] at h
      omega

theorem e0_of_endValue (ps : List ParseState) (b : Nat) (r : Bytes)
    (h : Accepts (cfg .stateEndValue ps b) r) : Accepts (cfg .stateE0 ps b) r := by
  cases r with
  | nil =>
    rw [accepts_nil] at h ⊢
    exact ⟨by simp, h.2⟩
  | cons c s =>
    have hc := endValue_head ps b c s h
    rw [accepts_e0]
    exact Or.inr ⟨by omega, h⟩

theorem dot0_of_endValue (ps : List ParseState) (b : Nat) (r : Bytes)
    (h : Accepts (cfg .stateEndValue ps b) r) : Accepts (cfg .stateDot0 ps b) r := by
  cases r with
  | nil =>
    rw [accepts_nil] at h ⊢
    exact ⟨by simp, h.2⟩
  | cons c s =>
    have hc := endValue_head ps b c s h
    rw [accepts_dot0]
    exact Or.inr (Or.inr ⟨by omega, by omega, by omega, h⟩)

theorem state0_of_endValue (ps : List ParseState) (b : Nat) (r : Bytes)
    (h : Accepts (cfg .stateEndValue ps b) r) : Accepts (cfg .state0 ps b) r := by
  cases r with
  | nil =>
    rw [accepts_nil] at h ⊢
    exact ⟨by simp, h.2⟩
  | cons c s =>
    have hc := endValue_head ps b c s h
    rw [accepts_state0]
    exact Or.inr (Or.inr ⟨by omega, by omega, by omega, h⟩)

theorem state1_of_state0 (ps : List ParseState) (b : Nat) (r : Bytes)
    (h : Accepts (cfg .state0 ps b) r)
    (hr : ∀ c s, r = c :: s → ¬ (48 ≤ c ∧ c ≤ 57)) : Accepts (cfg .state1 ps b) r := by
  cases r with
  | nil =>
    rw [accepts_nil] at h ⊢
    exact ⟨by simp, h.2⟩
  | cons c s =>
    rw [accepts_state1]
    exact Or.inr ⟨hr c s rfl, h⟩

theorem ws_skip (X : StepFn) (ps : List ParseState)
    (hX : ∀ b c s, isSpace c = true → Accepts (cfg X ps (b + 1)) s →
      Accepts (cfg X ps b) (c :: s))
    {s r : Bytes} (h : Ws s r) (hr : ∀ b, Accepts (cfg X ps b) r) :
    ∀ b, Accepts (cfg X ps b) s := by
  induction h with
  | done => exact hr
  | more hc _ ih =>
    intro b
    exact hX b _ _ ((isSpace_iff_ws _).2 hc) (ih hr (b + 1))

theorem ws_beginValue (ps : List ParseState) {s r : Bytes} (h : Ws s r)
    (hr : ∀ b, Accepts (cfg .stateBeginValue ps b) r) :
    ∀ b, Accepts (cfg .stateBeginValue ps b) s :=
  ws_skip _ ps (fun b c s hc h => (accepts_beginValue ps b c s).2 (Or.inl ⟨hc, h⟩)) h hr

theorem ws_beginValueOrEmpty (ps : List ParseState) {s r : Bytes} (h : Ws s r)
    (hr : ∀ b, Accepts (cfg .stateBeginValueOrEmpty ps b) r) :
    ∀ b, Accepts (cfg .stateBeginValueOrEmpty ps b) s :=
  ws_skip _ ps (fun b c s hc h => (accepts_beginValueOrEmpty ps b c s).2 (Or.inl ⟨hc, h⟩)) h hr

theorem ws_beginString (ps : List ParseState) {s r : Bytes} (h : Ws s r)
    (hr : ∀ b, Accepts (cfg .stateBeginString ps b) r) :
    ∀ b, Accepts (cfg .stateBeginString ps b) s :=
  ws_skip _ ps (fun b c s hc h => (accepts_beginString ps b c s).2 (Or.inl ⟨hc, h⟩)) h hr

theorem ws_beginStringOrEmpty (ps : List ParseState) {s r : Bytes} (h : Ws s r)
    (hr : ∀ b, Accepts (cfg .stateBeginStringOrEmpty (.parseObjectKey :: ps) b) r) :
    ∀ b, Accepts (cfg .stateBeginStringOrEmpty (.parseObjectKey :: ps) b) s :=
  ws_skip _ _ (fun b c s hc h => (accepts_beginStringOrEmpty ps b c s).2 (Or.inl ⟨hc, h⟩)) h hr

theorem ws_endValue_array (ps : List ParseState) {s r : Bytes} (h : Ws s r)
    (hr : ∀ b, Accepts (cfg .stateEndValue (.parseArrayValue :: ps) b) r) :
    ∀ b, Accepts (cfg .stateEndValue (.parseArrayValue :: ps) b) s :=
  ws_skip _ _ (fun b c s hc h => (accepts_endValue_array ps b c s).2 (Or.inl ⟨hc, h⟩)) h hr

theorem ws_endValue_objectValue (ps : List ParseState) {s r : Bytes} (h : Ws s r)
    (hr : ∀ b, Accepts (cfg .stateEndValue (.parseObjectValue :: ps) b) r) :
    ∀ b, Accepts (cfg .stateEndValue (.parseObjectValue :: ps) b) s :=
  ws_skip _ _ (fun b c s hc h => (accepts_endValue_objectValue ps b c s).2 (Or.inl ⟨hc, h⟩))
    h hr

theorem ws_endValue_objectKey (ps : List ParseState) {s r : Bytes} (h : Ws s r)
    (hr : ∀ b, Accepts (cfg .stateEndValue (.parseObjectKey :: ps) b) r) :
    ∀ b, Accepts (cfg .stateEndValue (.parseObjectKey :: ps) b) s :=
  ws_skip _ _ (fun b c s hc h => (accepts_endValue_objectKey ps b c s).2 (Or.inl ⟨hc, h⟩))
    h hr

theorem ws_topCfg {s r : Bytes} (h : Ws s r) (hr : r = []) : ∀ b, Accepts (topCfg b) s := by
  induction h with
  | done =>
    intro b
    rw [hr]
    exact accepts_topCfg_nil b
  | more hc _ ih =>
    intro b
    rw [accepts_topCfg_cons]
    exact ⟨(isSpace_iff_ws _).2 hc, ih hr (b + 1)⟩

theorem ws_endValue_empty {s : Bytes} (h : Ws s []) :
    ∀ b, Accepts (cfg .stateEndValue [] b) s := by
  intro b
  rw [← accepts_topCfg_iff]
  exact ws_topCfg h rfl b

theorem digits_loop (Y : StepFn) (ps : List ParseState)
    (hY : ∀ b c s, (48 ≤ c ∧ c ≤ 57) → Accepts (cfg Y ps (b + 1)) s →
      Accepts (cfg Y ps b) (c :: s))
    {s r : Bytes} (h : Digits s r) (hr : ∀ b, Accepts (cfg Y ps b) r) :
    ∀ b, Accepts (cfg Y ps b) s := by
  induction h with
  | one hc =>
    intro b
    exact hY b _ _ hc (hr (b + 1))
  | more hc _ ih =>
    intro b
    exact hY b _ _ hc (ih hr (b + 1))

theorem digits_e0 (ps : List ParseState) {s r : Bytes} (h : Digits s r)
    (hr : ∀ b, Accepts (cfg .stateEndValue ps b) r) : ∀ b, Accepts (cfg .stateE0 ps b) s :=
  digits_loop _ ps (fun b c s hc h => (accepts_e0 ps b c s).2 (Or.inl ⟨hc, h⟩)) h
    (fun b => e0_of_endValue ps b _ (hr b))

theorem digits_eSign (ps : List ParseState) {s r : Bytes} (h : Digits s r)
    (hr : ∀ b, Accepts (cfg .stateEndValue ps b) r) :
    ∀ b, Accepts (cfg .stateESign ps b) s := by
  intro b
  cases h with
  | one hc => exact (accepts_eSign ps b _ _).2 ⟨hc, e0_of_endValue ps _ _ (hr (b + 1))⟩
  | more hc hd => exact (accepts_eSign ps b _ _).2 ⟨hc, digits_e0 ps hd hr (b + 1)⟩

theorem digits_e (ps : List ParseState) {s r : Bytes} (h : Digits s r)
    (hr : ∀ b, Accepts (cfg .stateEndValue ps b) r) :
    ∀ b, Accepts (cfg .stateE ps b) s := by
  intro b
  cases h with
  | one hc =>
    exact (accepts_e ps b _ _).2 (Or.inr ⟨hc, e0_of_endValue ps _ _ (hr (b + 1))⟩)
  | more hc hd => exact (accepts_e ps b _ _).2 (Or.inr ⟨hc, digits_e0 ps hd hr (b + 1)⟩)

theorem exp_e (ps : List ParseState) {e : Nat} {s r : Bytes} (h : Exp (e :: s) r)
    (he : e = 101 ∨ e = 69) (hr : ∀ b, Accepts (cfg .stateEndValue ps b) r) :
    ∀ b, Accepts (cfg .stateE ps b) s := by
  intro b
  cases h with
  | absent =>
    have := endValue_head ps 0 e s (hr 0)
    omega
  | bare _ hd => exact digits_e ps hd hr b
  | signed _ hg hd => exact (accepts_e ps b _ _).2 (Or.inl ⟨hg, digits_eSign ps hd hr (b + 1)⟩)

theorem exp_head {s r : Bytes} (h : Exp s r) (ps : List ParseState)
    (hr : ∀ b, Accepts (cfg .stateEndValue ps b) r) :
    ∀ c s1, s = c :: s1 → ¬ (48 ≤ c ∧ c ≤ 57) ∧ c ≠ 46 := by
  intro c s1 hs
  cases h with
  | absent =>
    subst hs
    have := endValue_head ps 0 c s1 (hr 0)
    omega
  | bare he _ =>
    cases hs
    omega
  | signed he _ _ =>
    cases hs
    omega

theorem exp_state0 (ps : List ParseState) {s r : Bytes} (h : Exp s r)
    (hr : ∀ b, Accepts (cfg .stateEndValue ps b) r) : ∀ b, Accepts (cfg .state0 ps b) s := by
  intro b
  cases h with
  | absent => exact state0_of_endValue ps b _ (hr b)
  | bare he hd =>
    exact (accepts_state0 ps b _ _).2 (Or.inr (Or.inl ⟨he, digits_e ps hd hr (b + 1)⟩))
  | signed he hg hd =>
    exact (accepts_state0 ps b _ _).2 (Or.inr (Or.inl
      ⟨he, (accepts_e ps _ _ _).2 (Or.inl ⟨hg, digits_eSign ps hd hr (b + 2)⟩)⟩))

theorem exp_dot0 (ps : List ParseState) {s r : Bytes} (h : Exp s r)
    (hr : ∀ b, Accepts (cfg .stateEndValue ps b) r) : ∀ b, Accepts (cfg .stateDot0 ps b) s := by
  intro b
  cases h with
  | absent => exact dot0_of_endValue ps b _ (hr b)
  | bare he hd =>
    exact (accepts_dot0 ps b _ _).2 (Or.inr (Or.inl ⟨he, digits_e ps hd hr (b + 1)⟩))
  | signed he hg hd =>
    exact (accepts_dot0 ps b _ _).2 (Or.inr (Or.inl
      ⟨he, (accepts_e ps _ _ _).2 (Or.inl ⟨hg, digits_eSign ps hd hr (b + 2)⟩)⟩))

theorem frac_state0 (ps : List ParseState) {s s2 r : Bytes} (hf : Frac s s2) (he : Exp s2 r)
    (hr : ∀ b, Accepts (cfg .stateEndValue ps b) r) : ∀ b, Accepts (cfg .state0 ps b) s := by
  intro b
  cases hf with
  | absent => exact exp_state0 ps he hr b
  | present hd =>
    refine (accepts_state0 ps b _ _).2 (Or.inl ⟨rfl, ?_⟩)
    cases hd with
    | one hc => exact (accepts_dot ps _ _ _).2 ⟨hc, exp_dot0 ps he hr _⟩
    | more hc hd1 =>
      exact (accepts_dot ps _ _ _).2 ⟨hc, digits_loop _ ps
        (fun b c s hc h => (accepts_dot0 ps b c s).2 (Or.inl ⟨hc, h⟩)) hd1
        (exp_dot0 ps he hr) _⟩

theorem frac_state1 (ps : List ParseState) {s s2 r : Bytes} (hf : Frac s s2) (he : Exp s2 r)
    (hr : ∀ b, Accepts (cfg .stateEndValue ps b) r) : ∀ b, Accepts (cfg .state1 ps b) s := by
  intro b
  refine state1_of_state0 ps b s (frac_state0 ps hf he hr b) ?_
  intro c s1 hs
  cases hf with
  | absent => exact (exp_head he ps hr c s1 hs).1
  | present _ =>
    cases hs
    omega

theorem number_beginValue (ps : List ParseState) {s r : Bytes} (h : Number s r)
    (hr : ∀ b, Accepts (cfg .stateEndValue ps b) r) :
    ∀ b, Accepts (cfg .stateBeginValue ps b) s := by
  intro b
  have loop : ∀ {s s1 : Bytes}, Digits s s1 → (∀ b, Accepts (cfg .state1 ps b) s1) →
      ∀ b, Accepts (cfg .state1 ps b) s := fun hd h1 =>
    digits_loop _ ps (fun b c s hc h => (accepts_state1 ps b c s).2 (Or.inl ⟨hc, h⟩)) hd h1
  cases h with
  | plain hi hf he =>
    cases hi with
    | zero =>
      exact (accepts_beginValue ps b _ _).2 (Or.inr (Or.inr (Or.inr (Or.inr (Or.inr (Or.inl
        ⟨rfl, frac_state0 ps hf he hr _⟩))))))
    | digit hc =>
      exact (accepts_beginValue ps b _ _).2 (Or.inr (Or.inr (Or.inr (Or.inr (Or.inr (Or.inr
        (Or.inr (Or.inr (Or.inr ⟨hc, frac_state1 ps hf he hr _⟩)))))))))
    | digits hc hd =>
      exact (accepts_beginValue ps b _ _).2 (Or.inr (Or.inr (Or.inr (Or.inr (Or.inr (Or.inr
        (Or.inr (Or.inr (Or.inr ⟨hc, loop hd (frac_state1 ps hf he hr) _⟩)))))))))
  | minus hi hf he =>
    refine (accepts_beginValue ps b _ _).2 (Or.inr (Or.inr (Or.inr (Or.inr (Or.inl
        ⟨rfl, ?_⟩)))))
    cases hi with
    | zero => exact (accepts_neg ps _ _ _).2 (Or.inl ⟨rfl, frac_state0 ps hf he hr _⟩)
    | digit hc => exact (accepts_neg ps _ _ _).2 (Or.inr ⟨hc, frac_state1 ps hf he hr _⟩)
    | digits hc hd =>
      exact (accepts_neg ps _ _ _).2 (Or.inr ⟨hc, loop hd (frac_state1 ps hf he hr) _⟩)

theorem chars_inString (ps : List ParseState) {s r : Bytes} (h : Chars s r)
    (hr : ∀ b, Accepts (cfg .stateEndValue ps b) r) :
    ∀ b, Accepts (cfg .stateInString ps b) s := by
  induction h with
  | close =>
    intro b
    exact (accepts_inString ps b _ _).2 (Or.inl ⟨rfl, hr _⟩)
  | unescaped h1 h2 h3 _ ih =>
    intro b
    exact (accepts_inString ps b _ _).2 (Or.inr (Or.inr ⟨h2, h3, h1, ih hr _⟩))
  | escape he _ ih =>
    intro b
    exact (accepts_inString ps b _ _).2 (Or.inr (Or.inl
      ⟨rfl, (accepts_inStringEsc ps _ _ _).2 (Or.inl ⟨he, ih hr _⟩)⟩))
  | unicode ha hb hc hd _ ih =>
    intro b
    exact (accepts_inString ps b _ _).2 (Or.inr (Or.inl
      ⟨rfl, (accepts_inStringEsc ps _ _ _).2 (Or.inr
        ⟨rfl, (accepts_inStringEscU ps _ _ _).2
          ⟨ha, (accepts_inStringEscU1 ps _ _ _).2
            ⟨hb, (accepts_inStringEscU12 ps _ _ _).2
              ⟨hc, (accepts_inStringEscU123 ps _ _ _).2 ⟨hd, ih hr _⟩⟩⟩⟩⟩)⟩))

theorem intPart_head {s r : Bytes} (h : IntPart s r) :
    ∃ c s1, s = c :: s1 ∧ (48 ≤ c ∧ c ≤ 57) := by
  cases h with
  | zero => exact ⟨_, _, rfl, by omega⟩
  | digit hc => exact ⟨_, _, rfl, by omega⟩
  | digits hc _ => exact ⟨_, _, rfl, by omega⟩

theorem value_head {n : Nat} {s r : Bytes} (h : Parses .value n s r) :
    ∃ c s1, s = c :: s1 ∧ ¬ isSpace c = true ∧ c ≠ 93 ∧ c ≠ 125 := by
  simp only [isSpace_iff_ws]
  cases h with
  | string _ => exact ⟨_, _, rfl, by omega⟩
  | number hn =>
    cases hn with
    | plain hi _ _ =>
      obtain ⟨c, s1, hs, hc⟩ := intPart_head hi
      exact ⟨c, s1, hs, by omega⟩
    | minus _ _ _ => exact ⟨_, _, rfl, by omega⟩
  | litTrue => exact ⟨_, _, rfl, by omega⟩
  | litFalse => exact ⟨_, _, rfl, by omega⟩
  | litNull => exact ⟨_, _, rfl, by omega⟩
  | emptyArray _ => exact ⟨_, _, rfl, by omega⟩
  | array _ => exact ⟨_, _, rfl, by omega⟩
  | emptyObject _ => exact ⟨_, _, rfl, by omega⟩
  | object _ => exact ⟨_, _, rfl, by omega⟩

theorem beginValueOrEmpty_of_value {n : Nat} {s r : Bytes} (h : Parses .value n s r)
    (ps : List ParseState) (b : Nat) (ha : Accepts (cfg .stateBeginValue ps b) s) :
    Accepts (cfg .stateBeginValueOrEmpty ps b) s := by
  obtain ⟨c, s1, hs, h1, h2, _⟩ := value_head h
  subst hs
  exact (accepts_beginValueOrEmpty ps b c s1).2 (Or.inr (Or.inr ⟨h1, h2, ha⟩))

theorem complete {p : Phrase} {n : Nat} {s r : Bytes} (h : Parses p n s r) :
    Complete p n s r := by
  induction h with
  | string hc =>
    intro ps _ hr b
    exact (accepts_beginValue ps b _ _).2 (Or.inr (Or.inr (Or.inr (Or.inl
      ⟨rfl, chars_inString ps hc hr _⟩))))
  | number hn =>
    intro ps _ hr b
    exact number_beginValue ps hn hr b
  | litTrue =>
    intro ps _ hr b
    exact (accepts_beginValue ps b _ _).2 (Or.inr (Or.inr (Or.inr (Or.inr (Or.inr (Or.inr
      (Or.inl ⟨rfl, (accepts_T ps _ _ _).2 ⟨rfl, (accepts_Tr ps _ _ _).2
        ⟨rfl, (accepts_Tru ps _ _ _).2 ⟨rfl, hr _⟩⟩⟩⟩)))))))
  | litFalse =>
    intro ps _ hr b
    exact (accepts_beginValue ps b _ _).2 (Or.inr (Or.inr (Or.inr (Or.inr (Or.inr (Or.inr
      (Or.inr (Or.inl ⟨rfl, (accepts_F ps _ _ _).2 ⟨rfl, (accepts_Fa ps _ _ _).2
        ⟨rfl, (accepts_Fal ps _ _ _).2 ⟨rfl, (accepts_Fals ps _ _ _).2
          ⟨rfl, hr _⟩⟩⟩⟩⟩))))))))
  | litNull =>
    intro ps _ hr b
    exact (accepts_beginValue ps b _ _).2 (Or.inr (Or.inr (Or.inr (Or.inr (Or.inr (Or.inr
      (Or.inr (Or.inr (Or.inl ⟨rfl, (accepts_N ps _ _ _).2 ⟨rfl, (accepts_Nu ps _ _ _).2
        ⟨rfl, (accepts_Nul ps _ _ _).2 ⟨rfl, hr _⟩⟩⟩⟩)))))))))
  | emptyArray hw =>
    intro ps hn hr b
    refine (accepts_beginValue ps b _ _).2 (Or.inr (Or.inr (Or.inl ⟨rfl, by omega, ?_⟩)))
    exact ws_beginValueOrEmpty _ hw (fun b1 =>
      (accepts_beginValueOrEmpty _ b1 _ _).2 (Or.inr (Or.inl
        ⟨rfl, (accepts_endValue_array ps b1 _ _).2 (Or.inr (Or.inr ⟨rfl, hr _⟩))⟩))) _
  | array _ ih =>
    intro ps hn hr b
    refine (accepts_beginValue ps b _ _).2 (Or.inr (Or.inr (Or.inl ⟨rfl, by omega, ?_⟩)))
    exact (ih ps (by omega) (fun b1 =>
      (accepts_endValue_array ps b1 _ _).2 (Or.inr (Or.inr ⟨rfl, hr _⟩)))).2 _
  | emptyObject hw =>
    intro ps hn hr b
    refine (accepts_beginValue ps b _ _).2 (Or.inr (Or.inl ⟨rfl, by omega, ?_⟩))
    exact ws_beginStringOrEmpty _ hw (fun b1 =>
      (accepts_beginStringOrEmpty ps b1 _ _).2 (Or.inr (Or.inl ⟨rfl, hr _⟩))) _
  | object _ ih =>
    intro ps hn hr b
    refine (accepts_beginValue ps b _ _).2 (Or.inr (Or.inl ⟨rfl, by omega, ?_⟩))
    exact (ih ps (by omega) (fun b1 =>
      (accepts_endValue_objectValue ps b1 _ _).2 (Or.inr (Or.inr ⟨rfl, hr _⟩)))).2 _
  | lastElement hw1 hv hw2 ihv =>
    intro ps hn hr
    have v : ∀ b, Accepts (cfg .stateBeginValue (.parseArrayValue :: ps) b) _ :=
      ihv (.parseArrayValue :: ps) (by simp only [List.length_cons]; omega)
        (ws_endValue_array ps hw2 hr)
    exact ⟨ws_beginValue _ hw1 v,
      ws_beginValueOrEmpty _ hw1 (fun b => beginValueOrEmpty_of_value hv _ b (v b))⟩
  | moreElements hw1 hv hw2 _ ihv ihel =>
    intro ps hn hr
    have v : ∀ b, Accepts (cfg .stateBeginValue (.parseArrayValue :: ps) b) _ :=
      ihv (.parseArrayValue :: ps) (by simp only [List.length_cons]; omega)
        (ws_endValue_array ps hw2 (fun b =>
          (accepts_endValue_array ps b _ _).2 (Or.inr (Or.inl ⟨rfl, (ihel ps hn hr).1 _⟩))))
    exact ⟨ws_beginValue _ hw1 v,
      ws_beginValueOrEmpty _ hw1 (fun b => beginValueOrEmpty_of_value hv _ b (v b))⟩
  | lastMember hw1 hc hw2 hw3 _ hw4 ihv =>
    intro ps hn hr
    have v : ∀ b, Accepts (cfg .stateBeginValue (.parseObjectValue :: ps) b) _ :=
      ihv (.parseObjectValue :: ps) (by simp only [List.length_cons]; omega)
        (ws_endValue_objectValue ps hw4 hr)
    have k : ∀ b, Accepts (cfg .stateEndValue (.parseObjectKey :: ps) b) _ :=
      ws_endValue_objectKey ps hw2 (fun b =>
        (accepts_endValue_objectKey ps b _ _).2 (Or.inr ⟨rfl, ws_beginValue _ hw3 v _⟩))
    have q := chars_inString _ hc k
    exact ⟨ws_beginString _ hw1 (fun b => (accepts_beginString _ b _ _).2 (Or.inr ⟨rfl, q _⟩)),
      ws_beginStringOrEmpty _ hw1 (fun b =>
        (accepts_beginStringOrEmpty ps b _ _).2 (Or.inr (Or.inr ⟨rfl, q _⟩)))⟩
  | moreMembers hw1 hc hw2 hw3 _ hw4 _ ihv ihm =>
    intro ps hn hr
    have v : ∀ b, Accepts (cfg .stateBeginValue (.parseObjectValue :: ps) b) _ :=
      ihv (.parseObjectValue :: ps) (by simp only [List.length_cons]; omega)
        (ws_endValue_objectValue ps hw4 (fun b =>
          (accepts_endValue_objectValue ps b _ _).2
            (Or.inr (Or.inl ⟨rfl, (ihm ps hn hr).1 _⟩))))
    have k : ∀ b, Accepts (cfg .stateEndValue (.parseObjectKey :: ps) b) _ :=
      ws_endValue_objectKey ps hw2 (fun b =>
        (accepts_endValue_objectKey ps b _ _).2 (Or.inr ⟨rfl, ws_beginValue _ hw3 v _⟩))
    have q := chars_inString _ hc k
    exact ⟨ws_beginString _ hw1 (fun b => (accepts_beginString _ b _ _).2 (Or.inr ⟨rfl, q _⟩)),
      ws_beginStringOrEmpty _ hw1 (fun b =>
        (accepts_beginStringOrEmpty ps b _ _).2 (Or.inr (Or.inr ⟨rfl, q _⟩)))⟩

theorem valid_iff_accepts (d : Bytes) : Valid d = true ↔ Accepts (cfg .stateBeginValue [] 0) d := by
  unfold Valid checkValid Accepts
  have : newScanner.reset = cfg .stateBeginValue [] 0 := rfl
  rw [this]
  cases (checkValidLoop (cfg .stateBeginValue [] 0) d).2 <;> simp

theorem valid_of_jsonText (d : Bytes) (h : JsonText maxNestingDepth d) : Valid d = true := by
  obtain ⟨s1, s2, hw1, hv, hw2⟩ := h
  rw [valid_iff_accepts]
  exact ws_beginValue [] hw1 (complete hv [] (by simp) (ws_endValue_empty hw2)) 0

/-! ### From the scanner to the grammar -/

theorem digits_cons {c : Nat} {s r : Bytes} (hc : 48 ≤ c ∧ c ≤ 57) (h : r = s ∨ Digits s r) :
    Digits (c :: s) r := by
  rcases h with h | h
  · subst h
    exact .one hc
  · exact .more hc h

theorem sound_loop (Y : StepFn) (ps : List ParseState)
    (hY : ∀ b c s, (48 ≤ c ∧ c ≤ 57) → Accepts (cfg Y ps b) (c :: s) →
      Accepts (cfg Y ps (b + 1)) s) :
    ∀ (s : Bytes) (b : Nat), Accepts (cfg Y ps b) s →
      ∃ s1 b1, (s1 = s ∨ Digits s s1) ∧ Accepts (cfg Y ps b1) s1 ∧
        (∀ c s2, s1 = c :: s2 → ¬ (48 ≤ c ∧ c ≤ 57)) ∧ s1.length ≤ s.length := by
  intro s
  induction s with
  | nil =>
    intro b h
    exact ⟨[], b, Or.inl rfl, h, by simp, le_refl _⟩
  | cons c s ih =>
    intro b h
    by_cases hc : 48 ≤ c ∧ c ≤ 57
    · obtain ⟨s1, b1, hd, h1, hh, hl⟩ := ih (b + 1) (hY b c s hc h)
      exact ⟨s1, b1, Or.inr (digits_cons hc hd), h1, hh, by simp only [List.length_cons]; omega⟩
    · refine ⟨c :: s, b, Or.inl rfl, h, ?_, le_refl _⟩
      intro c1 s2 he
      cases he
      exact hc

theorem sound_e0 (ps : List ParseState) (s : Bytes) (b : Nat)
    (h : Accepts (cfg .stateE0 ps b) s) :
    ∃ r, (r = s ∨ Digits s r) ∧ AcceptsAfterValue ps r ∧ r.length ≤ s.length := by
  obtain ⟨s1, b1, hd, h1, hh, hl⟩ := sound_loop .stateE0 ps
    (fun b c s hc h => by
      rw [accepts_e0] at h
      rcases h with ⟨_, h⟩ | ⟨hn, _⟩
      · exact h
      · exact absurd hc hn) s b h
  refine ⟨s1, hd, ⟨b1, ?_⟩, hl⟩
  cases s1 with
  | nil =>
    rw [accepts_nil] at h1 ⊢
    exact ⟨Or.inl rfl, h1.2⟩
  | cons c s2 =>
    rw [accepts_e0] at h1
    rcases h1 with ⟨hc, _⟩ | ⟨_, h1⟩
    · exact absurd hc (hh c s2 rfl)
    · exact h1

theorem sound_eSign (ps : List ParseState) (s : Bytes) (b : Nat)
    (h : Accepts (cfg .stateESign ps b) s) :
    ∃ r, Digits s r ∧ AcceptsAfterValue ps r ∧ r.length < s.length := by
  cases s with
  | nil =>
    rw [accepts_nil] at h
    simp at h
  | cons c s =>
    rw [accepts_eSign] at h
    obtain ⟨r, hd, ha, hl⟩ := sound_e0 ps s _ h.2
    exact ⟨r, digits_cons h.1 hd, ha, by simp only [List.length_cons]; omega⟩

theorem sound_e (ps : List ParseState) (s : Bytes) (b e : Nat)
    (h : Accepts (cfg .stateE ps b) s) (he : e = 101 ∨ e = 69) :
    ∃ r, Exp (e :: s) r ∧ AcceptsAfterValue ps r ∧ r.length < s.length := by
  cases s with
  | nil =>
    rw [accepts_nil] at h
    simp at h
  | cons c s =>
    rw [accepts_e] at h
    rcases h with ⟨hc, h⟩ | ⟨hc, h⟩
    · obtain ⟨r, hd, ha, hl⟩ := sound_eSign ps s _ h
      exact ⟨r, .signed he hc hd, ha, by simp only [List.length_cons]; omega⟩
    · obtain ⟨r, hd, ha, hl⟩ := sound_e0 ps s _ h
      exact ⟨r, .bare he (digits_cons hc hd), ha, by simp only [List.length_cons]; omega⟩

theorem sound_dot0 (ps : List ParseState) (s : Bytes) (b : Nat)
    (h : Accepts (cfg .stateDot0 ps b) s) :
    ∃ s2 r, (s2 = s ∨ Digits s s2) ∧ Exp s2 r ∧ AcceptsAfterValue ps r ∧
      r.length ≤ s.length := by
  obtain ⟨s1, b1, hd, h1, hh, hl⟩ := sound_loop .stateDot0 ps
    (fun b c s hc h => by
      rw [accepts_dot0] at h
      rcases h with ⟨_, h⟩ | ⟨hn, _⟩ | ⟨hn, _⟩
      · exact h
      · omega
      · exact absurd hc hn) s b h
  cases s1 with
  | nil =>
    rw [accepts_nil] at h1
    exact ⟨[], [], hd, .absent, ⟨b1, (accepts_nil _ _ _).2 ⟨Or.inl rfl, h1.2⟩⟩, hl⟩
  | cons c s2 =>
    rw [accepts_dot0] at h1
    rcases h1 with ⟨hc, _⟩ | ⟨hc, h1⟩ | ⟨_, _, _, h1⟩
    · exact absurd hc (hh c s2 rfl)
    · obtain ⟨r, hx, ha, hl2⟩ := sound_e ps s2 _ c h1 hc
      exact ⟨c :: s2, r, hd, hx, ha, by simp only [List.length_cons] at hl; omega⟩
    · exact ⟨c :: s2, c :: s2, hd, .absent, ⟨b1, h1⟩, hl⟩

theorem sound_dot (ps : List ParseState) (s : Bytes) (b : Nat)
    (h : Accepts (cfg .stateDot ps b) s) :
    ∃ s2 r, Digits s s2 ∧ Exp s2 r ∧ AcceptsAfterValue ps r ∧ r.length < s.length := by
  cases s with
  | nil =>
    rw [accepts_nil] at h
    simp at h
  | cons c s =>
    rw [accepts_dot] at h
    obtain ⟨s2, r, hd, hx, ha, hl⟩ := sound_dot0 ps s _ h.2
    exact ⟨s2, r, digits_cons h.1 hd, hx, ha, by simp only [List.length_cons]; omega⟩

theorem sound_state0 (ps : List ParseState) (s : Bytes) (b : Nat)
    (h : Accepts (cfg .state0 ps b) s) :
    ∃ s2 r, Frac s s2 ∧ Exp s2 r ∧ AcceptsAfterValue ps r ∧ r.length ≤ s.length := by
  cases s with
  | nil =>
    rw [accepts_nil] at h
    exact ⟨[], [], .absent, .absent, ⟨b, (accepts_nil _ _ _).2 ⟨Or.inl rfl, h.2⟩⟩, le_refl _⟩
  | cons c s =>
    rw [accepts_state0] at h
    rcases h with ⟨hc, h⟩ | ⟨hc, h⟩ | ⟨_, _, _, h⟩
    · subst hc
      obtain ⟨s2, r, hd, hx, ha, hl⟩ := sound_dot ps s _ h
      exact ⟨s2, r, .present hd, hx, ha, by simp only [List.length_cons]; omega⟩
    · obtain ⟨r, hx, ha, hl⟩ := sound_e ps s _ c h hc
      exact ⟨c :: s, r, .absent, hx, ha, by simp only [List.length_cons]; omega⟩
    · exact ⟨c :: s, c :: s, .absent, .absent, ⟨b, h⟩, le_refl _⟩

theorem sound_state1 (ps : List ParseState) (s : Bytes) (b : Nat)
    (h : Accepts (cfg .state1 ps b) s) :
    ∃ s1 s2 r, (s1 = s ∨ Digits s s1) ∧ Frac s1 s2 ∧ Exp s2 r ∧ AcceptsAfterValue ps r ∧
      r.length ≤ s.length := by
  obtain ⟨s1, b1, hd, h1, hh, hl⟩ := sound_loop .state1 ps
    (fun b c s hc h => by
      rw [accepts_state1] at h
      rcases h with ⟨_, h⟩ | ⟨hn, _⟩
      · exact h
      · exact absurd hc hn) s b h
  have h0 : Accepts (cfg .state0 ps b1) s1 := by
    cases s1 with
    | nil =>
      rw [accepts_nil] at h1 ⊢
      exact ⟨Or.inr (Or.inl rfl), h1.2⟩
    | cons c s2 =>
      rw [accepts_state1] at h1
      rcases h1 with ⟨hc, _⟩ | ⟨_, h1⟩
      · exact absurd hc (hh c s2 rfl)
      · exact h1
  obtain ⟨s2, r, hf, hx, ha, hl2⟩ := sound_state0 ps s1 b1 h0
  exact ⟨s1, s2, r, hd, hf, hx, ha, by omega⟩

theorem intPart_cons {c : Nat} {s s1 : Bytes} (hc : 49 ≤ c ∧ c ≤ 57)
    (h : s1 = s ∨ Digits s s1) : IntPart (c :: s) s1 := by
  rcases h with h | h
  · subst h
    exact .digit hc
  · exact .digits hc h

theorem sound_neg (ps : List ParseState) (s : Bytes) (b : Nat)
    (h : Accepts (cfg .stateNeg ps b) s) :
    ∃ r, Number (45 :: s) r ∧ AcceptsAfterValue ps r ∧ r.length < s.length := by
  cases s with
  | nil =>
    rw [accepts_nil] at h
    simp at h
  | cons c s =>
    rw [accepts_neg] at h
    rcases h with ⟨hc, h⟩ | ⟨hc, h⟩
    · subst hc
      obtain ⟨s2, r, hf, hx, ha, hl⟩ := sound_state0 ps s _ h
      exact ⟨r, .minus .zero hf hx, ha, by simp only [List.length_cons]; omega⟩
    · obtain ⟨s1, s2, r, hd, hf, hx, ha, hl⟩ := sound_state1 ps s _ h
      exact ⟨r, .minus (intPart_cons hc hd) hf hx, ha, by simp only [List.length_cons]; omega⟩

theorem sound_true (ps : List ParseState) (s : Bytes) (b : Nat)
    (h : Accepts (cfg .stateT ps b) s) :
    ∃ r, s = 114 :: 117 :: 101 :: r ∧ AcceptsAfterValue ps r := by
  cases s with
  | nil => simp [accepts_nil] at h
  | cons c1 s =>
    rw [accepts_T] at h
    obtain ⟨h1, h⟩ := h
    cases s with
    | nil => simp [accepts_nil] at h
    | cons c2 s =>
      rw [accepts_Tr] at h
      obtain ⟨h2, h⟩ := h
      cases s with
      | nil => simp [accepts_nil] at h
      | cons c3 s =>
        rw [accepts_Tru] at h
        obtain ⟨h3, h⟩ := h
        subst h1 h2 h3
        exact ⟨s, rfl, ⟨_, h⟩⟩

theorem sound_false (ps : List ParseState) (s : Bytes) (b : Nat)
    (h : Accepts (cfg .stateF ps b) s) :
    ∃ r, s = 97 :: 108 :: 115 :: 101 :: r ∧ AcceptsAfterValue ps r := by
  cases s with
  | nil => simp [accepts_nil] at h
  | cons c1 s =>
    rw [accepts_F] at h
    obtain ⟨h1, h⟩ := h
    cases s with
    | nil => simp [accepts_nil] at h
    | cons c2 s =>
      rw [accepts_Fa] at h
      obtain ⟨h2, h⟩ := h
      cases s with
      | nil => simp [accepts_nil] at h
      | cons c3 s =>
        rw [accepts_Fal] at h
        obtain ⟨h3, h⟩ := h
        cases s with
        | nil => simp [accepts_nil] at h
        | cons c4 s =>
          rw [accepts_Fals] at h
          obtain ⟨h4, h⟩ := h
          subst h1 h2 h3 h4
          exact ⟨s, rfl, ⟨_, h⟩⟩

theorem sound_null (ps : List ParseState) (s : Bytes) (b : Nat)
    (h : Accepts (cfg .stateN ps b) s) :
    ∃ r, s = 117 :: 108 :: 108 :: r ∧ AcceptsAfterValue ps r := by
  cases s with
  | nil => simp [accepts_nil] at h
  | cons c1 s =>
    rw [accepts_N] at h
    obtain ⟨h1, h⟩ := h
    cases s with
    | nil => simp [accepts_nil] at h
    | cons c2 s =>
      rw [accepts_Nu] at h
      obtain ⟨h2, h⟩ := h
      cases s with
      | nil => simp [accepts_nil] at h
      | cons c3 s =>
        rw [accepts_Nul] at h
        obtain ⟨h3, h⟩ := h
        subst h1 h2 h3
        exact ⟨s, rfl, ⟨_, h⟩⟩

theorem sound_string (ps : List ParseState) :
    ∀ (k : Nat) (s : Bytes) (b : Nat), s.length ≤ k → Accepts (cfg .stateInString ps b) s →
      ∃ r, Chars s r ∧ AcceptsAfterValue ps r ∧ r.length < s.length := by
  intro k
  induction k with
  | zero =>
    intro s b hl h
    have : s = [] := List.length_eq_zero.1 (Nat.le_zero.1 hl)
    subst this
    simp [accepts_nil] at h
  | succ k ih =>
    intro s b hl h
    cases s with
    | nil => simp [accepts_nil] at h
    | cons c s =>
      simp only [List.length_cons] at hl
      rw [accepts_inString] at h
      rcases h with ⟨hc, h⟩ | ⟨hc, h⟩ | ⟨h1, h2, h3, h⟩
      · subst hc
        exact ⟨s, .close, ⟨_, h⟩, by simp⟩
      · subst hc
        cases s with
        | nil => simp [accepts_nil] at h
        | cons e s =>
          simp only [List.length_cons] at hl
          rw [accepts_inStringEsc] at h
          rcases h with ⟨he, h⟩ | ⟨he, h⟩
          · obtain ⟨r, hch, ha, hlen⟩ := ih s _ (by omega) h
            exact ⟨r, .escape he hch, ha, by simp only [List.length_cons]; omega⟩
          · subst he
            cases s with
            | nil => simp [accepts_nil] at h
            | cons x1 s =>
              rw [accepts_inStringEscU] at h
              obtain ⟨hx1, h⟩ := h
              cases s with
              | nil => simp [accepts_nil] at h
              | cons x2 s =>
                rw [accepts_inStringEscU1] at h
                obtain ⟨hx2, h⟩ := h
                cases s with
                | nil => simp [accepts_nil] at h
                | cons x3 s =>
                  rw [accepts_inStringEscU12] at h
                  obtain ⟨hx3, h⟩ := h
                  cases s with
                  | nil => simp [accepts_nil] at h
                  | cons x4 s =>
                    rw [accepts_inStringEscU123] at h
                    obtain ⟨hx4, h⟩ := h
                    simp only [List.length_cons] at hl
                    obtain ⟨r, hch, ha, hlen⟩ := ih s _ (by omega) h
                    exact ⟨r, .unicode hx1 hx2 hx3 hx4 hch, ha,
                      by simp only [List.length_cons]; omega⟩
      · obtain ⟨r, hch, ha, hlen⟩ := ih s _ (by omega) h
        exact ⟨r, .unescaped h3 h1 h2 hch, ha, by simp only [List.length_cons]; omega⟩

theorem sound_afterElement (ps : List ParseState) :
    ∀ (s : Bytes) (b : Nat), Accepts (cfg .stateEndValue (.parseArrayValue :: ps) b) s →
      (∃ r, Ws s (93 :: r) ∧ AcceptsAfterValue ps r ∧ r.length < s.length) ∨
      (∃ s3 b3, Ws s (44 :: s3) ∧ Accepts (cfg .stateBeginValue (.parseArrayValue :: ps) b3) s3 ∧
        s3.length < s.length) := by
  intro s
  induction s with
  | nil =>
    intro b h
    simp [accepts_nil] at h
  | cons c s ih =>
    intro b h
    rw [accepts_endValue_array] at h
    rcases h with ⟨hc, h⟩ | ⟨hc, h⟩ | ⟨hc, h⟩
    · rcases ih _ h with ⟨r, hw, ha, hl⟩ | ⟨s3, b3, hw, ha, hl⟩
      · exact Or.inl ⟨r, .more ((isSpace_iff_ws c).1 hc) hw, ha,
          by simp only [List.length_cons]; omega⟩
      · exact Or.inr ⟨s3, b3, .more ((isSpace_iff_ws c).1 hc) hw, ha,
          by simp only [List.length_cons]; omega⟩
    · subst hc
      exact Or.inr ⟨s, _, .done, h, by simp⟩
    · subst hc
      exact Or.inl ⟨s, .done, ⟨_, h⟩, by simp⟩

theorem sound_afterMember (ps : List ParseState) :
    ∀ (s : Bytes) (b : Nat), Accepts (cfg .stateEndValue (.parseObjectValue :: ps) b) s →
      (∃ r, Ws s (125 :: r) ∧ AcceptsAfterValue ps r ∧ r.length < s.length) ∨
      (∃ s3 b3, Ws s (44 :: s3) ∧
        Accepts (cfg .stateBeginString (.parseObjectKey :: ps) b3) s3 ∧
        s3.length < s.length) := by
  intro s
  induction s with
  | nil =>
    intro b h
    simp [accepts_nil] at h
  | cons c s ih =>
    intro b h
    rw [accepts_endValue_objectValue] at h
    rcases h with ⟨hc, h⟩ | ⟨hc, h⟩ | ⟨hc, h⟩
    · rcases ih _ h with ⟨r, hw, ha, hl⟩ | ⟨s3, b3, hw, ha, hl⟩
      · exact Or.inl ⟨r, .more ((isSpace_iff_ws c).1 hc) hw, ha,
          by simp only [List.length_cons]; omega⟩
      · exact Or.inr ⟨s3, b3, .more ((isSpace_iff_ws c).1 hc) hw, ha,
          by simp only [List.length_cons]; omega⟩
    · subst hc
      exact Or.inr ⟨s, _, .done, h, by simp⟩
    · subst hc
      exact Or.inl ⟨s, .done, ⟨_, h⟩, by simp⟩

theorem sound_afterKey (ps : List ParseState) :
    ∀ (s : Bytes) (b : Nat), Accepts (cfg .stateEndValue (.parseObjectKey :: ps) b) s →
      ∃ s3 b3, Ws s (58 :: s3) ∧
        Accepts (cfg .stateBeginValue (.parseObjectValue :: ps) b3) s3 ∧
        s3.length < s.length := by
  intro s
  induction s with
  | nil =>
    intro b h
    simp [accepts_nil] at h
  | cons c s ih =>
    intro b h
    rw [accepts_endValue_objectKey] at h
    rcases h with ⟨hc, h⟩ | ⟨hc, h⟩
    · obtain ⟨s3, b3, hw, ha, hl⟩ := ih _ h
      exact ⟨s3, b3, .more ((isSpace_iff_ws c).1 hc) hw, ha,
        by simp only [List.length_cons]; omega⟩
    · subst hc
      exact ⟨s, _, .done, h, by simp⟩

theorem sound_beginString (ps : List ParseState) :
    ∀ (s : Bytes) (b : Nat), Accepts (cfg .stateBeginString ps b) s →
      ∃ s1 b1, Ws s (34 :: s1) ∧ Accepts (cfg .stateInString ps b1) s1 ∧
        s1.length < s.length := by
  intro s
  induction s with
  | nil =>
    intro b h
    simp [accepts_nil] at h
  | cons c s ih =>
    intro b h
    rw [accepts_beginString] at h
    rcases h with ⟨hc, h⟩ | ⟨hc, h⟩
    · obtain ⟨s3, b3, hw, ha, hl⟩ := ih _ h
      exact ⟨s3, b3, .more ((isSpace_iff_ws c).1 hc) hw, ha,
        by simp only [List.length_cons]; omega⟩
    · subst hc
      exact ⟨s, _, .done, h, by simp⟩

theorem sound_topCfg : ∀ (s : Bytes) (b : Nat), Accepts (topCfg b) s → Ws s [] := by
  intro s
  induction s with
  | nil =>
    intro _ _
    exact .done
  | cons c s ih =>
    intro b h
    rw [accepts_topCfg_cons] at h
    exact .more ((isSpace_iff_ws c).1 h.1) (ih _ h.2)

theorem elements_ws {n c : Nat} {s r : Bytes} (hc : c = 0x20 ∨ c = 0x09 ∨ c = 0x0A ∨ c = 0x0D)
    (h : Parses .elements n s r) : Parses .elements n (c :: s) r := by
  cases h with
  | lastElement hw hv hw2 => exact .lastElement (.more hc hw) hv hw2
  | moreElements hw hv hw2 hel => exact .moreElements (.more hc hw) hv hw2 hel

theorem members_ws {n c : Nat} {s r : Bytes} (hc : c = 0x20 ∨ c = 0x09 ∨ c = 0x0A ∨ c = 0x0D)
    (h : Parses .members n s r) : Parses .members n (c :: s) r := by
  cases h with
  | lastMember hw hch hw2 hw3 hv hw4 => exact .lastMember (.more hc hw) hch hw2 hw3 hv hw4
  | moreMembers hw hch hw2 hw3 hv hw4 hm =>
    exact .moreMembers (.more hc hw) hch hw2 hw3 hv hw4 hm

theorem soundValue_step (k : Nat) (hV : SoundValue k) (hA : SoundArray k) (hO : SoundObject k) :
    SoundValue (k + 1) := by
  intro s ps b hl h
  cases s with
  | nil => simp [accepts_nil] at h
  | cons c s =>
    simp only [List.length_cons] at hl
    have hk : s.length ≤ k := by omega
    rw [accepts_beginValue] at h
    rcases h with ⟨hc, h⟩ | ⟨hc, hd, h⟩ | ⟨hc, hd, h⟩ | ⟨hc, h⟩ | ⟨hc, h⟩ | ⟨hc, h⟩ | ⟨hc, h⟩ |
      ⟨hc, h⟩ | ⟨hc, h⟩ | ⟨hc, h⟩
    · obtain ⟨s1, r, hw, hp, ha, hlen⟩ := hV s ps _ hk h
      exact ⟨s1, r, .more ((isSpace_iff_ws c).1 hc) hw, hp, ha,
        by simp only [List.length_cons]; omega⟩
    · subst hc
      obtain ⟨r, hor, ha, hlen⟩ := hO s ps _ hk h
      have hn : maxNestingDepth - ps.length = (maxNestingDepth - (ps.length + 1)) + 1 := by
        omega
      refine ⟨123 :: s, r, .done, ?_, ha, by simp only [List.length_cons]; omega⟩
      rw [hn]
      rcases hor with hw | hm
      · exact .emptyObject hw
      · exact .object hm
    · subst hc
      obtain ⟨r, hor, ha, hlen⟩ := hA s ps _ hk h
      have hn : maxNestingDepth - ps.length = (maxNestingDepth - (ps.length + 1)) + 1 := by
        omega
      refine ⟨91 :: s, r, .done, ?_, ha, by simp only [List.length_cons]; omega⟩
      rw [hn]
      rcases hor with hw | hm
      · exact .emptyArray hw
      · exact .array hm
    · subst hc
      obtain ⟨r, hch, ha, hlen⟩ := sound_string ps s.length s _ (le_refl _) h
      exact ⟨34 :: s, r, .done, .string hch, ha, by simp only [List.length_cons]; omega⟩
    · subst hc
      obtain ⟨r, hnum, ha, hlen⟩ := sound_neg ps s _ h
      exact ⟨45 :: s, r, .done, .number hnum, ha, by simp only [List.length_cons]; omega⟩
    · subst hc
      obtain ⟨s2, r, hf, hx, ha, hlen⟩ := sound_state0 ps s _ h
      exact ⟨48 :: s, r, .done, .number (.plain .zero hf hx), ha,
        by simp only [List.length_cons]; omega⟩
    · subst hc
      obtain ⟨r, hs, ha⟩ := sound_true ps s _ h
      subst hs
      exact ⟨_, r, .done, .litTrue, ha, by simp only [List.length_cons]; omega⟩
    · subst hc
      obtain ⟨r, hs, ha⟩ := sound_false ps s _ h
      subst hs
      exact ⟨_, r, .done, .litFalse, ha, by simp only [List.length_cons]; omega⟩
    · subst hc
      obtain ⟨r, hs, ha⟩ := sound_null ps s _ h
      subst hs
      exact ⟨_, r, .done, .litNull, ha, by simp only [List.length_cons]; omega⟩
    · obtain ⟨s1, s2, r, hdg, hf, hx, ha, hlen⟩ := sound_state1 ps s _ h
      exact ⟨c :: s, r, .done, .number (.plain (intPart_cons hc hdg) hf hx), ha,
        by simp only [List.length_cons]; omega⟩

theorem soundElements_step (k : Nat) (hV : SoundValue (k + 1)) (hE : SoundElements k) :
    SoundElements (k + 1) := by
  intro s ps b hl h
  obtain ⟨s1, r1, hw, hp, ⟨b1, ha⟩, hlen⟩ := hV s (.parseArrayValue :: ps) b hl h
  simp only [List.length_cons] at hp
  rcases sound_afterElement ps r1 b1 ha with ⟨r, hw2, har, hl2⟩ | ⟨s3, b3, hw2, h3, hl3⟩
  · exact ⟨r, .lastElement hw hp hw2, har, by omega⟩
  · obtain ⟨r, hel, har, hl4⟩ := hE s3 ps b3 (by omega) h3
    exact ⟨r, .moreElements hw hp hw2 hel, har, by omega⟩

theorem soundArray_step (k : Nat) (hE : SoundElements (k + 1)) (hA : SoundArray k) :
    SoundArray (k + 1) := by
  intro s ps b hl h
  cases s with
  | nil => simp [accepts_nil] at h
  | cons c s =>
    have hl1 := hl
    simp only [List.length_cons] at hl1
    rw [accepts_beginValueOrEmpty] at h
    rcases h with ⟨hc, h⟩ | ⟨hc, h⟩ | ⟨_, _, h⟩
    · have hc1 := (isSpace_iff_ws c).1 hc
      obtain ⟨r, hor, ha, hlen⟩ := hA s ps _ (by omega) h
      refine ⟨r, ?_, ha, by simp only [List.length_cons]; omega⟩
      rcases hor with hw | hel
      · exact Or.inl (.more hc1 hw)
      · exact Or.inr (elements_ws hc1 hel)
    · subst hc
      rw [accepts_endValue_array] at h
      rcases h with ⟨hc, _⟩ | ⟨hc, _⟩ | ⟨_, h⟩
      · rw [isSpace_iff_ws] at hc
        omega
      · omega
      · exact ⟨s, Or.inl .done, ⟨_, h⟩, by simp⟩
    · obtain ⟨r, hel, ha, hlen⟩ := hE (c :: s) ps b hl h
      exact ⟨r, Or.inr hel, ha, hlen⟩

theorem soundMembers_step (k : Nat) (hV : SoundValue k) (hM : SoundMembers k) :
    SoundMembers (k + 1) := by
  intro s ps b hl h
  obtain ⟨s1, b1, hw1, h1, hl1⟩ := sound_beginString _ s b h
  obtain ⟨s2, hch, ⟨b2, h2⟩, hl2⟩ := sound_string _ s1.length s1 b1 (le_refl _) h1
  obtain ⟨s3, b3, hw2, h3, hl3⟩ := sound_afterKey ps s2 b2 h2
  obtain ⟨s4, s5, hw3, hp, ⟨b5, h5⟩, hl5⟩ := hV s3 (.parseObjectValue :: ps) b3 (by omega) h3
  simp only [List.length_cons] at hp
  rcases sound_afterMember ps s5 b5 h5 with ⟨r, hw4, har, hl6⟩ | ⟨s6, b6, hw4, h6, hl6⟩
  · exact ⟨r, .lastMember hw1 hch hw2 hw3 hp hw4, har, by omega⟩
  · obtain ⟨r, hm, har, hl7⟩ := hM s6 ps b6 (by omega) h6
    exact ⟨r, .moreMembers hw1 hch hw2 hw3 hp hw4 hm, har, by omega⟩

theorem soundObject_step (k : Nat) (hM : SoundMembers (k + 1)) (hO : SoundObject k) :
    SoundObject (k + 1) := by
  intro s ps b hl h
  cases s with
  | nil => simp [accepts_nil] at h
  | cons c s =>
    have hl1 := hl
    simp only [List.length_cons] at hl1
    rw [accepts_beginStringOrEmpty] at h
    rcases h with ⟨hc, h⟩ | ⟨hc, h⟩ | ⟨hc, h⟩
    · have hc1 := (isSpace_iff_ws c).1 hc
      obtain ⟨r, hor, ha, hlen⟩ := hO s ps _ (by omega) h
      refine ⟨r, ?_, ha, by simp only [List.length_cons]; omega⟩
      rcases hor with hw | hm
      · exact Or.inl (.more hc1 hw)
      · exact Or.inr (members_ws hc1 hm)
    · subst hc
      exact ⟨s, Or.inl .done, ⟨_, h⟩, by simp⟩
    · subst hc
      obtain ⟨r, hm, ha, hlen⟩ := hM (34 :: s) ps b hl
        ((accepts_beginString _ b 34 s).2 (Or.inr ⟨rfl, h⟩))
      exact ⟨r, Or.inr hm, ha, hlen⟩

theorem sound_all (k : Nat) :
    SoundValue k ∧ SoundElements k ∧ SoundArray k ∧ SoundMembers k ∧ SoundObject k := by
  induction k with
  | zero =>
    have nil : ∀ s : Bytes, s.length ≤ 0 → s = [] := fun s hl =>
      List.length_eq_zero.1 (Nat.le_zero.1 hl)
    refine ⟨?_, ?_, ?_, ?_, ?_⟩ <;>
    · intro s ps b hl h
      have := nil s hl
      subst this
      simp [accepts_nil] at h
  | succ k ih =>
    obtain ⟨hV, hE, hA, hM, hO⟩ := ih
    have hV1 := soundValue_step k hV hA hO
    have hE1 := soundElements_step k hV1 hE
    have hM1 := soundMembers_step k hV hM
    exact ⟨hV1, hE1, soundArray_step k hE1 hA, hM1, soundObject_step k hM1 hO⟩

theorem jsonText_of_valid (d : Bytes) (h : Valid d = true) : JsonText maxNestingDepth d := by
  rw [valid_iff_accepts] at h
  obtain ⟨s1, r, hw, hp, ⟨b, ha⟩, _⟩ := (sound_all d.length).1 d [] 0 (le_refl _) h
  rw [← accepts_topCfg_iff] at ha
  exact ⟨s1, r, hw, hp, sound_topCfg r b ha⟩

theorem valid_iff_jsonText (d : Bytes) : Valid d = true ↔ JsonText maxNestingDepth d :=
  ⟨jsonText_of_valid d, valid_of_jsonText d⟩

/-! ### Nesting depth and encoding -/

theorem parses_mono {p : Phrase} {n : Nat} {s r : Bytes} (h : Parses p n s r) :
    ∀ m, n ≤ m → Parses p m s r := by
  induction h with
  | string hc => exact fun _ _ => .string hc
  | number hn => exact fun _ _ => .number hn
  | litTrue => exact fun _ _ => .litTrue
  | litFalse => exact fun _ _ => .litFalse
  | litNull => exact fun _ _ => .litNull
  | emptyArray hw =>
    intro m hm
    obtain ⟨m1, rfl⟩ : ∃ m1, m = m1 + 1 := ⟨m - 1, by omega⟩
    exact .emptyArray hw
  | array _ ih =>
    intro m hm
    obtain ⟨m1, rfl⟩ : ∃ m1, m = m1 + 1 := ⟨m - 1, by omega⟩
    exact .array (ih m1 (by omega))
  | emptyObject hw =>
    intro m hm
    obtain ⟨m1, rfl⟩ : ∃ m1, m = m1 + 1 := ⟨m - 1, by omega⟩
    exact .emptyObject hw
  | object _ ih =>
    intro m hm
    obtain ⟨m1, rfl⟩ : ∃ m1, m = m1 + 1 := ⟨m - 1, by omega⟩
    exact .object (ih m1 (by omega))
  | lastElement hw1 _ hw2 ihv => exact fun m hm => .lastElement hw1 (ihv m hm) hw2
  | moreElements hw1 _ hw2 _ ihv ihe =>
    exact fun m hm => .moreElements hw1 (ihv m hm) hw2 (ihe m hm)
  | lastMember hw1 hc hw2 hw3 _ hw4 ihv =>
    exact fun m hm => .lastMember hw1 hc hw2 hw3 (ihv m hm) hw4
  | moreMembers hw1 hc hw2 hw3 _ hw4 _ ihv ihm =>
    exact fun m hm => .moreMembers hw1 hc hw2 hw3 (ihv m hm) hw4 (ihm m hm)

theorem jsonDocument_mono {n m : Nat} {d : Bytes} (h : JsonDocument n d) (hm : n ≤ m) :
    JsonDocument m d := by
  obtain ⟨⟨s1, s2, hw1, hv, hw2⟩, hu⟩ := h
  exact ⟨⟨s1, s2, hw1, parses_mono hv m hm, hw2⟩, hu⟩

theorem valid_of_jsonDocument {n : Nat} {d : Bytes} (h : JsonDocument n d)
    (hn : n ≤ maxNestingDepth) : Valid d = true :=
  valid_of_jsonText d (jsonDocument_mono h hn).1

theorem wellFormedUTF8_ascii (d : Bytes) (h : ∀ c ∈ d, c < 0x80) : WellFormedUTF8 d = true := by
  unfold WellFormedUTF8
  induction d with
  | nil => simp [wellFormedUTF8From]
  | cons c d ih =>
    have hc : c < 0x80 := h c (List.mem_cons_self c d)
    simp only [wellFormedUTF8From, utf8Lead, hc, if_true]
    exact ih (fun x hx => h x (List.mem_cons_of_mem c hx))

theorem nestedArrays_parses (k : Nat) :
    ∀ r, Parses .value (k + 1)
      (List.replicate (k + 1) 91 ++ (List.replicate (k + 1) 93 ++ r)) r := by
  induction k with
  | zero =>
    intro r
    exact .emptyArray .done
  | succ k ih =>
    intro r
    have e : List.replicate (k + 1 + 1) 91 ++ (List.replicate (k + 1 + 1) 93 ++ r)
        = 91 :: (List.replicate (k + 1) 91 ++ (List.replicate (k + 1) 93 ++ 93 :: r)) := by
      have e1 : List.replicate (k + 1 + 1) 91 = 91 :: List.replicate (k + 1) 91 := rfl
      have e2 : List.replicate (k + 1 + 1) 93 = List.replicate (k + 1) 93 ++ [93] :=
        List.replicate_succ' (k + 1) 93
      rw [e1, e2]
      simp
    rw [e]
    exact .array (.lastElement .done (ih (93 :: r)) .done)

theorem nestedArrays_jsonDocument (k : Nat) : JsonDocument (k + 1) (nestedArrays (k + 1)) := by
  refine ⟨⟨_, [], .done, ?_, .done⟩, ?_⟩
  · have := nestedArrays_parses k []
    simpa [nestedArrays] using this
  · apply wellFormedUTF8_ascii
    intro c hc
    simp only [nestedArrays, List.mem_append, List.mem_replicate] at hc
    omega

theorem nested_rejected (k : Nat) :
    ∀ (ps : List ParseState) (b : Nat) (rest : Bytes), ps.length ≤ maxNestingDepth →
      maxNestingDepth < ps.length + k →
      ¬ Accepts (cfg .stateBeginValue ps b) (List.replicate k 91 ++ rest) ∧
      ¬ Accepts (cfg .stateBeginValueOrEmpty ps b) (List.replicate k 91 ++ rest) := by
  induction k with
  | zero =>
    intro ps b rest h1 h2
    omega
  | succ k ih =>
    intro ps b rest h1 h2
    have hbv : ∀ b, ¬ Accepts (cfg .stateBeginValue ps b) (91 :: (List.replicate k 91 ++ rest)) := by
      intro b h
      rw [accepts_beginValue, isSpace_iff_ws] at h
      rcases h with ⟨hc, _⟩ | ⟨hc, _⟩ | ⟨_, hd, h⟩ | ⟨hc, _⟩ | ⟨hc, _⟩ | ⟨hc, _⟩ | ⟨hc, _⟩ |
        ⟨hc, _⟩ | ⟨hc, _⟩ | ⟨hc, _⟩ <;> try omega
      exact (ih (.parseArrayValue :: ps) (b + 1) rest (by simpa using hd)
        (by simp only [List.length_cons]; omega)).2 h
    rw [List.replicate_succ, List.cons_append]
    refine ⟨hbv b, ?_⟩
    intro h
    rw [accepts_beginValueOrEmpty, isSpace_iff_ws] at h
    rcases h with ⟨hc, _⟩ | ⟨hc, _⟩ | ⟨_, _, h⟩
    · omega
    · omega
    · exact hbv b h

theorem nestedArrays_invalid (k : Nat) (h : maxNestingDepth < k) :
    Valid (nestedArrays k) = false := by
  cases hv : Valid (nestedArrays k) with
  | false => rfl
  | true =>
    rw [valid_iff_accepts] at hv
    exact absurd hv (nested_rejected k [] 0 _ (by simp) (by simpa using h)).1

/-! ### Two concrete texts -/

theorem octocatProfile_jsonDocument : JsonDocument maxNestingDepth octocatProfile := by
  have e : octocatProfile
      = 123 :: 34 :: 108 :: 111 :: 103 :: 105 :: 110 :: 34 :: 58 :: 34 :: 111 :: 99 :: 116 ::
          111 :: 99 :: 97 :: 116 :: 34 :: [125] := by decide
  have key : Chars
      (108 :: 111 :: 103 :: 105 :: 110 :: 34 :: 58 :: 34 :: 111 :: 99 :: 116 :: 111 :: 99 ::
        97 :: 116 :: 34 :: [125])
      (58 :: 34 :: 111 :: 99 :: 116 :: 111 :: 99 :: 97 :: 116 :: 34 :: [125]) :=
    .unescaped (by decide) (by decide) (by decide)
      (.unescaped (by decide) (by decide) (by decide)
        (.unescaped (by decide) (by decide) (by decide)
          (.unescaped (by decide) (by decide) (by decide)
            (.unescaped (by decide) (by decide) (by decide) .close))))
  have val : Chars (111 :: 99 :: 116 :: 111 :: 99 :: 97 :: 116 :: 34 :: [125]) [125] :=
    .unescaped (by decide) (by decide) (by decide)
      (.unescaped (by decide) (by decide) (by decide)
        (.unescaped (by decide) (by decide) (by decide)
          (.unescaped (by decide) (by decide) (by decide)
            (.unescaped (by decide) (by decide) (by decide)
              (.unescaped (by decide) (by decide) (by decide)
                (.unescaped (by decide) (by decide) (by decide) .close))))))
  refine ⟨⟨_, [], .done, ?_, .done⟩, by decide⟩
  rw [e]
  show Parses .value (9999 + 1) _ _
  exact .object (.lastMember .done key .done .done (.string val) .done)

theorem truncated_not_jsonText : ¬ JsonText maxNestingDepth (ascii "\x7b\"login\":") :=
  fun h => absurd (valid_of_jsonText _ h) (by decide)

/-! ## The handlers -/

theorem displayUserData_nonempty (w : ResponseWriter) (r : Request) (userData : Bytes)
    (hne : userData ≠ []) :
    displayUserData w r userData =
      match Indent [] userData [] [9] with
      | (_, some _) => .fatal "json indent failed"
      | (jsonResponse, none) =>
        .ok ((w.headerSet "Content-Type" (ascii "application/json")).Write jsonResponse) := by
  have h : ¬ userData.length = 0 := by
    intro h
    exact hne (List.length_eq_zero.1 h)
  simp only [displayUserData, h, if_false, ascii_tab]

/-- C5. For every request, `rootHandler` answers with status 200 and a body
that is exactly (and so contains) the login link; the answers to any two
requests are identical. -/
theorem rootHandler_response (r : Request) :
    (rootHandler newResponseWriter r).response.status = 200 ∧
    (rootHandler newResponseWriter r).response.body
      = ascii "<a href=\"/login/github\">Login with GitHub Account</a>" ∧
    ascii "<a href=\"/login/github\">Login with GitHub Account</a>"
      <:+: (rootHandler newResponseWriter r).response.body ∧
    ∀ r2 : Request,
      (rootHandler newResponseWriter r2).response = (rootHandler newResponseWriter r).response := by
  refine ⟨rfl, rfl, ?_, fun _ => rfl⟩
  exact List.infix_refl _

/-- C3. When `displayUserData` produces a response, that response has status
401 exactly when the user data is empty, and it is the 401 with body
`unauthorized` exactly when the user data is empty: the empty user data is
the only input that yields a 401, and every other input that is answered is
answered with status 200. -/
theorem displayUserData_unauthorized_iff (r : Request) (userData : Bytes) (w : ResponseWriter)
    (h : displayUserData newResponseWriter r userData = .ok w) :
    (w.response.status = 401 ↔ userData = []) ∧
    ((w.response.status = 401 ∧ w.response.body = ascii "unauthorized") ↔ userData = []) ∧
    (userData ≠ [] → w.response.status = 200) := by
  by_cases hne : userData = []
  · subst hne
    have : w = (newResponseWriter.WriteHeader StatusUnauthorized).Write (ascii "unauthorized") := by
      simp [displayUserData] at h
      exact h.symm
    subst this
    exact ⟨⟨fun _ => rfl, fun _ => rfl⟩, ⟨fun _ => rfl, fun _ => ⟨rfl, rfl⟩⟩,
      fun h1 => absurd rfl h1⟩
  · rw [displayUserData_nonempty _ _ _ hne] at h
    have hs : w.response.status = 200 := by
      generalize Indent [] userData [] [9] = res at h
      obtain ⟨out, err⟩ := res
      cases err with
      | some e => simp at h
      | none =>
        simp only [Outcome.ok.injEq] at h
        subst h
        simp [ResponseWriter.response, ResponseWriter.Write, ResponseWriter.WriteHeader,
          ResponseWriter.headerSet, newResponseWriter]
    refine ⟨⟨fun h1 => ?_, fun h1 => absurd h1 hne⟩, ⟨fun h1 => ?_, fun h1 => absurd h1 hne⟩,
      fun _ => hs⟩
    · rw [hs] at h1
      exact absurd h1 (by decide)
    · rw [hs] at h1
      exact absurd h1.1 (by decide)

/-- Witness of C3, on the empty user data, which gives the 401 with body
`unauthorized`, and on `{"login":"octocat"}`, which gives a 200. -/
theorem displayUserData_unauthorized_iff_example :
    (displayUserData newResponseWriter callbackRequest []
        = .ok ((newResponseWriter.WriteHeader 401).Write (ascii "unauthorized")) ∧
      ((((newResponseWriter.WriteHeader 401).Write (ascii "unauthorized")).response.status = 401
          ↔ ([] : Bytes) = []) ∧
        ((((newResponseWriter.WriteHeader 401).Write (ascii "unauthorized")).response.status = 401 ∧
          ((newResponseWriter.WriteHeader 401).Write (ascii "unauthorized")).response.body
            = ascii "unauthorized") ↔ ([] : Bytes) = []) ∧
        (([] : Bytes) ≠ [] →
          ((newResponseWriter.WriteHeader 401).Write (ascii "unauthorized")).response.status
            = 200))) ∧
    ((newResponseWriter.WriteHeader 401).Write (ascii "unauthorized")).response
      = { status := 401, header := [], body := ascii "unauthorized" } ∧
    (displayUserData newResponseWriter callbackRequest octocatProfile).response.map
        (fun res => res.status) = some 200 :=
  ⟨⟨by decide, displayUserData_unauthorized_iff callbackRequest []
      ((newResponseWriter.WriteHeader 401).Write (ascii "unauthorized")) (by decide)⟩,
    by decide, by decide⟩

/-- C4, counterexample. The text of 10001 arrays nested in each other, `[[...]]`,
is not empty and is a valid JSON document (a text of the grammar of RFC
8259 in well-formed UTF-8), and `displayUserData` ends the process on it
with the fatal log `json indent failed` instead of answering: the scanner of
`encoding/json` gives up at the 10001st level. -/
theorem displayUserData_deep_nesting_aborts :
    nestedArrays 10001 ≠ [] ∧ ValidJson (nestedArrays 10001) ∧
    displayUserData newResponseWriter callbackRequest (nestedArrays 10001)
      = .fatal "json indent failed" := by
  have hne : nestedArrays 10001 ≠ [] := by
    intro h
    have := congrArg List.length h
    simp only [nestedArrays, List.length_append, List.length_replicate, List.length_nil] at this
    omega
  refine ⟨hne, ⟨10001, nestedArrays_jsonDocument 10000⟩, ?_⟩
  have hbad : (Indent [] (nestedArrays 10001) [] [9]).2 ≠ none := by
    intro h
    have hv := (Indent_error_iff [] (nestedArrays 10001) [] [9]).1 h
    rw [nestedArrays_invalid 10001 (by decide)] at hv
    exact absurd hv (by simp)
  rw [displayUserData_nonempty _ _ _ hne]
  generalize Indent [] (nestedArrays 10001) [] [9] = res at hbad
  obtain ⟨out, err⟩ := res
  cases err with
  | none => exact absurd rfl hbad
  | some e => rfl

/-- C4, amended. For non-empty user data that is a valid JSON document (a text
of the grammar of RFC 8259 in well-formed UTF-8) with arrays and objects
nested at most 10000 deep, `displayUserData` answers with status 200, the
header `Content-Type: application/json`, and as the body exactly what
`json.Indent` makes of the user data with an empty prefix and a tab as the
indentation. -/
theorem displayUserData_valid_json (r : Request) (userData : Bytes) (hne : userData ≠ [])
    (hvalid : JsonDocument maxNestingDepth userData) :
    (Indent [] userData [] (ascii "\t")).2 = none ∧
    ∃ w, displayUserData newResponseWriter r userData = .ok w ∧
      w.response.status = 200 ∧
      w.response.header.Get "Content-Type" = ascii "application/json" ∧
      w.response.body = (Indent [] userData [] (ascii "\t")).1 := by
  have hok := (Indent_error_iff [] userData [] [9]).2 (valid_of_jsonText userData hvalid.1)
  rw [ascii_tab, displayUserData_nonempty _ _ _ hne]
  refine ⟨hok, ?_⟩
  generalize Indent [] userData [] [9] = res at hok
  obtain ⟨out, err⟩ := res
  simp only at hok
  subst hok
  exact ⟨_, rfl, rfl, rfl, by simp [ResponseWriter.response, ResponseWriter.Write,
    ResponseWriter.WriteHeader, ResponseWriter.headerSet, newResponseWriter]⟩

/-- Witness of C4, amended, on `{"login":"octocat"}`: the body is `{`, newline, tab,
`"login": "octocat"`, newline, `}`.  A second document shows the tabs of
deeper levels and the empty array and object. -/
theorem displayUserData_octocat :
    (octocatProfile ≠ [] ∧ JsonDocument maxNestingDepth octocatProfile) ∧
    ((Indent [] octocatProfile [] (ascii "\t")).2 = none ∧
      ∃ w, displayUserData newResponseWriter callbackRequest octocatProfile = .ok w ∧
        w.response.status = 200 ∧
        w.response.header.Get "Content-Type" = ascii "application/json" ∧
        w.response.body = (Indent [] octocatProfile [] (ascii "\t")).1) ∧
    (Indent [] octocatProfile [] (ascii "\t")).1
      = ascii "\x7b\n\t\"login\": \"octocat\"\n\x7d" ∧
    (Indent [] (ascii "\x7b\"a\":[1,\x7b\"b\":null\x7d,[]],\"c\":\x7b\x7d\x7d") [] (ascii "\t")).1
      = ascii ("\x7b\n\t\"a\": [\n\t\t1,\n\t\t\x7b\n\t\t\t\"b\": null\n\t\t\x7d,\n\t\t[]\n\t],"
          ++ "\n\t\"c\": \x7b\x7d\n\x7d") :=
  ⟨⟨by decide, octocatProfile_jsonDocument⟩,
    displayUserData_valid_json callbackRequest octocatProfile (by decide)
      octocatProfile_jsonDocument,
    by decide, by decide⟩

/-- C9, counterexample. The bytes `{"a":"\xFF"}` are not empty and
are not a valid JSON document, as the byte 0xFF occurs in no well-formed
UTF-8; `displayUserData` does not end the process on them but answers with
status 200 and a JSON body, the same bytes re-indented. -/
theorem displayUserData_invalid_utf8_answers :
    invalidUTF8Profile ≠ [] ∧ ¬ ValidJson invalidUTF8Profile ∧
    (displayUserData newResponseWriter callbackRequest invalidUTF8Profile).response
      = some { status := 200, header := [("Content-Type", [ascii "application/json"])],
               body := [123, 10, 9, 34, 97, 34, 58, 32, 34, 255, 34, 10, 125] } := by
  refine ⟨by decide, ?_, by decide⟩
  rintro ⟨n, _, hu⟩
  exact absurd hu (by decide)

/-- C9, amended. For non-empty user data that does not follow the JSON grammar
of RFC 8259 with arrays and objects nested at most 10000 deep (the grammar
read on bytes: the contents of strings need not be well-formed UTF-8),
`displayUserData` ends the process with the fatal log `json indent failed`:
it returns no response, neither a 401 nor a JSON body. -/
theorem displayUserData_invalid_json_aborts (w : ResponseWriter) (r : Request)
    (userData : Bytes) (hne : userData ≠ [])
    (hinvalid : ¬ JsonText maxNestingDepth userData) :
    displayUserData w r userData = .fatal "json indent failed" := by
  have hbad : (Indent [] userData [] [9]).2 ≠ none := by
    intro h
    exact hinvalid (jsonText_of_valid userData ((Indent_error_iff [] userData [] [9]).1 h))
  rw [displayUserData_nonempty _ _ _ hne]
  generalize Indent [] userData [] [9] = res at hbad
  obtain ⟨out, err⟩ := res
  cases err with
  | none => exact absurd rfl hbad
  | some e => rfl

/-- Witness of C9, amended, on the truncated document `{"login":`. -/
theorem displayUserData_truncated_json_aborts :
    (ascii "\x7b\"login\":" ≠ [] ∧ ¬ JsonText maxNestingDepth (ascii "\x7b\"login\":")) ∧
    displayUserData newResponseWriter callbackRequest (ascii "\x7b\"login\":")
      = .fatal "json indent failed" :=
  ⟨⟨by decide, truncated_not_jsonText⟩,
    displayUserData_invalid_json_aborts newResponseWriter callbackRequest
      (ascii "\x7b\"login\":") (by decide) truncated_not_jsonText⟩

/-- The callback, once the environment holds the two client values: the token
request, then the profile request, then `displayUserData`. -/
theorem githubCallbackHandler_unfold (lib : Library) (env : Env) (client : Client)
    (w : ResponseWriter) (r : Request) (clientID clientSecret : Bytes)
    (hid : LookupEnv env "GITHUB_CLIENT_ID" = some clientID)
    (hsecret : LookupEnv env "GITHUB_CLIENT_SECRET" = some clientSecret) :
    githubCallbackHandler lib env client w r =
      match client (accessTokenRequest lib clientID clientSecret
          (valuesGet r.Query (ascii "code"))) with
      | .error _ => .fatal "send http request failed"
      | .ok res =>
        match res.Body with
        | .error _ => .fatal "io read all failed"
        | .ok tokenBody =>
          match Unmarshal lib tokenBody { AccessToken := [], TokenType := [], Scope := [] } with
          | (_, some _) => .fatal "json unmarshal failed"
          | (gatr, none) =>
            match client (userDataRequest gatr.AccessToken) with
            | .error _ => .fatal "send http request failed"
            | .ok res =>
              match res.Body with
              | .error _ => .fatal "io read all failed"
              | .ok userData => displayUserData w r userData := by
  simp only [githubCallbackHandler, getGithubAccessToken, getEnvValue, hid, hsecret,
    getGithubUserData]
  cases client (accessTokenRequest lib clientID clientSecret (valuesGet r.Query (ascii "code")))
    with
  | error e => rfl
  | ok res =>
    simp only
    cases res.Body with
    | error e => rfl
    | ok tokenBody =>
      simp only
      generalize Unmarshal lib tokenBody { AccessToken := [], TokenType := [], Scope := [] } = u
      obtain ⟨gatr, err⟩ := u
      cases err with
      | some e => rfl
      | none =>
        simp only
        cases client (userDataRequest gatr.AccessToken) with
        | error e => rfl
        | ok res2 =>
          simp only
          cases res2.Body with
          | error e => rfl
          | ok b => rfl

/-- The profile request carries the header `Authorization: token <token>`. -/
theorem userDataRequest_header (t : Bytes) :
    (userDataRequest t).Method = "GET" ∧ (userDataRequest t).URL = "https://api.github.com/user" ∧
      (userDataRequest t).Header.Get "Authorization" = ascii "token " ++ t := by
  refine ⟨rfl, rfl, ?_⟩
  simp [userDataRequest, NewRequest, Header.Set, Header.Get, List.lookup]

/-- C1, amended. For every request (every authorization code), when the body
of the token endpoint's response is one that `json.Unmarshal` decodes without
error into the token response, with access token `t`, and the profile endpoint
returns the body `b` for a request carrying `Authorization: token t`, the
callback produces exactly what `displayUserData` produces for `b`. -/
theorem githubCallbackHandler_eq_displayUserData (lib : Library) (env : Env) (client : Client)
    (w : ResponseWriter) (r : Request) (clientID clientSecret tokenBody t tokenType scope b : Bytes)
    (tokenStatus : Nat)
    (hid : LookupEnv env "GITHUB_CLIENT_ID" = some clientID)
    (hsecret : LookupEnv env "GITHUB_CLIENT_SECRET" = some clientSecret)
    (htoken : client (accessTokenRequest lib clientID clientSecret
        (valuesGet r.Query (ascii "code"))) = .ok { StatusCode := tokenStatus, Body := .ok tokenBody })
    (hdecode : Unmarshal lib tokenBody { AccessToken := [], TokenType := [], Scope := [] }
        = ({ AccessToken := t, TokenType := tokenType, Scope := scope }, none))
    (hprofile : ∀ req : ClientRequest, req.Method = "GET" →
        req.URL = "https://api.github.com/user" →
        req.Header.Get "Authorization" = ascii "token " ++ t →
        ∃ status, client req = .ok { StatusCode := status, Body := .ok b }) :
    githubCallbackHandler lib env client w r = displayUserData w r b := by
  obtain ⟨h1, h2, h3⟩ := userDataRequest_header t
  obtain ⟨status, hp⟩ := hprofile (userDataRequest t) h1 h2 h3
  rw [githubCallbackHandler_unfold lib env client w r clientID clientSecret hid hsecret, htoken]
  simp only [hdecode, hp]

/-- Witness of C1: with the token response
`{"access_token":"tok123","token_type":"bearer","scope":""}`, the profile body
`{"login":"octocat"}` and the code `abc`, the response has status 200, the
header `Content-Type: application/json`, and the tab-indented body. -/
theorem githubCallbackHandler_octocat :
    Unmarshal plainLibrary tok123Body { AccessToken := [], TokenType := [], Scope := [] }
      = ({ AccessToken := ascii "tok123", TokenType := ascii "bearer", Scope := [] }, none) ∧
    githubCallbackHandler plainLibrary fullEnv
        (simulatedClient 200 tok123Body (ascii "tok123") 200 octocatProfile)
        newResponseWriter callbackRequest
      = displayUserData newResponseWriter callbackRequest octocatProfile ∧
    (displayUserData newResponseWriter callbackRequest octocatProfile).response
      = some { status := 200, header := [("Content-Type", [ascii "application/json"])],
               body := ascii "\x7b\n\t\"login\": \"octocat\"\n\x7d" } :=
  ⟨by decide,
    githubCallbackHandler_eq_displayUserData plainLibrary fullEnv
      (simulatedClient 200 tok123Body (ascii "tok123") 200 octocatProfile)
      newResponseWriter callbackRequest (ascii "id") (ascii "secret") tok123Body (ascii "tok123")
      (ascii "bearer") [] octocatProfile 200 (by decide) (by decide) (by rfl) (by decide)
      (fun req _ hurl hauth => ⟨200, by simp [simulatedClient, hurl, hauth]⟩),
    by decide⟩

/-- C1, counterexample. The token response `{"access_token":"t","scope":5}` is
a JSON object whose `access_token` field is the string `t`, and the profile
endpoint returns `{"login":"octocat"}` for `Authorization: token t`; yet the
callback ends the process (`json.Unmarshal` reports the number in the string
field `scope`), while `displayUserData` answers with a 200 for that profile. -/
theorem githubCallbackHandler_type_mismatch_aborts :
    Valid (ascii "\x7b\"access_token\":\"t\",\"scope\":5\x7d") = true ∧
    Unmarshal plainLibrary (ascii "\x7b\"access_token\":\"t\",\"scope\":5\x7d")
        { AccessToken := [], TokenType := [], Scope := [] }
      = ({ AccessToken := ascii "t", TokenType := [], Scope := [] },
          some (.typeError "number")) ∧
    githubCallbackHandler plainLibrary fullEnv
        (simulatedClient 200 (ascii "\x7b\"access_token\":\"t\",\"scope\":5\x7d") (ascii "t") 200
          octocatProfile)
        newResponseWriter callbackRequest
      = .fatal "json unmarshal failed" ∧
    (displayUserData newResponseWriter callbackRequest octocatProfile).response
      = some { status := 200, header := [("Content-Type", [ascii "application/json"])],
               body := ascii "\x7b\n\t\"login\": \"octocat\"\n\x7d" } ∧
    githubCallbackHandler plainLibrary fullEnv
        (simulatedClient 200 (ascii "\x7b\"access_token\":\"t\",\"scope\":5\x7d") (ascii "t") 200
          octocatProfile)
        newResponseWriter callbackRequest
      ≠ displayUserData newResponseWriter callbackRequest octocatProfile := by
  refine ⟨by decide, by decide, by decide, by decide, by decide⟩

/-! ## The login redirect -/

theorem getScheme_https (t : Bytes) :
    getScheme (104 :: 116 :: 116 :: 112 :: 115 :: 58 :: t)
      = some ([104, 116, 116, 112, 115], t) := by
  simp [getScheme, getSchemeLoop]

/-- A URL that starts with `https:` parses, if it parses, with the scheme
`https`. -/
theorem urlParse_https (lib : Library) (tail : Bytes) :
    urlParse lib (104 :: 116 :: 116 :: 112 :: 115 :: 58 :: tail) = none ∨
      ∃ host, urlParse lib (104 :: 116 :: 116 :: 112 :: 115 :: 58 :: tail)
        = some { Scheme := [104, 116, 116, 112, 115], Host := host } := by
  simp only [urlParse, List.takeWhile_cons]
  simp only [bne_iff_ne, ne_eq, Nat.reduceEqDiff, not_false_eq_true, decide_True, if_true]
  rw [getScheme_https]
  split
  · exact Or.inl rfl
  · have h42 : ¬ (104 :: 116 :: 116 :: 112 :: 115 :: 58
        :: List.takeWhile (fun c => !decide (c = 35)) tail = [42]) := by simp
    simp only [h42, if_false]
    have hl : toLowerASCII [104, 116, 116, 112, 115] = [104, 116, 116, 112, 115] := by decide
    rw [hl]
    cases lib.urlParseRest _ _ _ with
    | none => exact Or.inl rfl
    | some host => exact Or.inr ⟨host, rfl⟩

/-- The function `http.Redirect` leaves a URL that starts with `https:` as it
is: the relative branch is not taken. -/
theorem Redirect_https (lib : Library) (r : Request) (tail : Bytes) (code : Nat) :
    ((Redirect lib newResponseWriter r (104 :: 116 :: 116 :: 112 :: 115 :: 58 :: tail)
        code).response.status = code) ∧
    ((Redirect lib newResponseWriter r (104 :: 116 :: 116 :: 112 :: 115 :: 58 :: tail)
        code).response.header.Get "Location"
      = hexEscapeNonASCII (104 :: 116 :: 116 :: 112 :: 115 :: 58 :: tail)) := by
  have hu : (match urlParse lib (104 :: 116 :: 116 :: 112 :: 115 :: 58 :: tail) with
      | some u =>
        if (u.Scheme = [] && u.Host = []) = true then
          lib.redirectRelative (if r.Path = [] then [47] else r.Path)
            (104 :: 116 :: 116 :: 112 :: 115 :: 58 :: tail)
        else (104 :: 116 :: 116 :: 112 :: 115 :: 58 :: tail)
      | none => (104 :: 116 :: 116 :: 112 :: 115 :: 58 :: tail))
      = (104 :: 116 :: 116 :: 112 :: 115 :: 58 :: tail) := by
    rcases urlParse_https lib tail with h | ⟨host, h⟩
    · rw [h]
    · rw [h]
      simp
  unfold Redirect
  simp only [hu]
  have hne1 : ascii "HEAD" ≠ ascii "GET" := by decide
  have hne2 : ascii "GET" ≠ ascii "HEAD" := by decide
  by_cases h1 : r.Method = ascii "GET" <;> by_cases h2 : r.Method = ascii "HEAD" <;>
    simp [h1, h2, hne1, hne2, newResponseWriter, ResponseWriter.headerSet, ResponseWriter.WriteHeader,
      ResponseWriter.Write, ResponseWriter.response, Header.Set, Header.Get, List.lookup]

theorem hexEscapeNonASCII_ascii (s : Bytes) (h : ∀ c ∈ s, c < 0x80) :
    hexEscapeNonASCII s = s := by
  induction s with
  | nil => rfl
  | cons c s ih =>
    have hc : ¬ c ≥ 0x80 := by
      have := h c (List.mem_cons_self _ _)
      omega
    have ih := ih (fun x hx => h x (List.mem_cons_of_mem _ hx))
    simp only [hexEscapeNonASCII, List.flatMap_cons, hc, if_false] at ih ⊢
    rw [ih]
    rfl

/-- C2, amended. For every request and every configuration in which the four
values are set, `githubLoginHandler` answers with status 301 and a `Location`
header that is the authorization URL with the four values substituted and
every byte from 0x80 written as `%` and two hexadecimal digits; it is that URL
itself when the four values are ASCII. -/
theorem githubLoginHandler_location (lib : Library) (env : Env) (r : Request)
    (clientID protocol host port : Bytes)
    (hid : LookupEnv env "GITHUB_CLIENT_ID" = some clientID)
    (hprotocol : LookupEnv env "PROTOCOL" = some protocol)
    (hhost : LookupEnv env "HOST" = some host)
    (hport : LookupEnv env "PORT" = some port) :
    ∃ w, githubLoginHandler lib env newResponseWriter r = .ok w ∧
      w.response.status = 301 ∧
      w.response.header.Get "Location"
        = hexEscapeNonASCII (authorizeURL clientID protocol host port) ∧
      ((∀ c ∈ clientID ++ protocol ++ host ++ port, c < 0x80) →
        w.response.header.Get "Location" = authorizeURL clientID protocol host port) := by
  have hurl : ascii "https://github.com/login/oauth/authorize?client_id=" ++ clientID
        ++ ascii "&redirect_uri="
        ++ (protocol ++ ascii "://" ++ host ++ ascii ":" ++ port ++ ascii "/login/github/callback")
      = authorizeURL clientID protocol host port := by
    simp [authorizeURL, List.append_assoc]
  have hhead : ∃ tail, authorizeURL clientID protocol host port
      = 104 :: 116 :: 116 :: 112 :: 115 :: 58 :: tail := by
    refine ⟨ascii "//github.com/login/oauth/authorize?client_id=" ++ clientID
      ++ ascii "&redirect_uri=" ++ protocol ++ ascii "://" ++ host ++ ascii ":" ++ port
      ++ ascii "/login/github/callback", ?_⟩
    have : ascii "https://github.com/login/oauth/authorize?client_id="
        = 104 :: 116 :: 116 :: 112 :: 115 :: 58
          :: ascii "//github.com/login/oauth/authorize?client_id=" := by decide
    simp only [authorizeURL, this, List.cons_append]
  obtain ⟨tail, htail⟩ := hhead
  have hR := Redirect_https lib r tail 301
  rw [← htail] at hR
  refine ⟨Redirect lib newResponseWriter r (authorizeURL clientID protocol host port) 301, ?_,
    hR.1, hR.2, fun hascii => ?_⟩
  · simp only [githubLoginHandler, getEnvValue, hid, hprotocol, hhost, hport, hurl,
      StatusMovedPermanently]
  · rw [hR.2]
    apply hexEscapeNonASCII_ascii
    intro c hc
    simp only [authorizeURL, List.mem_append] at hc
    have hlit : ∀ s ∈ [ascii "https://github.com/login/oauth/authorize?client_id=",
        ascii "&redirect_uri=", ascii "://", ascii ":", ascii "/login/github/callback"],
        ∀ c ∈ s, c < 0x80 := by decide
    simp only [List.mem_cons, List.mem_singleton, forall_eq_or_imp, forall_eq,
      List.not_mem_nil, false_implies, implies_true, and_true] at hlit
    obtain ⟨l1, l2, l3, l4, l5⟩ := hlit
    have hv : ∀ c, (c ∈ clientID ∨ c ∈ protocol ∨ c ∈ host ∨ c ∈ port) → c < 0x80 := by
      intro c h
      apply hascii
      simp only [List.mem_append]
      tauto
    rcases hc with ((((((((h | h) | h) | h) | h) | h) | h) | h) | h)
    · exact l1 c h
    · exact hv c (Or.inl h)
    · exact l2 c h
    · exact hv c (Or.inr (Or.inl h))
    · exact l3 c h
    · exact hv c (Or.inr (Or.inr (Or.inl h)))
    · exact l4 c h
    · exact hv c (Or.inr (Or.inr (Or.inr h)))
    · exact l5 c h


/-- Witness of C2, amended: the configuration `id`, `http`, `localhost`,
`8080`. -/
theorem githubLoginHandler_location_example :
    ∃ w, githubLoginHandler plainLibrary fullEnv newResponseWriter loginRequest = .ok w ∧
      w.response.status = 301 ∧
      w.response.header.Get "Location"
        = hexEscapeNonASCII (authorizeURL (ascii "id") (ascii "http") (ascii "localhost")
            (ascii "8080")) ∧
      ((∀ c ∈ ascii "id" ++ ascii "http" ++ ascii "localhost" ++ ascii "8080", c < 0x80) →
        w.response.header.Get "Location"
          = authorizeURL (ascii "id") (ascii "http") (ascii "localhost") (ascii "8080")) :=
  githubLoginHandler_location plainLibrary fullEnv loginRequest (ascii "id") (ascii "http")
    (ascii "localhost") (ascii "8080") (by decide) (by decide) (by decide) (by decide)

set_option maxRecDepth 100000 in
/-- C2, counterexample. With `HOST` set to `é` (and the other three values to
`id`, `http`, `8080`) the response is a 301 whose `Location` header has
`%c3%a9` for the host: it is not the URL with the configured values
substituted. -/
theorem githubLoginHandler_nonascii_host :
    (githubLoginHandler plainLibrary accentEnv newResponseWriter loginRequest).response.map
        (fun res => (res.status, res.header.Get "Location"))
      = some (301, ascii ("https://github.com/login/oauth/authorize?client_id=id"
          ++ "&redirect_uri=http://%c3%a9:8080/login/github/callback")) ∧
    ascii ("https://github.com/login/oauth/authorize?client_id=id"
          ++ "&redirect_uri=http://%c3%a9:8080/login/github/callback")
      ≠ authorizeURL (ascii "id") (ascii "http") [0xC3, 0xA9] (ascii "8080") := by
  decide

/-! ## The token request -/

/-- C6, at the failing input. For the code consisting of the byte 0x01 (the
request `/login/github/callback?code=%01`), the request built by
`getGithubAccessToken` is a POST with `Content-Type` and `Accept` both
`application/json`, but its body has the Go escape `\x01` for the code and is
not a valid JSON document. -/
theorem accessTokenRequest_control_byte :
    (accessTokenRequest plainLibrary (ascii "id") (ascii "secret") [1]).Method = "POST" ∧
    (accessTokenRequest plainLibrary (ascii "id") (ascii "secret") [1]).Header.Get "Content-Type"
      = ascii "application/json" ∧
    (accessTokenRequest plainLibrary (ascii "id") (ascii "secret") [1]).Header.Get "Accept"
      = ascii "application/json" ∧
    (accessTokenRequest plainLibrary (ascii "id") (ascii "secret") [1]).Body
      = ascii "\x7b\"client_id\":\"id\",\"client_secret\":\"secret\",\"code\":\"\\x01\"\x7d" ∧
    Valid (accessTokenRequest plainLibrary (ascii "id") (ascii "secret") [1]).Body = false := by
  decide

/-! ## Failed calls -/

theorem getGithubUserData_agree (client1 client2 : Client) (h : AgreeUpToStatus client1 client2)
    (t : Bytes) : getGithubUserData client2 t = getGithubUserData client1 t := by
  have h := h (userDataRequest t)
  unfold getGithubUserData
  cases h1 : client1 (userDataRequest t) <;> cases h2 : client2 (userDataRequest t) <;>
    simp only [h1, h2] at h ⊢
  rw [h]

theorem getGithubAccessToken_agree (lib : Library) (env : Env) (client1 client2 : Client)
    (h : AgreeUpToStatus client1 client2) (code : Bytes) :
    getGithubAccessToken lib env client2 code = getGithubAccessToken lib env client1 code := by
  unfold getGithubAccessToken
  cases getEnvValue env "GITHUB_CLIENT_ID" with
  | fatal msg => rfl
  | ok clientID =>
    cases getEnvValue env "GITHUB_CLIENT_SECRET" with
    | fatal msg => rfl
    | ok clientSecret =>
      have h := h (accessTokenRequest lib clientID clientSecret code)
      simp only
      cases h1 : client1 (accessTokenRequest lib clientID clientSecret code) <;>
        cases h2 : client2 (accessTokenRequest lib clientID clientSecret code) <;>
        simp only [h1, h2] at h ⊢
      rw [h]

/-- C8, amended. For each of the two outbound calls, whenever the call ends in
a transport error or in a body-read error, the callback ends the process
instead of writing a response; the status of a response is not looked at,
whether a call fails or not: two endpoints that differ only in the status
codes they answer with lead to the same outcome. -/
theorem githubCallbackHandler_aborts_on_failed_call (lib : Library) (env : Env)
    (client : Client) (w : ResponseWriter) (r : Request) :
    (∀ clientID clientSecret : Bytes,
      LookupEnv env "GITHUB_CLIENT_ID" = some clientID →
      LookupEnv env "GITHUB_CLIENT_SECRET" = some clientSecret →
      ((∃ e, client (accessTokenRequest lib clientID clientSecret
          (valuesGet r.Query (ascii "code"))) = .error e) ∨
       (∃ status e, client (accessTokenRequest lib clientID clientSecret
          (valuesGet r.Query (ascii "code"))) = .ok { StatusCode := status, Body := .error e }) ∨
       (∃ status tokenBody gatr,
        client (accessTokenRequest lib clientID clientSecret
          (valuesGet r.Query (ascii "code"))) = .ok { StatusCode := status, Body := .ok tokenBody } ∧
        Unmarshal lib tokenBody { AccessToken := [], TokenType := [], Scope := [] }
          = (gatr, none) ∧
        ((∃ e, client (userDataRequest gatr.AccessToken) = .error e) ∨
         (∃ status e, client (userDataRequest gatr.AccessToken)
            = .ok { StatusCode := status, Body := .error e })))) →
      ∃ msg, githubCallbackHandler lib env client w r = .fatal msg) ∧
    (∀ client2, AgreeUpToStatus client client2 →
      githubCallbackHandler lib env client2 w r = githubCallbackHandler lib env client w r) := by
  constructor
  · intro clientID clientSecret hid hsecret hfail
    rw [githubCallbackHandler_unfold lib env client w r clientID clientSecret hid hsecret]
    rcases hfail with ⟨e, h⟩ | ⟨status, e, h⟩ | ⟨status, tokenBody, gatr, h, hu, h2⟩
    · rw [h]
      exact ⟨_, rfl⟩
    · rw [h]
      exact ⟨_, rfl⟩
    · rw [h]
      simp only [hu]
      rcases h2 with ⟨e, h2⟩ | ⟨status, e, h2⟩
      · rw [h2]
        exact ⟨_, rfl⟩
      · rw [h2]
        exact ⟨_, rfl⟩
  · intro client2 hagree
    simp only [githubCallbackHandler]
    rw [getGithubAccessToken_agree lib env client client2 hagree]
    cases getGithubAccessToken lib env client (valuesGet r.Query (ascii "code")) with
    | fatal msg => rfl
    | ok t =>
      simp only
      rw [getGithubUserData_agree client client2 hagree]

/-- Witness of C8, amended: a client whose every call ends in a transport
error. -/
theorem githubCallbackHandler_unreachable :
    (LookupEnv fullEnv "GITHUB_CLIENT_ID" = some (ascii "id") ∧
      LookupEnv fullEnv "GITHUB_CLIENT_SECRET" = some (ascii "secret") ∧
      ∃ e, unreachableClient (accessTokenRequest plainLibrary (ascii "id") (ascii "secret")
        (valuesGet callbackRequest.Query (ascii "code"))) = .error e) ∧
    ((∃ msg, githubCallbackHandler plainLibrary fullEnv unreachableClient newResponseWriter
        callbackRequest = .fatal msg) ∧
      (∀ client2, AgreeUpToStatus unreachableClient client2 →
        githubCallbackHandler plainLibrary fullEnv client2 newResponseWriter callbackRequest
          = githubCallbackHandler plainLibrary fullEnv unreachableClient newResponseWriter
              callbackRequest)) ∧
    githubCallbackHandler plainLibrary fullEnv unreachableClient newResponseWriter callbackRequest
      = .fatal "send http request failed" :=
  ⟨⟨by decide, by decide, _, rfl⟩,
    ⟨(githubCallbackHandler_aborts_on_failed_call plainLibrary fullEnv unreachableClient
        newResponseWriter callbackRequest).1 (ascii "id") (ascii "secret") (by decide) (by decide)
        (Or.inl ⟨_, rfl⟩),
      (githubCallbackHandler_aborts_on_failed_call plainLibrary fullEnv unreachableClient
        newResponseWriter callbackRequest).2⟩,
    by decide⟩

/-- C8, counterexample. The token endpoint answers with status 500 (and the
body of a token response) and the profile endpoint with status 404 and an
empty body: the callback does not end the process, it writes the 401
response.  With status 401 and the body `{"message":"Bad credentials"}` from
the profile endpoint it writes a 200 with that body indented. -/
theorem githubCallbackHandler_non2xx_answers :
    (githubCallbackHandler plainLibrary fullEnv
        (simulatedClient 500 tok123Body (ascii "tok123") 404 [])
        newResponseWriter callbackRequest).response
      = some { status := 401, header := [], body := ascii "unauthorized" } ∧
    (githubCallbackHandler plainLibrary fullEnv
        (simulatedClient 200 tok123Body (ascii "tok123") 401
          (ascii "\x7b\"message\":\"Bad credentials\"\x7d"))
        newResponseWriter callbackRequest).response
      = some { status := 200, header := [("Content-Type", [ascii "application/json"])],
               body := ascii "\x7b\n\t\"message\": \"Bad credentials\"\n\x7d" } := by
  decide

/-! ## Startup -/

theorem lookup_filter_none (key : String) (vars : List (String × Bytes))
    (p : String × Bytes → Bool) (h : vars.lookup key = none) :
    (vars.filter p).lookup key = none := by
  induction vars with
  | nil => rfl
  | cons kv vars ih =>
    obtain ⟨k, v⟩ := kv
    simp only [List.lookup] at h
    split at h
    · exact absurd h (by simp)
    · rename_i hk
      simp only [List.filter]
      split
      · simp only [List.lookup, hk]
        exact ih h
      · exact ih h

theorem lookup_append_none (key : String) (a b : List (String × Bytes))
    (ha : a.lookup key = none) (hb : b.lookup key = none) : (a ++ b).lookup key = none := by
  induction a with
  | nil => exact hb
  | cons kv a ih =>
    obtain ⟨k, v⟩ := kv
    simp only [List.lookup] at ha
    split at ha
    · exact absurd ha (by simp)
    · rename_i hk
      simp only [List.cons_append, List.lookup, hk]
      exact ih ha

/-- C10, amended. When `PORT` is absent, from the environment of the process
and from `.env`, startup ends fatally before `http.ListenAndServe` is called.
The other four values are not read at startup: a handler invoked with one of
the values it reads missing ends the process at that request, and whenever
`.env` is read and `PORT` is present, startup reaches `http.ListenAndServe`
with `:` and the port, whatever the other four values are. -/
theorem startup_fatal_without_port (dotenv : Option (List (String × Bytes))) (env : Env)
    (henv : LookupEnv env "PORT" = none)
    (hfile : ∀ vars, dotenv = some vars → vars.lookup "PORT" = none) :
    (∃ msg, startup dotenv env = .fatal msg) ∧
    (∀ (lib : Library) (env2 : Env) (w : ResponseWriter) (r : Request),
      (LookupEnv env2 "GITHUB_CLIENT_ID" = none ∨ LookupEnv env2 "PROTOCOL" = none ∨
        LookupEnv env2 "HOST" = none ∨ LookupEnv env2 "PORT" = none) →
      ∃ msg, githubLoginHandler lib env2 w r = .fatal msg) ∧
    (∀ (lib : Library) (env2 : Env) (client : Client) (w : ResponseWriter) (r : Request),
      (LookupEnv env2 "GITHUB_CLIENT_ID" = none ∨ LookupEnv env2 "GITHUB_CLIENT_SECRET" = none) →
      ∃ msg, githubCallbackHandler lib env2 client w r = .fatal msg) ∧
    (∀ (vars : List (String × Bytes)) (env2 : Env) (port : Bytes),
      LookupEnv (env2 ++ vars.filter (fun kv => (env2.lookup kv.1).isNone)) "PORT" = some port →
      startup (some vars) env2
        = .ok (env2 ++ vars.filter (fun kv => (env2.lookup kv.1).isNone), ascii ":" ++ port)) := by
  refine ⟨?_, ?_, ?_, ?_⟩
  · cases dotenv with
    | none => exact ⟨_, rfl⟩
    | some vars =>
      have h := lookup_append_none "PORT" env
        (vars.filter (fun kv => (env.lookup kv.1).isNone)) henv
        (lookup_filter_none "PORT" vars _ (hfile vars rfl))
      refine ⟨"missing PORT in .env", ?_⟩
      simp only [startup, init, godotenvLoad, main, getEnvValue, LookupEnv, h]
      rfl
  · intro lib env2 w r h
    unfold githubLoginHandler getEnvValue
    cases h1 : LookupEnv env2 "GITHUB_CLIENT_ID" with
    | none => exact ⟨_, rfl⟩
    | some a =>
      cases h2 : LookupEnv env2 "PROTOCOL" with
      | none => exact ⟨_, rfl⟩
      | some b =>
        cases h3 : LookupEnv env2 "HOST" with
        | none => exact ⟨_, rfl⟩
        | some c =>
          cases h4 : LookupEnv env2 "PORT" with
          | none => exact ⟨_, rfl⟩
          | some d => simp [h1, h2, h3, h4] at h
  · intro lib env2 client w r h
    unfold githubCallbackHandler getGithubAccessToken getEnvValue
    cases h1 : LookupEnv env2 "GITHUB_CLIENT_ID" with
    | none => exact ⟨_, rfl⟩
    | some a =>
      cases h2 : LookupEnv env2 "GITHUB_CLIENT_SECRET" with
      | none => exact ⟨_, rfl⟩
      | some b => simp [h1, h2] at h
  · intro vars env2 port h
    simp only [startup, init, godotenvLoad, main, getEnvValue, h]

/-- Witness of C10, amended: a process with an empty environment and a `.env`
that sets the other four values only. -/
theorem startup_fatal_without_port_example :
    (LookupEnv [] "PORT" = none ∧
      ∀ vars, some [("GITHUB_CLIENT_ID", ascii "id"), ("GITHUB_CLIENT_SECRET", ascii "secret"),
          ("PROTOCOL", ascii "http"), ("HOST", ascii "localhost")] = some vars →
        vars.lookup "PORT" = none) ∧
    startup (some [("GITHUB_CLIENT_ID", ascii "id"), ("GITHUB_CLIENT_SECRET", ascii "secret"),
        ("PROTOCOL", ascii "http"), ("HOST", ascii "localhost")]) []
      = .fatal "missing PORT in .env" ∧
    (∃ msg, startup (some [("GITHUB_CLIENT_ID", ascii "id"),
        ("GITHUB_CLIENT_SECRET", ascii "secret"), ("PROTOCOL", ascii "http"),
        ("HOST", ascii "localhost")]) [] = .fatal msg) :=
  ⟨⟨rfl, fun vars h => by cases h; rfl⟩, by decide,
    (startup_fatal_without_port (some [("GITHUB_CLIENT_ID", ascii "id"),
      ("GITHUB_CLIENT_SECRET", ascii "secret"), ("PROTOCOL", ascii "http"),
      ("HOST", ascii "localhost")]) [] rfl (fun vars h => by cases h; rfl)).1⟩

/-- C10, counterexample. With only `PORT` set (in `.env`), startup does not
end fatally: `http.ListenAndServe` is called with `:8080`, although
`GITHUB_CLIENT_ID`, `GITHUB_CLIENT_SECRET`, `PROTOCOL` and `HOST` are absent;
the login handler is then invoked with `GITHUB_CLIENT_ID` missing, and ends
the process. -/
theorem startup_listens_without_client_id :
    startup (some [("PORT", ascii "8080")]) []
      = .ok ([("PORT", ascii "8080")], ascii ":8080") ∧
    LookupEnv [("PORT", ascii "8080")] "GITHUB_CLIENT_ID" = none ∧
    githubLoginHandler plainLibrary [("PORT", ascii "8080")] newResponseWriter loginRequest
      = .fatal "missing GITHUB_CLIENT_ID in .env" := by
  decide

/-! ## The concrete runs and the library parameters -/

set_option maxRecDepth 100000 in
/-- The run of the callback on the token response `{"access_token":"t","scope":5}`
ends the process whatever the library parameters are. -/
theorem callback_type_mismatch_any_library (lib : Library) :
    githubCallbackHandler lib fullEnv
        (simulatedClient 200 (ascii "\x7b\"access_token\":\"t\",\"scope\":5\x7d") (ascii "t") 200
          octocatProfile)
        newResponseWriter callbackRequest
      = .fatal "json unmarshal failed" := by
  rfl

set_option maxRecDepth 100000 in
/-- The body of the token request for the code 0x01 is the same whatever the
library parameters are. -/
theorem accessTokenRequest_any_library (lib : Library) :
    (accessTokenRequest lib (ascii "id") (ascii "secret") [1]).Body
      = ascii "\x7b\"client_id\":\"id\",\"client_secret\":\"secret\",\"code\":\"\\x01\"\x7d" := by
  rfl

set_option maxRecDepth 100000 in
/-- The runs of the callback against endpoints that answer with a non-2xx
status are the same whatever the library parameters are. -/
theorem callback_non2xx_any_library (lib : Library) :
    (githubCallbackHandler lib fullEnv
        (simulatedClient 500 tok123Body (ascii "tok123") 404 [])
        newResponseWriter callbackRequest).response
      = some { status := 401, header := [], body := ascii "unauthorized" } ∧
    (githubCallbackHandler lib fullEnv
        (simulatedClient 200 tok123Body (ascii "tok123") 401
          (ascii "\x7b\"message\":\"Bad credentials\"\x7d"))
        newResponseWriter callbackRequest).response
      = some { status := 200, header := [("Content-Type", [ascii "application/json"])],
               body := ascii "\x7b\n\t\"message\": \"Bad credentials\"\n\x7d" } := by
  exact ⟨rfl, rfl⟩

end GithubOAuth
